import Mathlib

/-!
The i3bar status-line child protocol (`i3bar/src/child.cpp`).

A shallow embedding of the status-line engine of i3bar: the two statuslines
(active `statusline_head`, staging `statusline_buffer`), the callbacks the
streaming JSON parser drives, the error statusline, the click-event encoder
and the child process record.

Conventions of the embedding

* A C string (`char *`) is a `String`; a pointer that may be `NULL` is an
  `Option`.  A `(pointer, length)` pair handed over by the parser is a
  `String` that may contain NUL characters; C-string functions see it up to
  its first NUL (`c_str`).
* A `TAILQ` of blocks is a `List status_block` in queue order
  (`TAILQ_INSERT_TAIL` appends, `TAILQ_INSERT_HEAD` conses).
* In the first part a rich text is held by value in its block (blocks that
  share one `i3String` in the source hold equal values there) and `free` has
  no counterpart.  What rests on the sharing of texts between blocks, on
  `free`, on the `int` variables and on the size of the read buffer is stated
  of the definitions named `Mem.`, which follow the source at the level of the
  machine: blocks with pointers into a heap of objects, and a read loop over an
  allocation of definite size.  Allocation (`smalloc`, `scalloc`, `vasprintf`)
  is taken to succeed.
* Calls into the outside world (signals, writes to the child, render
  requests, watcher management) are appended, in program order, to the
  `trace` of the state.
-/

namespace I3bar

/-! ## Data model -/

/-- Rich text of libi3 (`i3String`): the UTF-8 text and whether it is to be
read as pango markup. -/
structure I3String where
  utf8 : String
  pango_markup : Bool
  deriving DecidableEq, Repr

/-- Alignment of a block (`blockalign_t`); `ALIGN_LEFT` is the zero value. -/
inductive blockalign_t where
  | ALIGN_LEFT
  | ALIGN_CENTER
  | ALIGN_RIGHT
  deriving DecidableEq, Repr

/-- One block of the statusline (`struct status_block`).  The declaration is in
`common.hpp`; the fields are the ones `child.cpp` reads and writes, with
`uint32_t` fields as naturals below `2^32`. -/
structure status_block where
  full_text : Option I3String
  short_text : Option I3String
  color : Option String
  background : Option String
  border : Option String
  min_width : Nat
  min_width_str : Option String
  align : blockalign_t
  urgent : Bool
  no_separator : Bool
  border_top : Nat
  border_right : Nat
  border_bottom : Nat
  border_left : Nat
  pango_markup : Bool
  sep_block_width : Nat
  name : Option String
  instance_ : Option String
  deriving DecidableEq, Repr

/-- A block as `scalloc(1, sizeof(struct status_block))` or
`memset(.., 0, ..)` leaves it: every field zero. -/
def zero_block : status_block :=
  { full_text := none, short_text := none, color := none, background := none,
    border := none, min_width := 0, min_width_str := none,
    align := blockalign_t.ALIGN_LEFT, urgent := false, no_separator := false,
    border_top := 0, border_right := 0, border_bottom := 0, border_left := 0,
    pango_markup := false, sep_block_width := 0, name := none, instance_ := none }

/-- Child process record (`i3bar_child`, declared in `child.hpp`). -/
structure i3bar_child where
  pid : Int
  version : Nat
  stopped : Bool
  stop_signal : Int
  cont_signal : Int
  click_events : Bool
  click_events_init : Bool
  deriving DecidableEq, Repr

/-- The record as `i3bar_child child = {0}` and `memset(&child, 0, ..)` leave
it. -/
def zero_child : i3bar_child :=
  { pid := 0, version := 0, stopped := false, stop_signal := 0, cont_signal := 0,
    click_events := false, click_events_init := false }

/-- Parser context (`struct parser_ctx`). -/
structure parser_ctx where
  has_urgent : Bool
  last_map_key : Option String
  block : status_block
  deriving DecidableEq, Repr

/-- One call of the JSON generator (`yajl_gen_*`); the generator buffer is the
sequence of calls since the last `yajl_gen_clear`. -/
inductive GenCall where
  | map_open
  | map_close
  | array_open
  | array_close
  | string (s : String)
  | integer (n : Int)
  deriving DecidableEq, Repr

/-- What a `writeall` call is given: the generator buffer or literal text. -/
inductive Output where
  | json (calls : List GenCall)
  | text (s : String)
  deriving DecidableEq, Repr

/-- Calls that leave `child.cpp`, recorded in program order. -/
inductive Effect where
  | killpg (pgrp : Int) (sig : Int)
  | waitpid (pid : Int)
  | writeall (fd : Int) (out : Output) (ok : Bool)
  | draw_bars (unhide : Bool)
  | ev_io_stop
  | ev_io_start
  | ev_child_stop
  | ev_child_start
  | close (fd : Int)
  deriving DecidableEq, Repr

/-- Outcome of one `read` on the pipe from the child: the bytes it returned, or
`-1` with `EAGAIN`, or 0 (end of stream), or `-1` with another error. -/
inductive ReadResult where
  | data (bytes : List Char)
  | eagain
  | eof
  | error
  deriving DecidableEq, Repr

/-- Which callback the read watcher `stdin_io` carries. -/
inductive io_cb where
  | first_line
  | regular
  deriving DecidableEq, Repr

/-- The globals of `child.cpp` together with the record of outside calls.
`writeall_results` is what the next calls of `writeall` will report (`false`
for `-1`), a call beyond the list succeeds.  `stdin_pipe` is what the next
calls of `read` on `stdin_fd` will report, a call beyond the list reports
`EAGAIN`.  `parser_fed` is the input the parser has been given since it was
allocated. -/
structure State where
  child : i3bar_child
  parser_context : parser_ctx
  statusline_head : List status_block
  statusline_buffer : List status_block
  gen : List GenCall
  stdin_io : Option io_cb
  stdin_fd : Int
  child_sig : Bool
  child_stdin : Int
  writeall_results : List Bool
  stdin_pipe : List ReadResult
  parser_fed : List Char
  trace : List Effect
  deriving DecidableEq, Repr

/-- State at program start: zeroed globals, empty statuslines. -/
def initial_state : State :=
  { child := zero_child,
    parser_context := { has_urgent := false, last_map_key := none, block := zero_block },
    statusline_head := [], statusline_buffer := [], gen := [],
    stdin_io := none, stdin_fd := 0, child_sig := false, child_stdin := 0,
    writeall_results := [], stdin_pipe := [], parser_fed := [], trace := [] }

/-! ## Statusline store -/

/-- Source `clear_statusline`: removes the first block until the queue is
empty.  `free_resources` only decides what is freed, which has no counterpart
with blocks held by value; `Mem.clear_statusline` has it. -/
def clear_statusline : List status_block → Bool → List status_block
  | [], _ => []
  | _ :: rest, free_resources => clear_statusline rest free_resources

/-- Source `copy_statusline`: a `memcpy` of every block of `from_`, in order,
inserted at the tail of `to_`.  The copy holds equal values here; that it
points to the same texts is in `Mem.copy_statusline`. -/
def copy_statusline : List status_block → List status_block → List status_block
  | [], to_ => to_
  | current :: rest, to_ => copy_statusline rest (to_ ++ [current])

/-- Source `stdin_end_array`: the active statusline is cleared and the staging
statusline copied into it.  What the clearing frees, and what that does to
texts staging points to as well, is in `Mem.stdin_end_array`. -/
def stdin_end_array (s : State) : State × Nat :=
  let head := clear_statusline s.statusline_head true
  ({ s with statusline_head := copy_statusline s.statusline_buffer head }, 1)

/-! ## C strings -/

/-- NUL, the terminator of a C string. -/
def NUL : Char := Char.ofNat 0

/-- The C string that starts at a byte sequence: the characters before the
first NUL. -/
def c_str (s : String) : String :=
  String.mk (s.data.takeWhile (fun c => c != NUL))

/-- C `tolower` in the C locale: `A`..`Z` go to `a`..`z`. -/
def tolower (c : Char) : Char :=
  if 65 ≤ c.toNat ∧ c.toNat ≤ 90 then Char.ofNat (c.toNat + 32) else c

/-- Whether `strcasecmp(a, b) == 0`. -/
def strcasecmp_eq (a b : String) : Bool :=
  (c_str a).data.map tolower == (c_str b).data.map tolower

/-- Whether `strncasecmp(a, b, n) == 0`. -/
def strncasecmp_eq (a b : String) (n : Nat) : Bool :=
  ((c_str a).data.take n).map tolower == ((c_str b).data.take n).map tolower

/-- Whether `strncmp(a, b, n) == 0`. -/
def strncmp_eq (a b : String) (n : Nat) : Bool :=
  (c_str a).data.take n == (c_str b).data.take n

/-- The string `sasprintf(&p, "%.*s", len, val)` allocates: the bytes of `val`
up to its length or its first NUL. -/
def sasprintf_s (val : String) : String := c_str val

/-- Conversion to `uint32_t`. -/
def to_uint32 (v : Int) : Nat := (v % 4294967296).toNat

/-- Modelled from the spec: `i3string_from_utf8` of libi3, a rich text holding
the given C string, not flagged as markup. -/
def i3string_from_utf8 (s : String) : I3String :=
  { utf8 := s, pango_markup := false }

/-- Modelled from the spec: `i3string_from_markup_with_length` of libi3, a
markup-capable rich text holding the `len` bytes at `val`. -/
def i3string_from_markup_with_length (val : String) : I3String :=
  { utf8 := val, pango_markup := true }

/-- Modelled from the spec: `i3string_set_markup` of libi3, which sets the
markup flag of a rich text; on a text held by value the result is the text
with the flag set (`Mem.i3string_set_markup` writes into the object). -/
def i3string_set_markup (str : I3String) (pango_markup : Bool) : I3String :=
  { str with pango_markup := pango_markup }

/-- Modelled from the spec: `vasprintf`, given here the text the format and its
arguments expand to.  It reports `-1` only when it cannot allocate, which is
not modelled, so the message is always produced. -/
def vasprintf (formatted : String) : Option String := some formatted

/-! ## Error statusline and cleanup -/

/-- Appends one outside call to the trace. -/
def emit (s : State) (e : Effect) : State :=
  { s with trace := s.trace ++ [e] }

/-- The renderer entry point `draw_bars(unhide)`, an outside call. -/
def draw_bars (s : State) (unhide : Bool) : State :=
  emit s (Effect.draw_bars unhide)

/-- Source `set_statusline_error`.  `message` is what `vasprintf` produced,
`none` when it returned `-1`: the active statusline is cleared first, and the
two error blocks are inserted only when there is a message. -/
def set_statusline_error (s : State) (message : Option String) : State :=
  let s := { s with statusline_head := clear_statusline s.statusline_head true }
  match message with
  | none => s
  | some message =>
    let err_block : status_block :=
      { zero_block with
        full_text := some (i3string_from_utf8 "Error: "),
        name := some "error",
        color := some "#ff0000",
        no_separator := true }
    let message_block : status_block :=
      { zero_block with
        full_text := some (i3string_from_utf8 message),
        name := some "error_message",
        color := some "#ff0000",
        no_separator := true }
    let s := { s with statusline_head := err_block :: s.statusline_head }
    { s with statusline_head := s.statusline_head ++ [message_block] }

/-- Source `cleanup`: stops and frees the watchers, closes both pipe ends and
zeroes the child record. -/
def cleanup (s : State) : State :=
  let s :=
    if s.stdin_io.isSome then
      let s := emit s Effect.ev_io_stop
      let s := { s with stdin_io := none }
      let s := emit s (Effect.close s.stdin_fd)
      let s := { s with stdin_fd := 0 }
      let s := emit s (Effect.close s.child_stdin)
      { s with child_stdin := 0 }
    else s
  let s :=
    if s.child_sig then
      let s := emit s Effect.ev_child_stop
      { s with child_sig := false }
    else s
  { s with child := zero_child }

/-! ## Parser callbacks -/

/-- An event of the streaming JSON parser for which `start_child` registers a
callback.  Values without a callback (`null`, doubles) reach no code of
`child.cpp` and are left out. -/
inductive Event where
  | start_array
  | end_array
  | start_map
  | end_map
  | map_key (key : String)
  | boolean (val : Bool)
  | integer (val : Int)
  | string (val : String)
  deriving DecidableEq, Repr

/-- What the JSON parser makes of one chunk: the events it delivers, in order,
as long as the callbacks return non-zero; whether it then rejects the input
itself (a lexical or syntax error); and the text `yajl_get_error` renders when
the parse does not end in `yajl_status_ok`. -/
structure ParserRun where
  events : List Event
  rejected : Bool
  error_message : String
  deriving DecidableEq, Repr

/-- What `child.cpp` reads from the configuration and from the rest of i3bar,
and the libraries it calls. -/
structure Env where
  /-- Field `config.separator_symbol`, `none` for `NULL`. -/
  separator_symbol : Option String
  /-- Field `config.hide_on_modifier`. -/
  hide_on_modifier : Bool
  /-- Global `separator_symbol_width`. -/
  separator_symbol_width : Int
  /-- Function `logical_px` of libi3. -/
  logical_px : Int → Int
  /-- Function `predict_text_width` of libi3. -/
  predict_text_width : I3String → Int
  /-- Macro `STDIN_CHUNK_SIZE` of `common.hpp`. -/
  STDIN_CHUNK_SIZE : Nat
  /-- Function `parse_json_header` of i3bar: from the child record and the
  first chunk to the record with the header applied and the bytes consumed. -/
  parse_json_header : i3bar_child → List Char → i3bar_child × Nat
  /-- The JSON parser (yajl): from the input it was given before and the next
  chunk to what it makes of that chunk. -/
  yajl : List Char → List Char → ParserRun

/-- Source `stdin_start_array`: staging is cleared, nothing is freed. -/
def stdin_start_array (s : State) : State × Nat :=
  ({ s with statusline_buffer := clear_statusline s.statusline_buffer false }, 1)

/-- Source `stdin_start_map`: the block under construction is zeroed, then
given its default separator width and four borders. -/
def stdin_start_map (env : Env) (s : State) : State × Nat :=
  let block := zero_block
  let block :=
    if env.separator_symbol.isNone then
      { block with sep_block_width := to_uint32 (env.logical_px 9) }
    else
      { block with sep_block_width := to_uint32 (env.logical_px 8 + env.separator_symbol_width) }
  let block := { block with border_top := 1 }
  let block := { block with border_right := 1 }
  let block := { block with border_bottom := 1 }
  let block := { block with border_left := 1 }
  ({ s with parser_context := { s.parser_context with block := block } }, 1)

/-- Source `stdin_map_key`: the key replaces the remembered one. -/
def stdin_map_key (s : State) (key : String) : State × Nat :=
  ({ s with parser_context := { s.parser_context with last_map_key := some (sasprintf_s key) } }, 1)

/-- Stores a new block under construction. -/
def set_block (s : State) (block : status_block) : State :=
  { s with parser_context := { s.parser_context with block := block } }

/-- Source `stdin_boolean`. -/
def stdin_boolean (s : State) (val : Bool) : State × Nat :=
  match s.parser_context.last_map_key with
  | none => (s, 0)
  | some last_map_key =>
    let block := s.parser_context.block
    if strcasecmp_eq last_map_key "urgent" then
      (set_block s { block with urgent := val }, 1)
    else if strcasecmp_eq last_map_key "separator" then
      (set_block s { block with no_separator := !val }, 1)
    else (s, 1)

/-- Source `stdin_string`; `val` stands for the `len` bytes at `val`. -/
def stdin_string (s : State) (val : String) : State × Nat :=
  match s.parser_context.last_map_key with
  | none => (s, 0)
  | some last_map_key =>
    let block := s.parser_context.block
    if strcasecmp_eq last_map_key "full_text" then
      (set_block s { block with full_text := some (i3string_from_markup_with_length val) }, 1)
    else if strcasecmp_eq last_map_key "short_text" then
      (set_block s { block with short_text := some (i3string_from_markup_with_length val) }, 1)
    else if strcasecmp_eq last_map_key "color" then
      (set_block s { block with color := some (sasprintf_s val) }, 1)
    else if strcasecmp_eq last_map_key "background" then
      (set_block s { block with background := some (sasprintf_s val) }, 1)
    else if strcasecmp_eq last_map_key "border" then
      (set_block s { block with border := some (sasprintf_s val) }, 1)
    else if strcasecmp_eq last_map_key "markup" then
      (set_block s { block with
        pango_markup := (val.length == "pango".length && strncasecmp_eq val "pango" "pango".length) }, 1)
    else if strcasecmp_eq last_map_key "align" then
      if val.length == "center".length && strncmp_eq val "center" "center".length then
        (set_block s { block with align := blockalign_t.ALIGN_CENTER }, 1)
      else if val.length == "right".length && strncmp_eq val "right" "right".length then
        (set_block s { block with align := blockalign_t.ALIGN_RIGHT }, 1)
      else
        (set_block s { block with align := blockalign_t.ALIGN_LEFT }, 1)
    else if strcasecmp_eq last_map_key "min_width" then
      (set_block s { block with min_width_str := some (sasprintf_s val) }, 1)
    else if strcasecmp_eq last_map_key "name" then
      (set_block s { block with name := some (sasprintf_s val) }, 1)
    else if strcasecmp_eq last_map_key "instance" then
      (set_block s { block with instance_ := some (sasprintf_s val) }, 1)
    else (s, 1)

/-- Source `stdin_integer`; `val` is the `long long` the parser delivers. -/
def stdin_integer (s : State) (val : Int) : State × Nat :=
  match s.parser_context.last_map_key with
  | none => (s, 0)
  | some last_map_key =>
    let block := s.parser_context.block
    if strcasecmp_eq last_map_key "min_width" then
      (set_block s { block with min_width := to_uint32 val }, 1)
    else if strcasecmp_eq last_map_key "separator_block_width" then
      (set_block s { block with sep_block_width := to_uint32 val }, 1)
    else if strcasecmp_eq last_map_key "border_top" then
      (set_block s { block with border_top := to_uint32 val }, 1)
    else if strcasecmp_eq last_map_key "border_right" then
      (set_block s { block with border_right := to_uint32 val }, 1)
    else if strcasecmp_eq last_map_key "border_bottom" then
      (set_block s { block with border_bottom := to_uint32 val }, 1)
    else if strcasecmp_eq last_map_key "border_left" then
      (set_block s { block with border_left := to_uint32 val }, 1)
    else (s, 1)

/-- The text `stdin_end_map` substitutes for a missing `full_text`. -/
def SPEC_VIOLATION : String := "SPEC VIOLATION: full_text is NULL!"

/-- The block `stdin_end_map` builds from the block under construction: a copy
with `full_text` ensured, a string `min_width` measured, and the markup mode
applied to both texts. -/
def finish_block (env : Env) (block : status_block) : status_block :=
  let new_block := block
  let new_block :=
    match new_block.full_text with
    | none => { new_block with full_text := some (i3string_from_utf8 SPEC_VIOLATION) }
    | some _ => new_block
  let new_block :=
    match new_block.min_width_str with
    | some min_width_str =>
      let text := i3string_from_utf8 min_width_str
      let text := i3string_set_markup text new_block.pango_markup
      { new_block with min_width := to_uint32 (env.predict_text_width text) }
    | none => new_block
  let new_block :=
    { new_block with
      full_text := new_block.full_text.map (fun t => i3string_set_markup t new_block.pango_markup) }
  match new_block.short_text with
  | some short_text =>
    { new_block with short_text := some (i3string_set_markup short_text new_block.pango_markup) }
  | none => new_block

/-- Source `stdin_end_map`: the finished copy of the block under construction is
inserted at the tail of staging; an urgent block sets `has_urgent`.  The
block under construction stays as it is.  With texts held by value the markup
mode goes into the copy only; what it does to a text that other blocks point
to is in `Mem.stdin_end_map`. -/
def stdin_end_map (env : Env) (s : State) : State × Nat :=
  let new_block := finish_block env s.parser_context.block
  let s :=
    if new_block.urgent then
      { s with parser_context := { s.parser_context with has_urgent := true } }
    else s
  ({ s with statusline_buffer := s.statusline_buffer ++ [new_block] }, 1)

/-- The callback table of `start_child`. -/
def callback (env : Env) (s : State) : Event → State × Nat
  | Event.start_array => stdin_start_array s
  | Event.end_array => stdin_end_array s
  | Event.start_map => stdin_start_map env s
  | Event.end_map => stdin_end_map env s
  | Event.map_key key => stdin_map_key s key
  | Event.boolean val => stdin_boolean s val
  | Event.integer val => stdin_integer s val
  | Event.string val => stdin_string s val

/-- The parser delivering events in order; it stops at the first callback that
returns 0.  The boolean tells whether every callback returned non-zero. -/
def deliver (env : Env) (s : State) : List Event → State × Bool
  | [] => (s, true)
  | e :: rest =>
    let r := callback env s e
    if r.2 = 0 then (r.1, false) else deliver env r.1 rest

/-- Result of `yajl_parse`. -/
inductive yajl_status where
  | yajl_status_ok
  | yajl_status_client_canceled
  | yajl_status_error
  deriving DecidableEq, Repr

/-- The library call `yajl_parse(parser, input, length)` with the callbacks of
`start_child`, `input` being what the parser makes of the bytes. -/
def yajl_parse (env : Env) (s : State) (input : ParserRun) : State × yajl_status :=
  let r := deliver env s input.events
  if !r.2 then (r.1, yajl_status.yajl_status_client_canceled)
  else if input.rejected then (r.1, yajl_status.yajl_status_error)
  else (r.1, yajl_status.yajl_status_ok)

/-- The message with the newline yajl adds stripped. -/
def strip_newline (message : String) : String :=
  if message.data.getLast? = some '\n' then String.mk message.data.dropLast else message

/-- Source `read_json_input`; the result is the urgency flag handed to
`draw_bars` by the callers. -/
def read_json_input (env : Env) (s : State) (input : ParserRun) : State × Bool :=
  let r := yajl_parse env s input
  let s := r.1
  let status := r.2
  let has_urgent := false
  if status ≠ yajl_status.yajl_status_ok then
    let message := strip_newline input.error_message
    let s := set_statusline_error s (vasprintf ("Could not parse JSON (" ++ message ++ ")"))
    let s := draw_bars s false
    (s, has_urgent)
  else if s.parser_context.has_urgent then
    (s, true)
  else (s, has_urgent)

/-! ## Process supervisor -/

/-- Signal number of `SIGTERM`. -/
def SIGTERM : Int := 15

/-- Source `kill_child`. -/
def kill_child (s : State) : State :=
  if s.child.pid > 0 then
    let s :=
      if s.child.cont_signal > 0 && s.child.stopped then
        emit s (Effect.killpg s.child.pid s.child.cont_signal)
      else s
    let s := emit s (Effect.killpg s.child.pid SIGTERM)
    let s := emit s (Effect.waitpid s.child.pid)
    cleanup s
  else s

/-- Source `kill_child_at_exit`. -/
def kill_child_at_exit (s : State) : State :=
  if s.child.pid > 0 then
    let s :=
      if s.child.cont_signal > 0 && s.child.stopped then
        emit s (Effect.killpg s.child.pid s.child.cont_signal)
      else s
    emit s (Effect.killpg s.child.pid SIGTERM)
  else s

/-- Source `stop_child`. -/
def stop_child (s : State) : State :=
  if s.child.stop_signal > 0 && !s.child.stopped then
    let s := { s with child := { s.child with stopped := true } }
    emit s (Effect.killpg s.child.pid s.child.stop_signal)
  else s

/-- Source `cont_child`. -/
def cont_child (s : State) : State :=
  if s.child.cont_signal > 0 && s.child.stopped then
    let s := { s with child := { s.child with stopped := false } }
    emit s (Effect.killpg s.child.pid s.child.cont_signal)
  else s

/-- The call `writeall(fd, ..)` of libi3: the attempt is recorded with its
result, `true` unless the call reports `-1`. -/
def writeall (s : State) (fd : Int) (out : Output) : State × Bool :=
  match s.writeall_results with
  | [] => (emit s (Effect.writeall fd out true), true)
  | ok :: rest => (emit { s with writeall_results := rest } (Effect.writeall fd out ok), ok)

/-- Source `child_write_output`: the generator buffer and a newline are written
to the child, the buffer is cleared; a failed write disables click events,
kills the child and puts up the error statusline. -/
def child_write_output (s : State) : State :=
  if s.child.click_events then
    let output := Output.json s.gen
    let r := writeall s s.child_stdin output
    let r := if r.2 then writeall r.1 r.1.child_stdin (Output.text "\n") else r
    let s := r.1
    let n := r.2
    let s := { s with gen := [] }
    if !n then
      let s := { s with child := { s.child with click_events := false } }
      let s := kill_child s
      let s := set_statusline_error s (vasprintf "child_write_output failed")
      draw_bars s false
    else s
  else s

/-- One generator call appended to the buffer. -/
def yajl_gen (s : State) (c : GenCall) : State :=
  { s with gen := s.gen ++ [c] }

/-- Macro `ystr` of `yajl_utils.hpp`: `yajl_gen_string` of a C string. -/
def ystr (s : State) (str : String) : State :=
  yajl_gen s (GenCall.string str)

/-- Source `child_click_events_initialize`. -/
def child_click_events_initialize (s : State) : State :=
  if !s.child.click_events_init then
    let s := yajl_gen s GenCall.array_open
    let s := child_write_output s
    { s with child := { s.child with click_events_init := true } }
  else s

/-- Modifier masks of `xcb/xproto.h`. -/
def XCB_MOD_MASK_SHIFT : Int := 1
/-- Modifier mask of `xcb/xproto.h`. -/
def XCB_MOD_MASK_CONTROL : Int := 4
/-- Modifier mask of `xcb/xproto.h`. -/
def XCB_MOD_MASK_1 : Int := 8
/-- Modifier mask of `xcb/xproto.h`. -/
def XCB_MOD_MASK_2 : Int := 16
/-- Modifier mask of `xcb/xproto.h`. -/
def XCB_MOD_MASK_3 : Int := 32
/-- Modifier mask of `xcb/xproto.h`. -/
def XCB_MOD_MASK_4 : Int := 64
/-- Modifier mask of `xcb/xproto.h`. -/
def XCB_MOD_MASK_5 : Int := 128

/-- The C condition `mods & mask`. -/
def mask_set (mods mask : Int) : Bool :=
  Int.land mods mask != 0

/-- The statement `if (cond) ystr(str);`. -/
def ystr_if (s : State) (cond : Bool) (str : String) : State :=
  if cond then ystr s str else s

/-- The statement `if (value) { ystr(key); ystr(value); }` for a string `value`
that may be `NULL`. -/
def ystr_member (s : State) (key : String) (value : Option String) : State :=
  match value with
  | some value => ystr (ystr s key) value
  | none => s

/-- The generator calls of `send_block_clicked` between its two calls that
write, from `yajl_gen_map_open` to `yajl_gen_map_close`. -/
def gen_click_object (s : State) (button : Int) (name instance_ : Option String)
    (x y x_rel y_rel out_x out_y width height mods : Int) : State :=
  let s := yajl_gen s GenCall.map_open
  let s := ystr_member s "name" name
  let s := ystr_member s "instance" instance_
  let s := ystr s "button"
  let s := yajl_gen s (GenCall.integer button)
  let s := ystr s "modifiers"
  let s := yajl_gen s GenCall.array_open
  let s := ystr_if s (mask_set mods XCB_MOD_MASK_SHIFT) "Shift"
  let s := ystr_if s (mask_set mods XCB_MOD_MASK_CONTROL) "Control"
  let s := ystr_if s (mask_set mods XCB_MOD_MASK_1) "Mod1"
  let s := ystr_if s (mask_set mods XCB_MOD_MASK_2) "Mod2"
  let s := ystr_if s (mask_set mods XCB_MOD_MASK_3) "Mod3"
  let s := ystr_if s (mask_set mods XCB_MOD_MASK_4) "Mod4"
  let s := ystr_if s (mask_set mods XCB_MOD_MASK_5) "Mod5"
  let s := yajl_gen s GenCall.array_close
  let s := ystr s "x"
  let s := yajl_gen s (GenCall.integer x)
  let s := ystr s "y"
  let s := yajl_gen s (GenCall.integer y)
  let s := ystr s "relative_x"
  let s := yajl_gen s (GenCall.integer x_rel)
  let s := ystr s "relative_y"
  let s := yajl_gen s (GenCall.integer y_rel)
  let s := ystr s "output_x"
  let s := yajl_gen s (GenCall.integer out_x)
  let s := ystr s "output_y"
  let s := yajl_gen s (GenCall.integer out_y)
  let s := ystr s "width"
  let s := yajl_gen s (GenCall.integer width)
  let s := ystr s "height"
  let s := yajl_gen s (GenCall.integer height)
  yajl_gen s GenCall.map_close

/-- Source `send_block_clicked`. -/
def send_block_clicked (s : State) (button : Int) (name instance_ : Option String)
    (x y x_rel y_rel out_x out_y width height mods : Int) : State :=
  if !s.child.click_events then s
  else
    let s := child_click_events_initialize s
    let s := gen_click_object s button name instance_ x y x_rel y_rel out_x out_y width height mods
    child_write_output s

/-! ## Reading from the child -/

/-- What `get_buffer` hands back: the buffer (`none` for `NULL`) holding the
bytes received, and the length stored through `ret_buffer_len`. -/
structure Buffer where
  buffer : Option (List Char)
  ret_buffer_len : Int
  deriving DecidableEq, Repr

/-- The end of `get_buffer` after the read loop: a buffer whose first byte is
NUL (as it is when nothing was received) is freed and reported as `NULL` with
length -1. -/
def get_buffer_finish (buffer : List Char) : Buffer :=
  match buffer with
  | [] => { buffer := none, ret_buffer_len := -1 }
  | c :: _ =>
    if c = NUL then { buffer := none, ret_buffer_len := -1 }
    else { buffer := some buffer, ret_buffer_len := buffer.length }

/-- The read loop of `get_buffer` over the coming results of `read`; `buffer`
holds the `rec` bytes received so far and `buffer_len` is the size allotted.
The result is `none` when the process exits (`read` failed), else the buffer
handed back and the results of `read` not yet consumed.  This is the loop as
far as the bytes handed back go; the sizes, the `int` variables and the space
`read` is given are in `Mem.get_buffer_loop`. -/
def get_buffer_loop (chunk : Nat) :
    List ReadResult → List Char → Nat → Option (Buffer × List ReadResult)
  | [], buffer, _ => some (get_buffer_finish buffer, [])
  | ReadResult.eagain :: rest, buffer, _ => some (get_buffer_finish buffer, rest)
  | ReadResult.error :: _, _, _ => none
  | ReadResult.eof :: rest, _, _ => some ({ buffer := none, ret_buffer_len := -1 }, rest)
  | ReadResult.data bytes :: rest, buffer, buffer_len =>
    if bytes.length = 0 then some ({ buffer := none, ret_buffer_len := -1 }, rest)
    else
      let buffer := buffer ++ bytes
      let buffer_len := if buffer.length = buffer_len then buffer_len + chunk else buffer_len
      get_buffer_loop chunk rest buffer buffer_len

/-- Source `get_buffer`, reading from the pipe of the state. -/
def get_buffer (env : Env) (s : State) : Option (State × Buffer) :=
  match get_buffer_loop env.STDIN_CHUNK_SIZE s.stdin_pipe [] env.STDIN_CHUNK_SIZE with
  | none => none
  | some (b, rest) => some ({ s with stdin_pipe := rest }, b)

/-- The C string left in the buffer by `read_flat_input`: the terminator is put
over a final newline or carriage return, else behind the last byte. -/
def flat_line (buffer : List Char) : String :=
  if buffer.getLast? = some '\n' ∨ buffer.getLast? = some '\r' then
    c_str (String.mk buffer.dropLast)
  else c_str (String.mk buffer)

/-- Source `read_flat_input`: the text goes to the first block of the active
statusline.  With an empty active statusline the source dereferences `NULL`;
the result is then `none`. -/
def read_flat_input (s : State) (buffer : List Char) : Option State :=
  match s.statusline_head with
  | [] => none
  | first :: rest =>
    let first := { first with full_text := some (i3string_from_utf8 (flat_line buffer)) }
    some { s with statusline_head := first :: rest }

/-- The chunk handed to the parser, recorded as fed. -/
def parser_feed (env : Env) (s : State) (input : List Char) : State × ParserRun :=
  ({ s with parser_fed := s.parser_fed ++ input }, env.yajl s.parser_fed input)

/-- Source `stdin_io_cb`; `none` when the process exits or crashes. -/
def stdin_io_cb (env : Env) (s : State) : Option State :=
  match get_buffer env s with
  | none => none
  | some (s, b) =>
    match b.buffer with
    | none => some s
    | some buffer =>
      if s.child.version > 0 then
        let f := parser_feed env s buffer
        let r := read_json_input env f.1 f.2
        some (draw_bars r.1 r.2)
      else
        (read_flat_input s buffer).map (fun s => draw_bars s false)

/-- Source `stdin_io_first_line_cb`; `none` when the process exits or crashes. -/
def stdin_io_first_line_cb (env : Env) (s : State) : Option State :=
  match get_buffer env s with
  | none => none
  | some (s, b) =>
    match b.buffer with
    | none => some s
    | some buffer =>
      let h := env.parse_json_header s.child buffer
      let s := { s with child := h.1 }
      let consumed := h.2
      let s :=
        if s.child.version > 0 then
          let s := if env.hide_on_modifier then stop_child s else s
          let f := parser_feed env s (buffer.drop consumed)
          let r := read_json_input env f.1 f.2
          some (draw_bars r.1 r.2)
        else
          let new_block := zero_block
          let s := { s with statusline_head := s.statusline_head ++ [new_block] }
          read_flat_input s buffer
      s.map (fun s =>
        let s := emit s Effect.ev_io_stop
        let s := { s with stdin_io := some io_cb.regular }
        emit s Effect.ev_io_start)

/-- Macro `WEXITSTATUS` of `sys/wait.h`. -/
def WEXITSTATUS (rstatus : Nat) : Nat := (rstatus / 256) % 256

/-- Source `child_sig_cb`, for the status `watcher->rstatus` of the child. -/
def child_sig_cb (s : State) (rstatus : Nat) : State :=
  let exit_status := WEXITSTATUS rstatus
  let s :=
    if exit_status = 126 then
      set_statusline_error s
        (vasprintf ("status_command is not executable (exit " ++ Nat.repr exit_status ++ ")"))
    else if exit_status = 127 then
      set_statusline_error s
        (vasprintf ("status_command not found or is missing a library dependency (exit "
          ++ Nat.repr exit_status ++ ")"))
    else
      set_statusline_error s
        (vasprintf ("status_command process exited unexpectedly (exit "
          ++ Nat.repr exit_status ++ ")"))
  let s := cleanup s
  draw_bars s false

/-- Source `start_child` in the parent process when both `pipe` calls and
`fork` succeed: `pid` is the child, `pipe_in_0` and `pipe_in_1` are the two
ends of `pipe_in`, `pipe_out_0` and `pipe_out_1` those of `pipe_out`, `pipe`
is what the child will send.  The parent closes the ends it does not use,
reads from `pipe_in_0` and writes to `pipe_out_1`.  The parser and the
generator are fresh; the statuslines, the parser context and the other fields
of the child record are left as they are. -/
def start_child (s : State) (command : Option String)
    (pid pipe_in_0 pipe_in_1 pipe_out_0 pipe_out_1 : Int) (pipe : List ReadResult) : State :=
  match command with
  | none => s
  | some _ =>
    let s := { s with parser_fed := [], gen := [] }
    let s := { s with child := { s.child with pid := pid } }
    let s := emit s (Effect.close pipe_in_1)
    let s := emit s (Effect.close pipe_out_0)
    let s := { s with stdin_fd := pipe_in_0, child_stdin := pipe_out_1, stdin_pipe := pipe }
    let s := { s with stdin_io := some io_cb.first_line }
    let s := emit s Effect.ev_io_start
    let s := { s with child_sig := true }
    emit s Effect.ev_child_start

/-! ## Notions used by the statements -/

/-- The events of one status array: the array opens, events that neither open
nor close an array follow, the array closes. -/
def is_status_array (events : List Event) : Prop :=
  ∃ body, events = Event.start_array :: body ++ [Event.end_array]
    ∧ ∀ e ∈ body, e ≠ Event.start_array ∧ e ≠ Event.end_array

/-- One parse session: the chunks are handed to `read_json_input` one after the
other.  For every chunk: the status of the parse, the boolean returned, and
the state afterwards. -/
def read_session (env : Env) : State → List ParserRun → List (yajl_status × Bool × State)
  | _, [] => []
  | s, input :: rest =>
    let r := read_json_input env s input
    ((yajl_parse env s input).2, r.2, r.1) :: read_session env r.1 rest

/-- A callback result that differs from the state before at most in the
block under construction. -/
def block_only (s : State) (r : State × Nat) : Prop :=
  ∃ b, r.1 = set_block s b

/-- A callback result that returns 1 and differs from the state before at most
in fields of the block under construction other than `full_text`. -/
def keeps_full_text (s : State) (r : State × Nat) : Prop :=
  r.2 = 1 ∧ ∃ b, r.1 = set_block s b ∧ b.full_text = s.parser_context.block.full_text

/-- A scalar value of a map member. -/
inductive Scalar where
  | boolean (val : Bool)
  | integer (val : Int)
  | string (val : String)
  deriving DecidableEq, Repr

/-- The parser event of a scalar value. -/
def Scalar.event : Scalar → Event
  | Scalar.boolean val => Event.boolean val
  | Scalar.integer val => Event.integer val
  | Scalar.string val => Event.string val

/-- The events of the members of a map whose values are scalars: for every
member its key, then its value. -/
def member_events : List (String × Scalar) → List Event
  | [] => []
  | (key, value) :: rest => Event.map_key key :: value.event :: member_events rest

/-- The events of a map whose values are scalars. -/
def map_events (members : List (String × Scalar)) : List Event :=
  Event.start_map :: member_events members ++ [Event.end_map]

/-- The string a map gives for `full_text`: the value of its last member that
is a string under a key equal to `full_text` up to the case of letters. -/
def given_full_text : List (String × Scalar) → Option String
  | [] => none
  | (key, Scalar.string val) :: rest =>
    match given_full_text rest with
    | some later => some later
    | none => if strcasecmp_eq key "full_text" then some val else none
  | _ :: rest => given_full_text rest

/-- The events of the map `{"full_text":"a","x":{}}`. -/
def nested_map_events : List Event :=
  [Event.start_map, Event.map_key "full_text", Event.string "a", Event.map_key "x",
    Event.start_map, Event.end_map, Event.end_map]

/-- The events of the map `{"full_text":["b"]}`. -/
def array_valued_map_events : List Event :=
  [Event.start_map, Event.map_key "full_text", Event.start_array, Event.string "b",
    Event.end_array, Event.end_map]

/-- The names of the modifiers with their masks, in the order of the click
event protocol. -/
def modifier_names : List (String × Int) :=
  [("Shift", XCB_MOD_MASK_SHIFT), ("Control", XCB_MOD_MASK_CONTROL),
    ("Mod1", XCB_MOD_MASK_1), ("Mod2", XCB_MOD_MASK_2), ("Mod3", XCB_MOD_MASK_3),
    ("Mod4", XCB_MOD_MASK_4), ("Mod5", XCB_MOD_MASK_5)]

/-- The names of the modifiers whose bit is set in `mods`. -/
def modifiers_of (mods : Int) : List String :=
  (modifier_names.filter (fun m => mask_set mods m.2)).map (fun m => m.1)

/-- The members `name` and `instance` of a click object: present when set. -/
def optional_member (key : String) : Option String → List GenCall
  | some value => [GenCall.string key, GenCall.string value]
  | none => []

/-- The JSON object of a click event as the protocol describes it, as a
sequence of generator calls. -/
def click_object (button : Int) (name instance_ : Option String)
    (x y x_rel y_rel out_x out_y width height mods : Int) : List GenCall :=
  [GenCall.map_open]
    ++ optional_member "name" name
    ++ optional_member "instance" instance_
    ++ [GenCall.string "button", GenCall.integer button]
    ++ [GenCall.string "modifiers", GenCall.array_open]
    ++ (modifiers_of mods).map GenCall.string
    ++ [GenCall.array_close]
    ++ [GenCall.string "x", GenCall.integer x, GenCall.string "y", GenCall.integer y]
    ++ [GenCall.string "relative_x", GenCall.integer x_rel,
        GenCall.string "relative_y", GenCall.integer y_rel]
    ++ [GenCall.string "output_x", GenCall.integer out_x,
        GenCall.string "output_y", GenCall.integer out_y]
    ++ [GenCall.string "width", GenCall.integer width,
        GenCall.string "height", GenCall.integer height]
    ++ [GenCall.map_close]

/-- The state with another generator buffer. -/
def with_gen (s : State) (gen : List GenCall) : State :=
  { s with gen := gen }

/-- A click notification: the arguments of `send_block_clicked`. -/
structure Click where
  button : Int
  name : Option String
  instance_ : Option String
  x : Int
  y : Int
  x_rel : Int
  y_rel : Int
  out_x : Int
  out_y : Int
  width : Int
  height : Int
  mods : Int
  deriving DecidableEq, Repr

/-- The click object of a notification. -/
def Click.object (c : Click) : List GenCall :=
  click_object c.button c.name c.instance_ c.x c.y c.x_rel c.y_rel c.out_x c.out_y c.width
    c.height c.mods

/-- The call of `send_block_clicked` for a notification. -/
def send_click (s : State) (c : Click) : State :=
  send_block_clicked s c.button c.name c.instance_ c.x c.y c.x_rel c.y_rel c.out_x c.out_y
    c.width c.height c.mods

/-- Click notifications sent one after the other. -/
def send_clicks (s : State) : List Click → State
  | [] => s
  | c :: rest => send_clicks (send_click s c) rest

/-- A successful write of generator output followed by a successful write of
the newline. -/
def written (fd : Int) (calls : List GenCall) : List Effect :=
  [Effect.writeall fd (Output.json calls) true, Effect.writeall fd (Output.text "\n") true]

/-- The successful writes of the click objects of a list of notifications. -/
def clicks_written (fd : Int) : List Click → List Effect
  | [] => []
  | c :: rest => written fd c.object ++ clicks_written fd rest

/-- Whether an outside call is a write to the child. -/
def Effect.is_write : Effect → Bool
  | Effect.writeall _ _ _ => true
  | _ => false

/-- The generator calls written to the child with success, in order of
writing, among a sequence of outside calls. -/
def json_written : List Effect → List GenCall
  | [] => []
  | Effect.writeall _ (Output.json calls) true :: rest => calls ++ json_written rest
  | _ :: rest => json_written rest

/-- Whether a generator call is a string or an integer. -/
def GenCall.is_scalar : GenCall → Bool
  | GenCall.string _ => true
  | GenCall.integer _ => true
  | _ => false

/-- Whether a sequence of generator calls entered at nesting depth `depth`
never closes the container of depth 1: every close finds a depth of at least
2.  For the calls that follow the opening of the top-level array (depth 1)
this says that the top-level array is never closed, so that every array
opened later is nested in it. -/
def stays_open : Nat → List GenCall → Bool
  | _, [] => true
  | depth, GenCall.map_open :: rest => stays_open (depth + 1) rest
  | depth, GenCall.array_open :: rest => stays_open (depth + 1) rest
  | depth, GenCall.map_close :: rest => decide (2 ≤ depth) && stays_open (depth - 1) rest
  | depth, GenCall.array_close :: rest => decide (2 ≤ depth) && stays_open (depth - 1) rest
  | depth, GenCall.string _ :: rest => stays_open depth rest
  | depth, GenCall.integer _ :: rest => stays_open depth rest

/-- The click objects of a list of notifications, one after the other. -/
def click_objects : List Click → List GenCall
  | [] => []
  | c :: rest => c.object ++ click_objects rest

/-- The error statusline for a message: the label block and the message block,
both red and without separator. -/
def error_statusline (message : String) : List status_block :=
  [{ zero_block with
      full_text := some { utf8 := "Error: ", pango_markup := false },
      name := some "error", color := some "#ff0000", no_separator := true },
   { zero_block with
      full_text := some { utf8 := message, pango_markup := false },
      name := some "error_message", color := some "#ff0000", no_separator := true }]

/-- The click of the example of the protocol: button 1, name `vol`, instance
`0`, at (10, 20), relative (1, 2), on the output (3, 4), block 30 by 18, Shift
and Control held. -/
def example_click : Click :=
  { button := 1, name := some "vol", instance_ := some "0", x := 10, y := 20,
    x_rel := 1, y_rel := 2, out_x := 3, out_y := 4, width := 30, height := 18,
    mods := 5 }

/-- A state with a live child (pid 42) that asked for click events and has not
been sent any. -/
def clickable_state : State :=
  { initial_state with
    child := { zero_child with pid := 42, version := 1, click_events := true },
    stdin_io := some io_cb.regular, stdin_fd := 3, child_sig := true, child_stdin := 4 }

/-- The state `clickable_state` when the next write to the child is going to
fail: the write that opens the array. -/
def array_open_fails_state : State :=
  { clickable_state with writeall_results := [false] }

/-- The state `clickable_state` when the array opening and its newline are going
to be written and the write after them, the one of the click object, fails. -/
def object_write_fails_state : State :=
  { clickable_state with writeall_results := [true, true, false] }

/-- An environment for the examples: no separator symbol, pixels unscaled, a
text as wide as its length, no JSON header, a parser that sees nothing. -/
def example_env : Env :=
  { separator_symbol := none,
    hide_on_modifier := false,
    separator_symbol_width := 0,
    logical_px := fun n => n,
    predict_text_width := fun t => t.utf8.length,
    STDIN_CHUNK_SIZE := 1024,
    parse_json_header := fun c _ => (c, 0),
    yajl := fun _ _ => { events := [], rejected := false, error_message := "" } }

/-- The status array `[{"full_text":"a","urgent":true}]`. -/
def urgent_array : ParserRun :=
  { events := [Event.start_array, Event.start_map, Event.map_key "full_text", Event.string "a",
      Event.map_key "urgent", Event.boolean true, Event.end_map, Event.end_array],
    rejected := false, error_message := "" }

/-- The status array `[{"full_text":"b"}]`. -/
def calm_array : ParserRun :=
  { events := [Event.start_array, Event.start_map, Event.map_key "full_text", Event.string "b",
      Event.end_map, Event.end_array],
    rejected := false, error_message := "" }

/-- A state in which a first child (pid 100) was started and ended with exit
status 127, and a second child (pid 101) has been started and printed the
plain-text line `hello`. -/
def restarted_state : State :=
  let s := start_child initial_state (some "status") 100 3 4 5 6 []
  let s := child_sig_cb s (127 * 256)
  start_child s (some "status") 101 7 8 9 10 [ReadResult.data "hello\n".data]

/-- The outside calls of `cleanup` in a state: the read watcher is stopped and
both pipe ends are closed when the watcher exists, the exit watcher is stopped
when it exists. -/
def cleanup_calls (s : State) : List Effect :=
  (if s.stdin_io.isSome then
      [Effect.ev_io_stop, Effect.close s.stdin_fd, Effect.close s.child_stdin]
    else [])
  ++ (if s.child_sig then [Effect.ev_child_stop] else [])

/-- The message of the error statusline for a child that ended with exit status
`e`, as the specification lists it. -/
def exit_message (e : Nat) : String :=
  if e = 126 then "status_command is not executable (exit 126)"
  else if e = 127 then
    "status_command not found or is missing a library dependency (exit 127)"
  else "status_command process exited unexpectedly (exit " ++ Nat.repr e ++ ")"

/-- The signals `kill_child` sends to the process group of a live child: the
continue signal first when one is configured and the child is stopped, then
`SIGTERM`. -/
def kill_signals (c : i3bar_child) : List Effect :=
  (if c.cont_signal > 0 ∧ c.stopped = true then [Effect.killpg c.pid c.cont_signal] else [])
  ++ [Effect.killpg c.pid SIGTERM]

/-- The chunk with one final newline or carriage return removed. -/
def trim_line_end (buffer : List Char) : List Char :=
  if buffer.getLast? = some '\n' ∨ buffer.getLast? = some '\r' then buffer.dropLast else buffer

/-- A state in which a child (pid 7) has just been started from the initial
state and has printed the plain-text line `battery 90%`. -/
def battery_state : State :=
  start_child initial_state (some "status") 7 3 4 5 6
    [ReadResult.data "battery 90%\n".data, ReadResult.eagain]

/-- A state whose active statusline is the one zeroed block of the plain-text
protocol. -/
def one_block_state : State :=
  { initial_state with statusline_head := [zero_block] }

/-- The events of `[{"full_text":"a"}` - an array in which one block has been
finished. -/
def finished_block_events : List Event :=
  [Event.start_array, Event.start_map, Event.map_key "full_text", Event.string "a",
    Event.end_map]

/-- The state after `[{"full_text":"a"}`, from the initial state. -/
def finished_block_state : State :=
  (deliver example_env initial_state finished_block_events).1

/-- The keys `stdin_boolean` recognises. -/
def boolean_keys : List String := ["urgent", "separator"]

/-- The keys `stdin_string` recognises. -/
def string_keys : List String :=
  ["full_text", "short_text", "color", "background", "border", "markup", "align",
    "min_width", "name", "instance"]

/-- The keys `stdin_integer` recognises. -/
def integer_keys : List String :=
  ["min_width", "separator_block_width", "border_top", "border_right", "border_bottom",
    "border_left"]

/-- Whether a key is, up to the case of letters, one of the given names. -/
def recognised (names : List String) (key : String) : Bool :=
  names.any (fun name => strcasecmp_eq key name)

/-- A state in which a map has been started and the key `colour` is
remembered. -/
def unknown_key_state : State :=
  (deliver example_env initial_state
    [Event.start_array, Event.start_map, Event.map_key "colour"]).1

/-- Two callback results with the same return value and the same block under
construction. -/
def same_result (r r' : State × Nat) : Prop :=
  r.2 = r'.2 ∧ r.1.parser_context.block = r'.1.parser_context.block

/-- The events of a sequence other than map keys, each with the key remembered
when it is delivered: the latest map key before it, as the C string
`stdin_map_key` keeps, or `key` when no map key comes before it. -/
def keyed_events (key : Option String) : List Event → List (Option String × Event)
  | [] => []
  | Event.map_key k :: rest => keyed_events (some (sasprintf_s k)) rest
  | Event.start_array :: rest => (key, Event.start_array) :: keyed_events key rest
  | Event.end_array :: rest => (key, Event.end_array) :: keyed_events key rest
  | Event.start_map :: rest => (key, Event.start_map) :: keyed_events key rest
  | Event.end_map :: rest => (key, Event.end_map) :: keyed_events key rest
  | Event.boolean val :: rest => (key, Event.boolean val) :: keyed_events key rest
  | Event.integer val :: rest => (key, Event.integer val) :: keyed_events key rest
  | Event.string val :: rest => (key, Event.string val) :: keyed_events key rest

/-- A callback result whose block under construction is related by `R` to the
one before. -/
def updates_block (R : status_block → status_block → Prop) (s : State) (r : State × Nat) :
    Prop :=
  R s.parser_context.block r.1.parser_context.block

/-- No boolean is delivered under a key equal, up to the case of letters, to
`separator`. -/
def no_separator_given (keyed : List (Option String × Event)) : Prop :=
  ∀ ke ∈ keyed, ∀ k val, ke = (some k, Event.boolean val) → strcasecmp_eq k "separator" = false

/-- No string is delivered under a key equal, up to the case of letters, to
`markup`. -/
def no_markup_given (keyed : List (Option String × Event)) : Prop :=
  ∀ ke ∈ keyed, ∀ k val, ke = (some k, Event.string val) → strcasecmp_eq k "markup" = false

/-- The events of the map `{"full_text":"a","separator":false}`. -/
def separator_off_events : List Event :=
  map_events [("full_text", Scalar.string "a"), ("separator", Scalar.boolean false)]

/-- The events of the map `{"full_text":"a","separator":true}`. -/
def separator_on_events : List Event :=
  map_events [("full_text", Scalar.string "a"), ("separator", Scalar.boolean true)]

/-- The events of the members of the map `{"full_text":"a","urgent":true}`. -/
def plain_member_events : List Event :=
  member_events [("full_text", Scalar.string "a"), ("urgent", Scalar.boolean true)]

/-- A state in which a map has been started and the key `Separator` is
remembered. -/
def separator_key_state : State :=
  (deliver example_env initial_state
    [Event.start_array, Event.start_map, Event.map_key "Separator"]).1

/-- The events of the map `{"full_text":"a","markup":v}`. -/
def markup_events (v : String) : List Event :=
  map_events [("full_text", Scalar.string "a"), ("markup", Scalar.string v)]

/-- A state in which a map has been started and the key `Markup` is
remembered. -/
def markup_key_state : State :=
  (deliver example_env initial_state
    [Event.start_array, Event.start_map, Event.map_key "Markup"]).1

/-- The `pango_markup` flags of the blocks that the events of
`{"full_text":"a","markup":v}` leave in staging. -/
def markup_flags (v : String) : List Bool :=
  (deliver example_env initial_state (markup_events v)).1.statusline_buffer.map
    (fun b => b.pango_markup)

/-- A state in which a child (pid 7) runs, one block is on the active
statusline, and the next `read` would block. -/
def quiet_state : State :=
  start_child one_block_state (some "status") 7 3 4 5 6
    [ReadResult.eagain, ReadResult.data "late\n".data]

/-- A state in which a child (pid 7) runs, one block is on the active
statusline, and the pipe delivers `par`, then `tial`, then its end. -/
def closing_state : State :=
  start_child one_block_state (some "status") 7 3 4 5 6
    [ReadResult.data "par".data, ReadResult.data "tial".data, ReadResult.eof]

/-- A state in which a child (pid 7) runs, one block is on the active
statusline, and the pipe delivers a NUL byte followed by `abc`, then `def`,
before the next `read` would block. -/
def nul_first_state : State :=
  start_child one_block_state (some "status") 7 3 4 5 6
    [ReadResult.data (NUL :: "abc".data), ReadResult.data "def".data, ReadResult.eagain]

/-- An environment as `example_env` with chunks of 4 bytes. -/
def small_chunk_env : Env := { example_env with STDIN_CHUNK_SIZE := 4 }

/-- A state in which a child (pid 7) runs, one block is on the active
statusline, and the pipe delivers `abcd`, `ef`, `gh`, `ijkl`, then would
block. -/
def chunked_reads_state : State :=
  start_child one_block_state (some "status") 7 3 4 5 6
    [ReadResult.data "abcd".data, ReadResult.data "ef".data, ReadResult.data "gh".data,
      ReadResult.data "ijkl".data, ReadResult.eagain]

/-- A state in which a first child (pid 100) ended with exit status 127, which
left the two-block error statusline, and a second child (pid 101) has been
started and has printed the plain-text line `hello` before its next `read`
would block. -/
def replaced_child_state : State :=
  let s := start_child initial_state (some "status") 100 3 4 5 6 []
  let s := child_sig_cb s (127 * 256)
  start_child s (some "status") 101 7 8 9 10 [ReadResult.data "hello\n".data, ReadResult.eagain]

/-- The events of the map `{"full_text":"a","min_width":v}`, `v` an
integer. -/
def min_width_events (v : Int) : List Event :=
  map_events [("full_text", Scalar.string "a"), ("min_width", Scalar.integer v)]

/-- A state in which a map has been started and the key `Border_Top` is
remembered. -/
def border_key_state : State :=
  (deliver example_env initial_state
    [Event.start_array, Event.start_map, Event.map_key "Border_Top"]).1

/-- The events that follow the last `start_array` of a sequence; `none` when
the sequence has no `start_array`. -/
def after_last_array_start : List Event → Option (List Event)
  | [] => none
  | e :: rest =>
    match after_last_array_start rest with
    | some tail => some tail
    | none => if e = Event.start_array then some rest else none

/-- The number of `end_map` events since the most recent `start_array`; when
no array was started, the number of `end_map` events added to the blocks that
were staged `before`. -/
def staged_count (before : Nat) (events : List Event) : Nat :=
  match after_last_array_start events with
  | some tail => tail.count Event.end_map
  | none => before + events.count Event.end_map

/-- The block under construction as `stdin_start_map` leaves it: zeroed, with
the default separator width and the four borders at 1. -/
def default_block (env : Env) : status_block :=
  { zero_block with
    sep_block_width :=
      if env.separator_symbol.isNone then to_uint32 (env.logical_px 9)
      else to_uint32 (env.logical_px 8 + env.separator_symbol_width),
    border_top := 1, border_right := 1, border_bottom := 1, border_left := 1 }

/-- The events of `[{"full_text":"a"},{"full_text":"b","x":{}},` followed by
the start of a further array with one block: `[{"full_text":"c"}`. -/
def two_arrays_events : List Event :=
  [Event.start_array, Event.start_map, Event.map_key "full_text", Event.string "a",
    Event.end_map, Event.start_map, Event.map_key "full_text", Event.string "b",
    Event.map_key "x", Event.start_map, Event.end_map, Event.end_map, Event.end_array,
    Event.start_array, Event.start_map, Event.map_key "full_text", Event.string "c",
    Event.end_map]

/-- The value `g` finds in the last member of a map in which it finds one. -/
def last_given {β : Type} (g : String × Scalar → Option β) : List (String × Scalar) → Option β
  | [] => none
  | m :: rest =>
    match last_given g rest with
    | some later => some later
    | none => g m

/-- The string of a member that is a string under a key equal to `min_width`
up to the case of letters. -/
def min_width_string (m : String × Scalar) : Option String :=
  match m.2 with
  | Scalar.string val => if strcasecmp_eq m.1 "min_width" then some val else none
  | _ => none

/-- The integer of a member that is an integer under a key equal to
`min_width` up to the case of letters. -/
def min_width_integer (m : String × Scalar) : Option Int :=
  match m.2 with
  | Scalar.integer val => if strcasecmp_eq m.1 "min_width" then some val else none
  | _ => none

/-- The string of a member that is a string under a key equal to `markup` up
to the case of letters. -/
def markup_string (m : String × Scalar) : Option String :=
  match m.2 with
  | Scalar.string val => if strcasecmp_eq m.1 "markup" then some val else none
  | _ => none

/-- The markup mode a map of scalars ends with: pango exactly when the last
string it gives for `markup` is `pango` up to the case of letters. -/
def given_markup (members : List (String × Scalar)) : Bool :=
  match last_given markup_string members with
  | some v => decide (v.data.map tolower = "pango".data)
  | none => false

/-- The `min_width` a map of scalars asks for: the measured width of the last
string it gives for `min_width`, read under the markup mode the map ends
with; without such a string the last integer it gives for `min_width`; else
0.  Widths are stored as `uint32_t`. -/
def given_min_width (env : Env) (members : List (String × Scalar)) : Nat :=
  match last_given min_width_string members with
  | some str =>
    to_uint32 (env.predict_text_width
      { utf8 := sasprintf_s str, pango_markup := given_markup members })
  | none =>
    match last_given min_width_integer members with
    | some v => to_uint32 v
    | none => 0

/-- The events of the map `{"min_width":"abc","x":{}}`. -/
def nested_min_width_events : List Event :=
  [Event.start_map, Event.map_key "min_width", Event.string "abc", Event.map_key "x",
    Event.start_map, Event.end_map, Event.end_map]

/-- An environment as `example_env` in which a text read as pango markup
measures twice its length. -/
def measuring_env : Env :=
  { example_env with
    predict_text_width := fun t => if t.pango_markup then 2 * t.utf8.length else t.utf8.length }

/-- The `min_width` and the markup mode of the blocks that events leave in
staging, from the initial state, in `measuring_env`. -/
def staged_widths (events : List Event) : List (Nat × Bool) :=
  (deliver measuring_env initial_state events).1.statusline_buffer.map
    (fun b => (b.min_width, b.pango_markup))

/-! ## The read loop at the level of the machine

`get_buffer` once more, with what the definitions above leave out: the local
variables `rec` and `buffer_len` are `int`, the buffer is an allocation of a
definite size, and `read` returns no more bytes than it is asked for. -/

/-- `INT_MAX` of `limits.h` for the 32-bit `int` of the platforms i3bar is
built for. -/
def INT_MAX : Nat := 2147483647

/-- How a call of `get_buffer` ends. -/
inductive Mem.Outcome where
  /-- It returns `NULL` and stores -1 through `ret_buffer_len`. -/
  | null
  /-- It returns the buffer, given here byte by byte over its whole allocated
  size (`none` for a byte never written), and stores `rec`. -/
  | buffer (bytes : List (Option Char)) (rec_ : Nat)
  /-- The process exits: `read` failed with an error other than `EAGAIN`. -/
  | exited
  /-- An `int` computation leaves the range of `int`: undefined behaviour. -/
  | overflow
  /-- Bytes are written beyond the allocation, or a byte never written is
  read: undefined behaviour. -/
  | bad_access
  /-- The loop was cut off before it ended; see `Mem.get_buffer`. -/
  | out_of_fuel
  deriving DecidableEq, Repr

/-- The local variables of `get_buffer` inside its loop; `buffer` is the
allocation, byte by byte. -/
structure Mem.Vars where
  buffer : List (Option Char)
  rec_ : Nat
  buffer_len : Nat
  deriving DecidableEq, Repr

/-- The call `read(fd, p, count)`: what it returns and what is left in the
pipe.  A `data` entry of the pipe stands here for the bytes that are there to
be read; `read` hands over at most `count` of them and leaves the others. -/
def Mem.read (count : Nat) : List ReadResult → ReadResult × List ReadResult
  | [] => (ReadResult.eagain, [])
  | ReadResult.data bytes :: rest =>
    if bytes.length ≤ count then (ReadResult.data bytes, rest)
    else (ReadResult.data (bytes.take count), ReadResult.data (bytes.drop count) :: rest)
  | r :: rest => (r, rest)

/-- The body of the loop after a `read` that returned the bytes `got` at
`buffer + rec`: `rec += n`, and when `rec == buffer_len` the buffer grows,
`buffer_len += STDIN_CHUNK_SIZE` and `srealloc(buffer, buffer_len)`. -/
def Mem.store (chunk : Nat) (v : Mem.Vars) (got : List Char) : Except Mem.Outcome Mem.Vars :=
  if v.rec_ + got.length > v.buffer.length then Except.error Mem.Outcome.bad_access
  else
    let buffer := v.buffer.take v.rec_ ++ got.map some ++ v.buffer.drop (v.rec_ + got.length)
    let rec_ := v.rec_ + got.length
    if rec_ > INT_MAX then Except.error Mem.Outcome.overflow
    else if rec_ = v.buffer_len then
      if v.buffer_len + chunk > INT_MAX then Except.error Mem.Outcome.overflow
      else
        let buffer_len := v.buffer_len + chunk
        let buffer := buffer.take buffer_len ++ List.replicate (buffer_len - buffer.length) none
        Except.ok { buffer := buffer, rec_ := rec_, buffer_len := buffer_len }
    else Except.ok { buffer := buffer, rec_ := rec_, buffer_len := v.buffer_len }

/-- The end of `get_buffer` after its loop: `*buffer` is read; when it is NUL
the buffer is freed and `rec` set to -1. -/
def Mem.get_buffer_finish (v : Mem.Vars) : Mem.Outcome :=
  match v.buffer.head? with
  | some (some c) => if c = NUL then Mem.Outcome.null else Mem.Outcome.buffer v.buffer v.rec_
  | _ => Mem.Outcome.bad_access

/-- The loop of `get_buffer`, for at most `fuel` rounds. -/
def Mem.get_buffer_loop (chunk : Nat) :
    Nat → List ReadResult → Mem.Vars → Mem.Outcome × List ReadResult
  | 0, pipe, _ => (Mem.Outcome.out_of_fuel, pipe)
  | fuel + 1, pipe, v =>
    match Mem.read (v.buffer_len - v.rec_) pipe with
    | (ReadResult.eagain, rest) => (Mem.get_buffer_finish v, rest)
    | (ReadResult.error, rest) => (Mem.Outcome.exited, rest)
    | (ReadResult.eof, rest) => (Mem.Outcome.null, rest)
    | (ReadResult.data got, rest) =>
      if got.length = 0 then (Mem.Outcome.null, rest)
      else
        match Mem.store chunk v got with
        | Except.error o => (o, rest)
        | Except.ok v' => Mem.get_buffer_loop chunk fuel rest v'

/-- A bound on the rounds the loop can make on a pipe: every round but the
last takes at least one byte out of it. -/
def Mem.pipe_size : List ReadResult → Nat
  | [] => 0
  | ReadResult.data bytes :: rest => bytes.length + 1 + Mem.pipe_size rest
  | _ :: rest => 1 + Mem.pipe_size rest

/-- Source `get_buffer` at the level of the machine: `smalloc(buffer_len + 1)`,
`buffer[0] = '\0'`, then the loop, which is given more rounds than it can
make. -/
def Mem.get_buffer (env : Env) (s : State) : Mem.Outcome × State :=
  let buffer_len := env.STDIN_CHUNK_SIZE
  if buffer_len + 1 > INT_MAX then (Mem.Outcome.overflow, s)
  else
    let buffer : List (Option Char) := List.replicate (buffer_len + 1) none
    let buffer := buffer.set 0 (some NUL)
    let r := Mem.get_buffer_loop env.STDIN_CHUNK_SIZE (Mem.pipe_size s.stdin_pipe + 1) s.stdin_pipe
      { buffer := buffer, rec_ := 0, buffer_len := buffer_len }
    (r.1, { s with stdin_pipe := r.2 })

/-- What holds of the variables of `get_buffer` whenever its loop is about to
read: the buffer is not full (or the chunk size is 0 and nothing can be
read), `buffer_len` is within the allocation and within `int`, `rec` is
inside the allocation, and the first byte is written - as NUL as long as
nothing was received. -/
def Mem.sound (chunk : Nat) (v : Mem.Vars) : Prop :=
  ((0 < chunk ∧ v.rec_ < v.buffer_len) ∨ (chunk = 0 ∧ v.rec_ = v.buffer_len))
  ∧ v.buffer_len ≤ v.buffer.length ∧ v.rec_ < v.buffer.length
  ∧ v.buffer_len ≤ INT_MAX
  ∧ ∃ c, v.buffer.head? = some (some c) ∧ (v.rec_ = 0 → c = NUL)

/-- What holds of the variables of `get_buffer` when `received` is what its
reads have returned so far: the variables are in order, `rec` counts these
bytes, they are the first `rec` bytes of the buffer, `buffer_len` is the least
multiple of the chunk size above `rec`, and the allocation is the one of
`smalloc` (`STDIN_CHUNK_SIZE + 1`) until the buffer has grown and `buffer_len`
after. -/
def Mem.holds (chunk : Nat) (v : Mem.Vars) (received : List Char) : Prop :=
  Mem.sound chunk v ∧ v.rec_ = received.length ∧ v.buffer.take v.rec_ = received.map some
  ∧ chunk ∣ v.buffer_len ∧ v.buffer_len ≤ v.rec_ + chunk
  ∧ (v.rec_ < chunk → v.buffer_len = chunk)
  ∧ v.buffer.length = (if v.rec_ < chunk then chunk + 1 else v.buffer_len)

/-- A state whose pipe holds `k` times a full chunk of the byte `a`, each
there for one `read`, before a `read` would block. -/
def flood_state (env : Env) (k : Nat) : State :=
  { initial_state with
    stdin_pipe := List.replicate k (ReadResult.data (List.replicate env.STDIN_CHUNK_SIZE 'a'))
      ++ [ReadResult.eagain] }

/-! ## The states `child.cpp` gets into -/

/-- What can happen to the state of `child.cpp`: a call of one of its
functions by the rest of i3bar, one of its two watchers firing, or the outside
world settling what the next calls of `read` and of `writeall` will report. -/
inductive Action where
  | start_child (command : Option String) (pid pipe_in_0 pipe_in_1 pipe_out_0 pipe_out_1 : Int)
      (pipe : List ReadResult)
  | stdin_ready
  | child_exited (rstatus : Nat)
  | send_block_clicked (button : Int) (name instance_ : Option String)
      (x y x_rel y_rel out_x out_y width height mods : Int)
  | kill_child
  | kill_child_at_exit
  | stop_child
  | cont_child
  | clear_statusline (free_resources : Bool)
  | pipe_filled (pipe : List ReadResult)
  | writes_settled (results : List Bool)
  deriving DecidableEq, Repr

/-- One action on a state of the i3bar process (the copy `fork` makes turns
into the shell and is not followed); `none` when the action cannot happen in
that state (`fork` hands the parent a positive pid, and with -1 `start_child`
exits; a watcher fires only while it is started) or when the process ends in
it. -/
def step (env : Env) (s : State) : Action → Option State
  | Action.start_child command pid pipe_in_0 pipe_in_1 pipe_out_0 pipe_out_1 pipe =>
    if command = none ∨ 0 < pid then
      some (start_child s command pid pipe_in_0 pipe_in_1 pipe_out_0 pipe_out_1 pipe)
    else none
  | Action.stdin_ready =>
    match s.stdin_io with
    | some io_cb.first_line => stdin_io_first_line_cb env s
    | some io_cb.regular => stdin_io_cb env s
    | none => none
  | Action.child_exited rstatus => if s.child_sig then some (child_sig_cb s rstatus) else none
  | Action.send_block_clicked button name instance_ x y x_rel y_rel out_x out_y width height
      mods =>
    some (send_block_clicked s button name instance_ x y x_rel y_rel out_x out_y width height
      mods)
  | Action.kill_child => some (kill_child s)
  | Action.kill_child_at_exit => some (kill_child_at_exit s)
  | Action.stop_child => some (stop_child s)
  | Action.cont_child => some (cont_child s)
  | Action.clear_statusline free_resources =>
    some { s with statusline_head := clear_statusline s.statusline_head free_resources }
  | Action.pipe_filled pipe => some { s with stdin_pipe := pipe }
  | Action.writes_settled results => some { s with writeall_results := results }

/-- A sequence of actions, one after the other. -/
def run (env : Env) : State → List Action → Option State
  | s, [] => some s
  | s, a :: rest =>
    match step env s a with
    | none => none
    | some s' => run env s' rest

/-- Modelled from the spec: `parse_json_header` of i3bar, which is not among
the sources, records in the child record what the header of the child says
(the protocol version, the signals, whether click events are wanted); the pid,
which `start_child` has set, is not its business. -/
def header_keeps_pid (env : Env) : Prop :=
  ∀ (c : i3bar_child) (buffer : List Char), (env.parse_json_header c buffer).1.pid = c.pid

/-- What the guards of `stop_child` and `cont_child` rest on: the pid, the two
signals, and whether the read watcher is started. -/
def guard_view (s : State) : Int × Int × Int × Bool :=
  (s.child.pid, s.child.stop_signal, s.child.cont_signal, s.stdin_io.isSome)

/-- A function either leaves the pid, the signals and the read watcher alone
or leaves all of them cleared. -/
def keeps_or_clears (s r : State) : Prop :=
  guard_view r = guard_view s ∨ guard_view r = (0, 0, 0, false)

/-- The read watcher is started only while a child is there, and without a
child no signal is configured. -/
def child_inv (s : State) : Prop :=
  (s.stdin_io.isSome = true → 0 < s.child.pid)
  ∧ (s.child.pid = 0 → s.child.stop_signal = 0 ∧ s.child.cont_signal = 0)

/-- A run of a child that speaks JSON and asks to be stopped with signal 19:
it is started, its header is read, it is stopped, and it exits. -/
def stopped_child_run : List Action :=
  [Action.start_child (some "status") 7 3 4 5 6 [ReadResult.data "{}".data, ReadResult.eagain],
    Action.stdin_ready, Action.stop_child, Action.child_exited 0]

/-- An environment as `example_env` whose header sets version 1 and the
signals 19 and 18. -/
def signal_env : Env :=
  { example_env with
    parse_json_header := fun c _ =>
      ({ c with version := 1, stop_signal := 19, cont_signal := 18 }, 2) }

/-- The state the run `stopped_child_run` ends in. -/
def stopped_child_end : State :=
  (run signal_env initial_state stopped_child_run).getD initial_state

/-! ## The statuslines at the level of the machine

The parser callbacks once more, with what the definitions above leave out:
the texts and strings of a block are objects on the heap that the block points
to, `memcpy` of a block copies the pointers, `i3string_set_markup` writes into
the object, and `free` ends its life. -/

/-- An object on the heap that a block can point to: a rich text
(`i3String`), a C string, or what `free` left of one. -/
inductive Mem.Obj where
  | i3string (utf8 : String) (pango_markup : Bool)
  | chars (s : String)
  | freed
  deriving DecidableEq, Repr

/-- The heap: the objects by address, a new allocation taking the next address
(an address is not used again after `free`); `undefined` tells whether the
program has freed, read or written an object that was freed before, which C
leaves undefined. -/
structure Mem.Heap where
  objs : List Mem.Obj
  undefined : Bool
  deriving DecidableEq, Repr

/-- One block of the statusline (`struct status_block`) as it lies in memory:
the texts and strings are pointers, `none` for `NULL`. -/
structure Mem.status_block where
  full_text : Option Nat
  short_text : Option Nat
  color : Option Nat
  background : Option Nat
  border : Option Nat
  min_width : Nat
  min_width_str : Option Nat
  align : blockalign_t
  urgent : Bool
  no_separator : Bool
  border_top : Nat
  border_right : Nat
  border_bottom : Nat
  border_left : Nat
  pango_markup : Bool
  sep_block_width : Nat
  name : Option Nat
  instance_ : Option Nat
  deriving DecidableEq, Repr

/-- A block with every field zero, as `memset(.., 0, ..)` leaves it. -/
def Mem.zero_block : Mem.status_block :=
  { full_text := none, short_text := none, color := none, background := none,
    border := none, min_width := 0, min_width_str := none,
    align := blockalign_t.ALIGN_LEFT, urgent := false, no_separator := false,
    border_top := 0, border_right := 0, border_bottom := 0, border_left := 0,
    pango_markup := false, sep_block_width := 0, name := none, instance_ := none }

/-- Parser context (`struct parser_ctx`); the remembered key, which only the
context points to, is held by value. -/
structure Mem.parser_ctx where
  has_urgent : Bool
  last_map_key : Option String
  block : Mem.status_block
  deriving DecidableEq, Repr

/-- The heap and the globals the parser callbacks work on.  The block records
of the two queues are held by value: every record belongs to one queue. -/
structure Mem.Store where
  heap : Mem.Heap
  parser_context : Mem.parser_ctx
  statusline_head : List Mem.status_block
  statusline_buffer : List Mem.status_block
  deriving DecidableEq, Repr

/-- The store at program start: nothing allocated, zeroed globals, empty
statuslines. -/
def Mem.initial_store : Mem.Store :=
  { heap := { objs := [], undefined := false },
    parser_context := { has_urgent := false, last_map_key := none, block := Mem.zero_block },
    statusline_head := [], statusline_buffer := [] }

/-- An allocation: the object is put at a new address, which is returned. -/
def Mem.alloc (h : Mem.Heap) (o : Mem.Obj) : Mem.Heap × Nat :=
  ({ h with objs := h.objs ++ [o] }, h.objs.length)

/-- Library call `free` on a pointer that is not `NULL`. -/
def Mem.free (h : Mem.Heap) (p : Nat) : Mem.Heap :=
  match h.objs[p]? with
  | some Mem.Obj.freed => { h with undefined := true }
  | none => { h with undefined := true }
  | some _ => { h with objs := h.objs.set p Mem.Obj.freed }

/-- Modelled from the spec: macro `FREE` of libi3, whose header is not among
the sources: `free` of the pointer unless it is `NULL`. -/
def Mem.FREE (h : Mem.Heap) : Option Nat → Mem.Heap
  | none => h
  | some p => Mem.free h p

/-- Modelled from the spec: macro `I3STRING_FREE` of libi3: `i3string_free` of
the text unless the pointer is `NULL`. -/
def Mem.I3STRING_FREE (h : Mem.Heap) : Option Nat → Mem.Heap
  | none => h
  | some p => Mem.free h p

/-- Modelled from the spec: `i3string_from_utf8` of libi3, a new rich text
holding the given C string, not flagged as markup. -/
def Mem.i3string_from_utf8 (h : Mem.Heap) (from_utf8 : String) : Mem.Heap × Nat :=
  Mem.alloc h (Mem.Obj.i3string from_utf8 false)

/-- Modelled from the spec: `i3string_from_markup_with_length` of libi3, a new
markup-capable rich text holding the `len` bytes at `val`. -/
def Mem.i3string_from_markup_with_length (h : Mem.Heap) (val : String) : Mem.Heap × Nat :=
  Mem.alloc h (Mem.Obj.i3string val true)

/-- Modelled from the spec: `i3string_set_markup` of libi3, which writes the
markup flag into the rich text at `str`. -/
def Mem.i3string_set_markup (h : Mem.Heap) (str : Nat) (pango_markup : Bool) : Mem.Heap :=
  match h.objs[str]? with
  | some (Mem.Obj.i3string utf8 _) =>
    { h with objs := h.objs.set str (Mem.Obj.i3string utf8 pango_markup) }
  | _ => { h with undefined := true }

/-- The string `sasprintf(&p, "%.*s", len, val)` allocates. -/
def Mem.sasprintf (h : Mem.Heap) (val : String) : Mem.Heap × Nat :=
  Mem.alloc h (Mem.Obj.chars (sasprintf_s val))

/-- The rich text at an address, if one lives there. -/
def Mem.load_text (objs : List Mem.Obj) (p : Nat) : Option I3String :=
  match objs[p]? with
  | some (Mem.Obj.i3string utf8 pango_markup) => some { utf8 := utf8, pango_markup := pango_markup }
  | _ => none

/-- The C string at an address, if one lives there. -/
def Mem.load_chars (objs : List Mem.Obj) (p : Nat) : Option String :=
  match objs[p]? with
  | some (Mem.Obj.chars s) => some s
  | _ => none

/-- Source `clear_statusline`: the first block is removed until the queue is
empty; with `free_resources` its texts and strings are freed before. -/
def Mem.clear_statusline (h : Mem.Heap) :
    List Mem.status_block → Bool → Mem.Heap × List Mem.status_block
  | [], _ => (h, [])
  | first :: rest, free_resources =>
    let h :=
      if free_resources then
        let h := Mem.I3STRING_FREE h first.full_text
        let h := Mem.I3STRING_FREE h first.short_text
        let h := Mem.FREE h first.color
        let h := Mem.FREE h first.name
        let h := Mem.FREE h first.instance_
        let h := Mem.FREE h first.min_width_str
        let h := Mem.FREE h first.background
        Mem.FREE h first.border
      else h
    Mem.clear_statusline h rest free_resources

/-- Source `copy_statusline`: a `memcpy` of every block of `from_`, in order,
into a new record inserted at the tail of `to_`; the copy points to the texts
and strings the original points to. -/
def Mem.copy_statusline :
    List Mem.status_block → List Mem.status_block → List Mem.status_block
  | [], to_ => to_
  | current :: rest, to_ => Mem.copy_statusline rest (to_ ++ [current])

/-- Source `stdin_start_array`: staging is cleared, nothing its blocks point to
is freed. -/
def Mem.stdin_start_array (s : Mem.Store) : Mem.Store × Nat :=
  let r := Mem.clear_statusline s.heap s.statusline_buffer false
  ({ s with heap := r.1, statusline_buffer := r.2 }, 1)

/-- Source `stdin_start_map`. -/
def Mem.stdin_start_map (env : Env) (s : Mem.Store) : Mem.Store × Nat :=
  let block := Mem.zero_block
  let block :=
    if env.separator_symbol.isNone then
      { block with sep_block_width := to_uint32 (env.logical_px 9) }
    else
      { block with sep_block_width := to_uint32 (env.logical_px 8 + env.separator_symbol_width) }
  let block := { block with border_top := 1 }
  let block := { block with border_right := 1 }
  let block := { block with border_bottom := 1 }
  let block := { block with border_left := 1 }
  ({ s with parser_context := { s.parser_context with block := block } }, 1)

/-- Source `stdin_map_key`. -/
def Mem.stdin_map_key (s : Mem.Store) (key : String) : Mem.Store × Nat :=
  ({ s with parser_context := { s.parser_context with last_map_key := some (sasprintf_s key) } }, 1)

/-- Stores a new block under construction. -/
def Mem.set_block (s : Mem.Store) (block : Mem.status_block) : Mem.Store :=
  { s with parser_context := { s.parser_context with block := block } }

/-- Source `stdin_boolean`. -/
def Mem.stdin_boolean (s : Mem.Store) (val : Bool) : Mem.Store × Nat :=
  match s.parser_context.last_map_key with
  | none => (s, 0)
  | some last_map_key =>
    let block := s.parser_context.block
    if strcasecmp_eq last_map_key "urgent" then
      (Mem.set_block s { block with urgent := val }, 1)
    else if strcasecmp_eq last_map_key "separator" then
      (Mem.set_block s { block with no_separator := !val }, 1)
    else (s, 1)

/-- A new object is allocated and a field of the block under construction is
made to point to it; what the field pointed to before stays allocated. -/
def Mem.set_pointer (s : Mem.Store) (r : Mem.Heap × Nat)
    (put : Mem.status_block → Option Nat → Mem.status_block) : Mem.Store :=
  { s with heap := r.1,
           parser_context := { s.parser_context with block := put s.parser_context.block (some r.2) } }

/-- Source `stdin_string`; `val` stands for the `len` bytes at `val`. -/
def Mem.stdin_string (s : Mem.Store) (val : String) : Mem.Store × Nat :=
  match s.parser_context.last_map_key with
  | none => (s, 0)
  | some last_map_key =>
    let block := s.parser_context.block
    if strcasecmp_eq last_map_key "full_text" then
      (Mem.set_pointer s (Mem.i3string_from_markup_with_length s.heap val)
        (fun b p => { b with full_text := p }), 1)
    else if strcasecmp_eq last_map_key "short_text" then
      (Mem.set_pointer s (Mem.i3string_from_markup_with_length s.heap val)
        (fun b p => { b with short_text := p }), 1)
    else if strcasecmp_eq last_map_key "color" then
      (Mem.set_pointer s (Mem.sasprintf s.heap val) (fun b p => { b with color := p }), 1)
    else if strcasecmp_eq last_map_key "background" then
      (Mem.set_pointer s (Mem.sasprintf s.heap val) (fun b p => { b with background := p }), 1)
    else if strcasecmp_eq last_map_key "border" then
      (Mem.set_pointer s (Mem.sasprintf s.heap val) (fun b p => { b with border := p }), 1)
    else if strcasecmp_eq last_map_key "markup" then
      (Mem.set_block s { block with
        pango_markup := (val.length == "pango".length && strncasecmp_eq val "pango" "pango".length) }, 1)
    else if strcasecmp_eq last_map_key "align" then
      if val.length == "center".length && strncmp_eq val "center" "center".length then
        (Mem.set_block s { block with align := blockalign_t.ALIGN_CENTER }, 1)
      else if val.length == "right".length && strncmp_eq val "right" "right".length then
        (Mem.set_block s { block with align := blockalign_t.ALIGN_RIGHT }, 1)
      else
        (Mem.set_block s { block with align := blockalign_t.ALIGN_LEFT }, 1)
    else if strcasecmp_eq last_map_key "min_width" then
      (Mem.set_pointer s (Mem.sasprintf s.heap val) (fun b p => { b with min_width_str := p }), 1)
    else if strcasecmp_eq last_map_key "name" then
      (Mem.set_pointer s (Mem.sasprintf s.heap val) (fun b p => { b with name := p }), 1)
    else if strcasecmp_eq last_map_key "instance" then
      (Mem.set_pointer s (Mem.sasprintf s.heap val) (fun b p => { b with instance_ := p }), 1)
    else (s, 1)

/-- Source `stdin_integer`; `val` is the `long long` the parser delivers. -/
def Mem.stdin_integer (s : Mem.Store) (val : Int) : Mem.Store × Nat :=
  match s.parser_context.last_map_key with
  | none => (s, 0)
  | some last_map_key =>
    let block := s.parser_context.block
    if strcasecmp_eq last_map_key "min_width" then
      (Mem.set_block s { block with min_width := to_uint32 val }, 1)
    else if strcasecmp_eq last_map_key "separator_block_width" then
      (Mem.set_block s { block with sep_block_width := to_uint32 val }, 1)
    else if strcasecmp_eq last_map_key "border_top" then
      (Mem.set_block s { block with border_top := to_uint32 val }, 1)
    else if strcasecmp_eq last_map_key "border_right" then
      (Mem.set_block s { block with border_right := to_uint32 val }, 1)
    else if strcasecmp_eq last_map_key "border_bottom" then
      (Mem.set_block s { block with border_bottom := to_uint32 val }, 1)
    else if strcasecmp_eq last_map_key "border_left" then
      (Mem.set_block s { block with border_left := to_uint32 val }, 1)
    else (s, 1)

/-- The first step of `stdin_end_map` on the copy `new_block`: a missing
`full_text` is made to point to a new diagnostic text. -/
def Mem.ensure_full_text (h : Mem.Heap) (new_block : Mem.status_block) :
    Mem.Heap × Mem.status_block :=
  match new_block.full_text with
  | none =>
    let r := Mem.i3string_from_utf8 h SPEC_VIOLATION
    (r.1, { new_block with full_text := some r.2 })
  | some _ => (h, new_block)

/-- The step of `stdin_end_map` for a string `min_width`: a rich text is made
from the string, given the markup mode of the block, measured and freed.  When
no string lives at `min_width_str` any more the read is undefined and the
width is left as it is. -/
def Mem.measure_min_width (env : Env) (h : Mem.Heap) (new_block : Mem.status_block) :
    Mem.Heap × Mem.status_block :=
  match new_block.min_width_str with
  | some min_width_str =>
    match Mem.load_chars h.objs min_width_str with
    | some str =>
      let r := Mem.i3string_from_utf8 h str
      let h := r.1
      let text := r.2
      let h := Mem.i3string_set_markup h text new_block.pango_markup
      let new_block :=
        match Mem.load_text h.objs text with
        | some t => { new_block with min_width := to_uint32 (env.predict_text_width t) }
        | none => new_block
      let h := Mem.free h text
      (h, new_block)
    | none => ({ h with undefined := true }, new_block)
  | none => (h, new_block)

/-- The last step of `stdin_end_map` before the insertion: the markup mode of
the block is written into its `full_text` and into its `short_text`. -/
def Mem.apply_markup (h : Mem.Heap) (new_block : Mem.status_block) : Mem.Heap :=
  let h :=
    match new_block.full_text with
    | some full_text => Mem.i3string_set_markup h full_text new_block.pango_markup
    | none => { h with undefined := true }
  match new_block.short_text with
  | some short_text => Mem.i3string_set_markup h short_text new_block.pango_markup
  | none => h

/-- Source `stdin_end_map`: `new_block` is a `memcpy` of the block under
construction, which stays as it is in the context and goes on pointing to the
same texts and strings. -/
def Mem.stdin_end_map (env : Env) (s : Mem.Store) : Mem.Store × Nat :=
  let new_block := s.parser_context.block
  let r := Mem.ensure_full_text s.heap new_block
  let h := r.1
  let new_block := r.2
  let s :=
    if new_block.urgent then
      { s with parser_context := { s.parser_context with has_urgent := true } }
    else s
  let r := Mem.measure_min_width env h new_block
  let h := r.1
  let new_block := r.2
  let h := Mem.apply_markup h new_block
  ({ s with heap := h, statusline_buffer := s.statusline_buffer ++ [new_block] }, 1)

/-- Source `stdin_end_array`: the active statusline is cleared, what its blocks
point to is freed, and the staging statusline is copied into it. -/
def Mem.stdin_end_array (s : Mem.Store) : Mem.Store × Nat :=
  let r := Mem.clear_statusline s.heap s.statusline_head true
  ({ s with heap := r.1, statusline_head := Mem.copy_statusline s.statusline_buffer r.2 }, 1)

/-- The callback table of `start_child`. -/
def Mem.callback (env : Env) (s : Mem.Store) : Event → Mem.Store × Nat
  | Event.start_array => Mem.stdin_start_array s
  | Event.end_array => Mem.stdin_end_array s
  | Event.start_map => Mem.stdin_start_map env s
  | Event.end_map => Mem.stdin_end_map env s
  | Event.map_key key => Mem.stdin_map_key s key
  | Event.boolean val => Mem.stdin_boolean s val
  | Event.integer val => Mem.stdin_integer s val
  | Event.string val => Mem.stdin_string s val

/-- The parser delivering events in order; it stops at the first callback that
returns 0.  The boolean tells whether every callback returned non-zero. -/
def Mem.deliver (env : Env) (s : Mem.Store) : List Event → Mem.Store × Bool
  | [] => (s, true)
  | e :: rest =>
    let r := Mem.callback env s e
    if r.2 = 0 then (r.1, false) else Mem.deliver env r.1 rest

/-- What a reader of the statusline finds behind a pointer to a rich text:
`some none` for `NULL`, `none` when no rich text lives at the address. -/
def Mem.view_text (objs : List Mem.Obj) : Option Nat → Option (Option I3String)
  | none => some none
  | some p => (Mem.load_text objs p).map some

/-- What a reader finds behind a pointer to a C string. -/
def Mem.view_chars (objs : List Mem.Obj) : Option Nat → Option (Option String)
  | none => some none
  | some p => (Mem.load_chars objs p).map some

/-- A block as its reader sees it, every pointer followed; `none` when one of
its pointers leads to no live object of its kind. -/
def Mem.view_block (objs : List Mem.Obj) (b : Mem.status_block) :
    Option I3bar.status_block :=
  (Mem.view_text objs b.full_text).bind fun full_text =>
  (Mem.view_text objs b.short_text).bind fun short_text =>
  (Mem.view_chars objs b.color).bind fun color =>
  (Mem.view_chars objs b.background).bind fun background =>
  (Mem.view_chars objs b.border).bind fun border =>
  (Mem.view_chars objs b.min_width_str).bind fun min_width_str =>
  (Mem.view_chars objs b.name).bind fun name =>
  (Mem.view_chars objs b.instance_).bind fun instance_ =>
  some
    { full_text := full_text, short_text := short_text, color := color,
      background := background, border := border, min_width := b.min_width,
      min_width_str := min_width_str, align := b.align, urgent := b.urgent,
      no_separator := b.no_separator, border_top := b.border_top,
      border_right := b.border_right, border_bottom := b.border_bottom,
      border_left := b.border_left, pango_markup := b.pango_markup,
      sep_block_width := b.sep_block_width, name := name, instance_ := instance_ }

/-- A statusline as its reader sees it, block by block. -/
def Mem.view (objs : List Mem.Obj) (blocks : List Mem.status_block) :
    List (Option I3bar.status_block) :=
  blocks.map (Mem.view_block objs)

/-- The addresses a block points to. -/
def Mem.pointers (b : Mem.status_block) : List Nat :=
  [b.full_text, b.short_text, b.color, b.name, b.instance_, b.min_width_str, b.background,
    b.border].reduceOption

/-- Every pointer of every block leads to an address that was allocated. -/
def Mem.allocated (objs : List Mem.Obj) (blocks : List Mem.status_block) : Prop :=
  ∀ b ∈ blocks, ∀ p ∈ Mem.pointers b, p < objs.length

/-- An object with its markup flag put down. -/
def Mem.Obj.bare : Mem.Obj → Mem.Obj
  | Mem.Obj.i3string utf8 _ => Mem.Obj.i3string utf8 false
  | o => o

/-- The objects at the addresses below `n` are in `h2` what they are in `h1`,
but for the markup flag of the rich texts at the addresses in `A`; and nothing
allocated in `h1` is missing in `h2`. -/
def Mem.keeps (n : Nat) (A : Nat → Prop) (h1 h2 : Mem.Heap) : Prop :=
  h1.objs.length ≤ h2.objs.length
  ∧ ∀ p, p < n →
      (h2.objs[p]?).map Mem.Obj.bare = (h1.objs[p]?).map Mem.Obj.bare
      ∧ (¬ A p → h2.objs[p]? = h1.objs[p]?)

/-- A callback result `r` that leaves both statuslines of `s` as they are and
every object that existed before as it was. -/
def Mem.inner (s : Mem.Store) (r : Mem.Store × Nat) : Prop :=
  r.1.statusline_head = s.statusline_head
  ∧ r.1.statusline_buffer = s.statusline_buffer
  ∧ Mem.keeps s.heap.objs.length (fun _ => False) s.heap r.1.heap

/-- The block under construction as `stdin_start_map` leaves it: zeroed, with
the default separator width and the four borders at 1. -/
def Mem.default_block (env : Env) : Mem.status_block :=
  { Mem.zero_block with
    sep_block_width :=
      if env.separator_symbol.isNone then to_uint32 (env.logical_px 9)
      else to_uint32 (env.logical_px 8 + env.separator_symbol_width),
    border_top := 1, border_right := 1, border_bottom := 1, border_left := 1 }

/-- Every pointer of the two statuslines and of the block under construction
leads to an address that was allocated. -/
def Mem.wf (s : Mem.Store) : Prop :=
  Mem.allocated s.heap.objs s.statusline_head
  ∧ Mem.allocated s.heap.objs s.statusline_buffer
  ∧ Mem.allocated s.heap.objs [s.parser_context.block]

/-- A callback result `r` in which the block under construction points to
allocated addresses if it did in `s`. -/
def Mem.grows (s : Mem.Store) (r : Mem.Store × Nat) : Prop :=
  Mem.allocated s.heap.objs [s.parser_context.block] →
    Mem.allocated r.1.heap.objs [r.1.parser_context.block]

/-- The events of `[[{"full_text":"a"}]]`: a stream of one status array, closed
after it. -/
def closed_stream_events : List Event :=
  [Event.start_array, Event.start_array, Event.start_map, Event.map_key "full_text",
    Event.string "a", Event.end_map, Event.end_array, Event.end_array]

/-- The store before the second array end of `[[{"full_text":"a"}]]`. -/
def closed_stream_store : Mem.Store :=
  (Mem.deliver example_env Mem.initial_store (closed_stream_events.take 7)).1

/-- The block with text `t`, markup flag `m` and block markup mode `pm` as the
callbacks build it in `example_env`. -/
def text_block (t : String) (m pm : Bool) : status_block :=
  { default_block example_env with
    full_text := some { utf8 := t, pango_markup := m }, pango_markup := pm }

/-! ## Theorems -/

theorem clear_statusline_nil (l : List status_block) (f : Bool) :
    clear_statusline l f = [] := by
  induction l with
  | nil => rfl
  | cons b rest ih => simpa [clear_statusline] using ih

theorem copy_statusline_append (l to_ : List status_block) :
    copy_statusline l to_ = to_ ++ l := by
  induction l generalizing to_ with
  | nil => simp [copy_statusline]
  | cons b rest ih => simp [copy_statusline, ih]

theorem stdin_end_array_head (s : State) :
    (stdin_end_array s).1.statusline_head = s.statusline_buffer := by
  simp [stdin_end_array, clear_statusline_nil, copy_statusline_append]

/-! ### The parser callbacks and the statuslines -/

theorem block_only_ite (s : State) (c : Prop) [Decidable c] (a b : State × Nat)
    (ha : block_only s a) (hb : block_only s b) : block_only s (if c then a else b) := by
  split
  · exact ha
  · exact hb

theorem block_only_set (s : State) (b : status_block) (n : Nat) :
    block_only s (set_block s b, n) := ⟨b, rfl⟩

theorem block_only_self (s : State) (n : Nat) : block_only s (s, n) :=
  ⟨s.parser_context.block, rfl⟩

theorem stdin_boolean_set_block (s : State) (val : Bool) :
    block_only s (stdin_boolean s val) := by
  unfold stdin_boolean
  cases s.parser_context.last_map_key with
  | none => exact block_only_self s 0
  | some k =>
    dsimp only
    repeat' first
      | apply block_only_ite
      | apply block_only_set

theorem stdin_integer_set_block (s : State) (val : Int) :
    block_only s (stdin_integer s val) := by
  unfold stdin_integer
  cases s.parser_context.last_map_key with
  | none => exact block_only_self s 0
  | some k =>
    dsimp only
    repeat' first
      | apply block_only_ite
      | apply block_only_set

theorem stdin_string_set_block (s : State) (val : String) :
    block_only s (stdin_string s val) := by
  unfold stdin_string
  cases s.parser_context.last_map_key with
  | none => exact block_only_self s 0
  | some k =>
    dsimp only
    repeat' first
      | apply block_only_ite
      | apply block_only_set

/-- What the callbacks other than array start, array end and map end do to the
state: they change the block under construction or the remembered key, and
nothing else. -/
theorem callback_inner (env : Env) (s : State) (e : Event)
    (h1 : e ≠ Event.start_array) (h2 : e ≠ Event.end_array) (h3 : e ≠ Event.end_map) :
    ∃ b k, (callback env s e).1 =
      { s with parser_context := { s.parser_context with block := b, last_map_key := k } } := by
  cases e with
  | start_array => exact absurd rfl h1
  | end_array => exact absurd rfl h2
  | end_map => exact absurd rfl h3
  | start_map => exact ⟨_, s.parser_context.last_map_key, rfl⟩
  | map_key key => exact ⟨s.parser_context.block, _, rfl⟩
  | boolean val =>
    obtain ⟨b, hb⟩ := stdin_boolean_set_block s val
    exact ⟨b, s.parser_context.last_map_key, by simpa [callback, set_block] using hb⟩
  | integer val =>
    obtain ⟨b, hb⟩ := stdin_integer_set_block s val
    exact ⟨b, s.parser_context.last_map_key, by simpa [callback, set_block] using hb⟩
  | string val =>
    obtain ⟨b, hb⟩ := stdin_string_set_block s val
    exact ⟨b, s.parser_context.last_map_key, by simpa [callback, set_block] using hb⟩

theorem stdin_end_map_spec (env : Env) (s : State) :
    (stdin_end_map env s).1.statusline_head = s.statusline_head
    ∧ (stdin_end_map env s).1.statusline_buffer
        = s.statusline_buffer ++ [finish_block env s.parser_context.block]
    ∧ (stdin_end_map env s).1.parser_context.has_urgent
        = (s.parser_context.has_urgent || (finish_block env s.parser_context.block).urgent)
    ∧ (stdin_end_map env s).2 = 1 := by
  unfold stdin_end_map
  cases h : (finish_block env s.parser_context.block).urgent <;> simp [h]

/-- Events that neither open nor close an array, delivered with success, leave
the active statusline alone, append the blocks of the maps that end to staging,
and raise `has_urgent` exactly when one of these blocks is urgent. -/
theorem deliver_body (env : Env) :
    ∀ (body : List Event) (s s' : State),
      (∀ e ∈ body, e ≠ Event.start_array ∧ e ≠ Event.end_array) →
      deliver env s body = (s', true) →
      s'.statusline_head = s.statusline_head
      ∧ ∃ new, s'.statusline_buffer = s.statusline_buffer ++ new
          ∧ s'.parser_context.has_urgent
              = (s.parser_context.has_urgent || new.any (fun b => b.urgent)) := by
  intro body
  induction body with
  | nil =>
    intro s s' _ h
    simp only [deliver, Prod.mk.injEq, and_true] at h
    subst h
    exact ⟨rfl, [], by simp⟩
  | cons e rest ih =>
    intro s s' hb h
    have hrest : ∀ e ∈ rest, e ≠ Event.start_array ∧ e ≠ Event.end_array :=
      fun e he => hb e (List.mem_cons_of_mem _ he)
    have he := hb e (List.mem_cons_self _ _)
    simp only [deliver] at h
    split at h
    · simp at h
    · by_cases hm : e = Event.end_map
      · subst hm
        obtain ⟨h1, new, h2, h3⟩ := ih _ _ hrest h
        obtain ⟨e1, e2, e3, _⟩ := stdin_end_map_spec env s
        simp only [callback] at h1 h2 h3
        refine ⟨h1.trans e1, finish_block env s.parser_context.block :: new, ?_, ?_⟩
        · rw [h2, e2]; simp
        · rw [h3, e3]; simp [Bool.or_assoc]
      · obtain ⟨b, k, hc⟩ := callback_inner env s e he.1 he.2 hm
        obtain ⟨h1, new, h2, h3⟩ := ih _ _ hrest h
        rw [hc] at h1 h2 h3
        exact ⟨h1, new, h2, h3⟩

theorem deliver_cons (env : Env) (s : State) (e : Event) (rest : List Event) :
    deliver env s (e :: rest) =
      if (callback env s e).2 = 0 then ((callback env s e).1, false)
      else deliver env (callback env s e).1 rest := rfl

theorem deliver_append (env : Env) :
    ∀ (a b : List Event) (s : State),
      deliver env s (a ++ b) =
        if (deliver env s a).2 then deliver env (deliver env s a).1 b else deliver env s a := by
  intro a
  induction a with
  | nil => intro b s; simp [deliver]
  | cons e rest ih =>
    intro b s
    simp only [List.cons_append, deliver]
    split
    · simp
    · exact ih b _

theorem yajl_parse_state (env : Env) (s : State) (input : ParserRun) :
    (yajl_parse env s input).1 = (deliver env s input.events).1 := by
  dsimp only [yajl_parse]
  cases (deliver env s input.events).2 <;> cases input.rejected <;> rfl

theorem yajl_parse_ok (env : Env) (s : State) (input : ParserRun) :
    (yajl_parse env s input).2 = yajl_status.yajl_status_ok
      ↔ (deliver env s input.events).2 = true ∧ input.rejected = false := by
  dsimp only [yajl_parse]
  cases (deliver env s input.events).2 <;> cases input.rejected <;> simp

/-- After a parse that ends in `yajl_status_ok`, `read_json_input` returns the
flag of the parser context. -/
theorem read_json_input_ok (env : Env) (s : State) (input : ParserRun)
    (hok : (yajl_parse env s input).2 = yajl_status.yajl_status_ok) :
    read_json_input env s input =
      ((deliver env s input.events).1,
        (deliver env s input.events).1.parser_context.has_urgent) := by
  unfold read_json_input
  simp only [hok, ne_eq, not_true_eq_false, if_false, yajl_parse_state]
  cases (deliver env s input.events).1.parser_context.has_urgent <;> simp

/-- One status array parsed with success: the boolean returned is the flag of
the context before the array or-ed with the urgency of the blocks now active,
and the flag of the context afterwards is that boolean. -/
theorem read_status_array (env : Env) (s : State) (input : ParserRun)
    (harr : is_status_array input.events)
    (hok : (yajl_parse env s input).2 = yajl_status.yajl_status_ok) :
    (read_json_input env s input).2
        = (s.parser_context.has_urgent
            || (read_json_input env s input).1.statusline_head.any (fun b => b.urgent))
    ∧ (read_json_input env s input).1.parser_context.has_urgent
        = (read_json_input env s input).2 := by
  obtain ⟨body, hev, hbody⟩ := harr
  have hd : (deliver env s input.events).2 = true := ((yajl_parse_ok env s input).1 hok).1
  rw [read_json_input_ok env s input hok]
  refine ⟨?_, rfl⟩
  have h0 : (callback env s Event.start_array) = ({ s with statusline_buffer := [] }, 1) := by
    simp [callback, stdin_start_array, clear_statusline_nil]
  rw [hev] at hd ⊢
  rw [List.cons_append, deliver_cons, h0] at hd ⊢
  simp only [one_ne_zero, if_false] at hd ⊢
  rw [deliver_append] at hd ⊢
  cases hb : (deliver env { s with statusline_buffer := [] } body).2 with
  | false =>
    rw [hb] at hd
    simp only [Bool.false_eq_true, if_false] at hd
    rw [hb] at hd
    exact absurd hd (by simp)
  | true =>
    simp only [if_true]
    obtain ⟨h1, new, h2, h3⟩ :=
      deliver_body env body _ (deliver env { s with statusline_buffer := [] } body).1 hbody
        (Prod.ext rfl hb)
    simp only [List.nil_append] at h2
    simp only [deliver_cons, deliver, callback, stdin_end_array, one_ne_zero, if_false,
      clear_statusline_nil, copy_statusline_append, List.nil_append]
    rw [h3, h2]

/-- In a session of status arrays that all parse, the boolean returned after an
array is true exactly when the flag of the context was set at the start of the
session or a block of this array or of an earlier array is urgent. -/
theorem read_session_sticky (env : Env) :
    ∀ (inputs : List ParserRun) (s : State),
      (∀ input ∈ inputs, is_status_array input.events) →
      (∀ t ∈ read_session env s inputs, t.1 = yajl_status.yajl_status_ok) →
      ∀ (i : Nat) (t : yajl_status × Bool × State),
        (read_session env s inputs)[i]? = some t →
        (t.2.1 = true ↔
          (s.parser_context.has_urgent = true
            ∨ ∃ j u, j ≤ i ∧ (read_session env s inputs)[j]? = some u
                ∧ ∃ b ∈ u.2.2.statusline_head, b.urgent = true)) := by
  intro inputs
  induction inputs with
  | nil =>
    intro s _ _ i t hi
    simp [read_session] at hi
  | cons input rest ih =>
    intro s harr hok i t hi
    have hok0 : (yajl_parse env s input).2 = yajl_status.yajl_status_ok :=
      hok ((yajl_parse env s input).2, (read_json_input env s input).2,
        (read_json_input env s input).1) (List.mem_cons_self _ _)
    obtain ⟨hr, hu⟩ :=
      read_status_array env s input (harr input (List.mem_cons_self _ _)) hok0
    have hany : ((read_json_input env s input).1.statusline_head.any (fun b => b.urgent) = true)
        ↔ ∃ b ∈ (read_json_input env s input).1.statusline_head, b.urgent = true := by
      simp [List.any_eq_true]
    cases i with
    | zero =>
      simp only [read_session, List.getElem?_cons_zero, Option.some.injEq] at hi
      subst hi
      simp only [hr, Bool.or_eq_true, hany]
      constructor
      · rintro (h | h)
        · exact Or.inl h
        · exact Or.inr ⟨0, ((yajl_parse env s input).2, (read_json_input env s input).2,
            (read_json_input env s input).1), le_refl 0,
            by simp only [read_session, List.getElem?_cons_zero], h⟩
      · rintro (h | ⟨j, u, hj, hju, hb⟩)
        · exact Or.inl h
        · have hj0 : j = 0 := Nat.le_zero.mp hj
          subst hj0
          simp only [read_session, List.getElem?_cons_zero, Option.some.injEq] at hju
          subst hju
          exact Or.inr hb
    | succ i =>
      simp only [read_session, List.getElem?_cons_succ] at hi
      have hrest := ih (read_json_input env s input).1
        (fun x hx => harr x (List.mem_cons_of_mem _ hx))
        (fun x hx => hok x (by simp only [read_session]; exact List.mem_cons_of_mem _ hx))
        i t hi
      rw [hrest, hu, hr, Bool.or_eq_true, hany]
      constructor
      · rintro ((h | h) | ⟨j, u, hj, hju, hb⟩)
        · exact Or.inl h
        · exact Or.inr ⟨0, ((yajl_parse env s input).2, (read_json_input env s input).2,
            (read_json_input env s input).1), Nat.zero_le _,
            by simp only [read_session, List.getElem?_cons_zero], h⟩
        · exact Or.inr ⟨j + 1, u, Nat.succ_le_succ hj,
            by simpa only [read_session, List.getElem?_cons_succ] using hju, hb⟩
      · rintro (h | ⟨j, u, hj, hju, hb⟩)
        · exact Or.inl (Or.inl h)
        · cases j with
          | zero =>
            simp only [read_session, List.getElem?_cons_zero, Option.some.injEq] at hju
            subst hju
            exact Or.inl (Or.inr hb)
          | succ j =>
            simp only [read_session, List.getElem?_cons_succ] at hju
            exact Or.inr ⟨j, u, Nat.le_of_succ_le_succ hj, hju, hb⟩

/-- C2, as the code has it: in a parse session that starts with the flag of the
parser context clear and consists of status arrays that all parse, the boolean
`read_json_input` returns after an array is true exactly when a block of that
array or of an earlier array of the session is urgent.  The flag is never
cleared. -/
theorem C2_urgent_flag_is_sticky (env : Env) (s : State) (inputs : List ParserRun)
    (h0 : s.parser_context.has_urgent = false)
    (harr : ∀ input ∈ inputs, is_status_array input.events)
    (hok : ∀ t ∈ read_session env s inputs, t.1 = yajl_status.yajl_status_ok)
    (i : Nat) (t : yajl_status × Bool × State)
    (hi : (read_session env s inputs)[i]? = some t) :
    t.2.1 = true ↔
      ∃ j u, j ≤ i ∧ (read_session env s inputs)[j]? = some u
        ∧ ∃ b ∈ u.2.2.statusline_head, b.urgent = true := by
  rw [read_session_sticky env inputs s harr hok i t hi, h0]
  simp

/-- C2 fails as stated: after `[{"full_text":"a","urgent":true}]`, the array
`[{"full_text":"b"}]` parses, leaves one active block that is not urgent, and
`read_json_input` returns true. -/
theorem C2_counterexample :
    (yajl_parse example_env initial_state urgent_array).2 = yajl_status.yajl_status_ok
    ∧ (yajl_parse example_env (read_json_input example_env initial_state urgent_array).1
        calm_array).2 = yajl_status.yajl_status_ok
    ∧ ((read_json_input example_env
          (read_json_input example_env initial_state urgent_array).1 calm_array).1.statusline_head.map
        (fun b => b.urgent)) = [false]
    ∧ (read_json_input example_env
        (read_json_input example_env initial_state urgent_array).1 calm_array).2 = true := by
  decide

theorem C2_urgent_flag_is_sticky_witness :
    (read_json_input example_env
        (read_json_input example_env initial_state urgent_array).1 calm_array).2 = true ↔
      ∃ j u, j ≤ 1
        ∧ (read_session example_env initial_state [urgent_array, calm_array])[j]? = some u
        ∧ ∃ b ∈ u.2.2.statusline_head, b.urgent = true :=
  C2_urgent_flag_is_sticky example_env initial_state [urgent_array, calm_array] rfl
    (by
      intro input h
      simp only [List.mem_cons, List.mem_singleton, List.not_mem_nil, or_false] at h
      rcases h with rfl | rfl
      · exact ⟨[Event.start_map, Event.map_key "full_text", Event.string "a",
          Event.map_key "urgent", Event.boolean true, Event.end_map], rfl, by decide⟩
      · exact ⟨[Event.start_map, Event.map_key "full_text", Event.string "b", Event.end_map],
          rfl, by decide⟩)
    (by decide) 1
    ((yajl_parse example_env (read_json_input example_env initial_state urgent_array).1
        calm_array).2,
      (read_json_input example_env
        (read_json_input example_env initial_state urgent_array).1 calm_array).2,
      (read_json_input example_env
        (read_json_input example_env initial_state urgent_array).1 calm_array).1)
    (by simp only [read_session, List.getElem?_cons_succ, List.getElem?_cons_zero])

/-- C3 is broken by the first-line path: with the two-block error statusline of
an ended child still active, the first plain-text line of the next child puts
its text into the first error block and leaves the block it appended, the third
one, without `full_text`. -/
theorem C3_first_line_leaves_block_without_text :
    (stdin_io_first_line_cb example_env restarted_state).map
        (fun s => s.statusline_head.map (fun b => b.full_text.map (fun t => t.utf8)))
      = some [some "hello",
          some "status_command not found or is missing a library dependency (exit 127)",
          none] := by
  decide

/-! ### The text of a finished block -/

theorem keeps_full_text_ite (s : State) (c : Prop) [Decidable c] (a b : State × Nat)
    (ha : keeps_full_text s a) (hb : keeps_full_text s b) :
    keeps_full_text s (if c then a else b) := by
  split
  · exact ha
  · exact hb

theorem keeps_full_text_set (s : State) (b : status_block)
    (h : b.full_text = s.parser_context.block.full_text) :
    keeps_full_text s (set_block s b, 1) := ⟨rfl, b, rfl, h⟩

theorem keeps_full_text_self (s : State) : keeps_full_text s (s, 1) :=
  ⟨rfl, s.parser_context.block, rfl, rfl⟩

theorem stdin_boolean_keeps_full_text (s : State) (val : Bool) (k : String)
    (hk : s.parser_context.last_map_key = some k) :
    keeps_full_text s (stdin_boolean s val) := by
  unfold stdin_boolean
  rw [hk]
  dsimp only
  repeat' first
    | apply keeps_full_text_ite
    | exact keeps_full_text_self s
    | exact keeps_full_text_set s _ rfl

theorem stdin_integer_keeps_full_text (s : State) (val : Int) (k : String)
    (hk : s.parser_context.last_map_key = some k) :
    keeps_full_text s (stdin_integer s val) := by
  unfold stdin_integer
  rw [hk]
  dsimp only
  repeat' first
    | apply keeps_full_text_ite
    | exact keeps_full_text_self s
    | exact keeps_full_text_set s _ rfl

theorem stdin_string_keeps_full_text (s : State) (val : String) (k : String)
    (hk : s.parser_context.last_map_key = some k)
    (hf : strcasecmp_eq k "full_text" = false) :
    keeps_full_text s (stdin_string s val) := by
  unfold stdin_string
  rw [hk]
  dsimp only
  rw [if_neg (by simp [hf])]
  repeat' first
    | apply keeps_full_text_ite
    | exact keeps_full_text_self s
    | exact keeps_full_text_set s _ rfl

theorem stdin_string_full_text (s : State) (val : String) (k : String)
    (hk : s.parser_context.last_map_key = some k)
    (hf : strcasecmp_eq k "full_text" = true) :
    stdin_string s val =
      (set_block s { s.parser_context.block with
        full_text := some (i3string_from_markup_with_length val) }, 1) := by
  unfold stdin_string
  rw [hk]
  dsimp only
  rw [if_pos hf]

theorem c_str_idem (s : String) : c_str (c_str s) = c_str s := by
  simp [c_str, List.takeWhile_idem]

theorem strcasecmp_eq_c_str (k t : String) :
    strcasecmp_eq (c_str k) t = strcasecmp_eq k t := by
  simp [strcasecmp_eq, c_str_idem]

theorem finish_block_full_text (env : Env) (block : status_block) :
    (finish_block env block).full_text.map (fun t => t.utf8)
      = some (match block.full_text with
          | some t => t.utf8
          | none => SPEC_VIOLATION) := by
  unfold finish_block
  cases h1 : block.full_text <;> cases h2 : block.min_width_str <;>
    cases h3 : block.short_text <;>
    simp [h1, h2, h3, i3string_set_markup, i3string_from_utf8]

/-- The members of a map whose values are scalars are all delivered; staging,
the active statusline and the urgency flag are left alone, and `full_text` of
the block under construction ends as the last string given for it, or as it
was when none is given. -/
theorem deliver_members (env : Env) :
    ∀ (members : List (String × Scalar)) (s : State),
      (deliver env s (member_events members)).2 = true
      ∧ (deliver env s (member_events members)).1.statusline_buffer = s.statusline_buffer
      ∧ (deliver env s (member_events members)).1.statusline_head = s.statusline_head
      ∧ (deliver env s (member_events members)).1.parser_context.block.full_text
          = (match given_full_text members with
              | some val => some (i3string_from_markup_with_length val)
              | none => s.parser_context.block.full_text) := by
  intro members
  induction members with
  | nil => intro s; simp [member_events, deliver, given_full_text]
  | cons m rest ih =>
    intro s
    obtain ⟨key, value⟩ := m
    have hkey : (callback env s (Event.map_key key)) =
        ({ s with parser_context :=
            { s.parser_context with last_map_key := some (c_str key) } }, 1) := rfl
    simp only [member_events, deliver_cons, hkey, one_ne_zero, if_false]
    generalize hs1 : ({ s with parser_context :=
      { s.parser_context with last_map_key := some (c_str key) } } : State) = s1
    have hk1 : s1.parser_context.last_map_key = some (c_str key) := by rw [← hs1]
    have hb1 : s1.statusline_buffer = s.statusline_buffer := by rw [← hs1]
    have hh1 : s1.statusline_head = s.statusline_head := by rw [← hs1]
    have hf1 : s1.parser_context.block.full_text = s.parser_context.block.full_text := by
      rw [← hs1]
    have keep : ∀ r : State × Nat, keeps_full_text s1 r → given_full_text ((key, value) :: rest)
          = given_full_text rest →
        (if r.2 = 0 then (r.1, false) else deliver env r.1 (member_events rest)).2 = true
        ∧ (if r.2 = 0 then (r.1, false)
            else deliver env r.1 (member_events rest)).1.statusline_buffer = s.statusline_buffer
        ∧ (if r.2 = 0 then (r.1, false)
            else deliver env r.1 (member_events rest)).1.statusline_head = s.statusline_head
        ∧ (if r.2 = 0 then (r.1, false)
            else deliver env r.1 (member_events rest)).1.parser_context.block.full_text
          = (match given_full_text ((key, value) :: rest) with
              | some val => some (i3string_from_markup_with_length val)
              | none => s.parser_context.block.full_text) := by
      rintro r ⟨hr, b, hrb, hbf⟩ hg
      obtain ⟨i1, i2, i3, i4⟩ := ih r.1
      rw [hr, hg]
      simp only [one_ne_zero, if_false]
      refine ⟨i1, ?_, ?_, ?_⟩
      · rw [i2, hrb]; exact hb1
      · rw [i3, hrb]; exact hh1
      · rw [i4, hrb]
        cases given_full_text rest with
        | some v => rfl
        | none => exact hbf.trans hf1
    cases value with
    | boolean val =>
      exact keep _ (stdin_boolean_keeps_full_text s1 val _ hk1) rfl
    | integer val =>
      exact keep _ (stdin_integer_keeps_full_text s1 val _ hk1) rfl
    | string val =>
      cases hf : strcasecmp_eq key "full_text" with
      | false =>
        refine keep _ (stdin_string_keeps_full_text s1 val _ hk1
          (by rw [strcasecmp_eq_c_str]; exact hf)) ?_
        simp only [given_full_text, hf]
        cases given_full_text rest <;> simp
      | true =>
        have hst := stdin_string_full_text s1 val _ hk1 (by rw [strcasecmp_eq_c_str]; exact hf)
        simp only [Scalar.event, callback, hst, one_ne_zero, if_false]
        obtain ⟨i1, i2, i3, i4⟩ := ih (set_block s1 { s1.parser_context.block with
          full_text := some (i3string_from_markup_with_length val) })
        refine ⟨i1, ?_, ?_, ?_⟩
        · rw [i2]; exact hb1
        · rw [i3]; exact hh1
        · rw [i4]
          simp only [given_full_text, hf]
          cases given_full_text rest <;> simp [set_block]

theorem stdin_start_map_full_text (env : Env) (s : State) :
    (stdin_start_map env s).1.parser_context.block.full_text = none
    ∧ (stdin_start_map env s).1.statusline_buffer = s.statusline_buffer := by
  unfold stdin_start_map
  split <;> exact ⟨rfl, rfl⟩

theorem deliver_map_events (env : Env) (s : State) (members : List (String × Scalar)) :
    deliver env s (map_events members) =
      ((stdin_end_map env
        (deliver env (stdin_start_map env s).1 (member_events members)).1).1, true) := by
  have h0 : (callback env s Event.start_map) = (stdin_start_map env s) := rfl
  have h1 : (stdin_start_map env s).2 = 1 := rfl
  obtain ⟨i1, -, -, -⟩ := deliver_members env members (stdin_start_map env s).1
  unfold map_events
  rw [List.cons_append, deliver_cons, h0, if_neg (by rw [h1]; exact one_ne_zero),
    deliver_append, i1, if_pos rfl, deliver_cons]
  have h2 : ∀ t, (callback env t Event.end_map) = (stdin_end_map env t) := fun _ => rfl
  rw [h2, if_neg (by rw [(stdin_end_map_spec env _).2.2.2]; exact one_ne_zero)]
  rfl

/-- C4, for maps whose member values are all scalars: the events of such a map
are all delivered, map end appends exactly one block to staging, and the text
of that block is the last string the map gives for `full_text` (key compared
without regard to case), or `"SPEC VIOLATION: full_text is NULL!"` when the map
gives none. -/
theorem C4_full_text_of_flat_map (env : Env) (s : State) (members : List (String × Scalar)) :
    (deliver env s (map_events members)).2 = true
    ∧ (∃ b, (deliver env s (map_events members)).1.statusline_buffer = s.statusline_buffer ++ [b]
        ∧ b.full_text.map (fun t => t.utf8)
            = some ((given_full_text members).getD SPEC_VIOLATION))
    ∧ SPEC_VIOLATION = "SPEC VIOLATION: full_text is NULL!"
    ∧ SPEC_VIOLATION ≠ "" := by
  obtain ⟨-, i2, -, i4⟩ := deliver_members env members (stdin_start_map env s).1
  rw [deliver_map_events]
  refine ⟨rfl, ⟨finish_block env
      (deliver env (stdin_start_map env s).1 (member_events members)).1.parser_context.block,
      ?_, ?_⟩, rfl, by decide⟩
  · show (stdin_end_map env _).1.statusline_buffer = _
    rw [(stdin_end_map_spec env _).2.1, i2, (stdin_start_map_full_text env s).2]
  · rw [finish_block_full_text, i4, (stdin_start_map_full_text env s).1]
    cases given_full_text members with
    | some v => rfl
    | none => rfl

/-- C4 fails as stated on maps with nested values.  The map
`{"full_text":"a","x":{}}` gives the string `a` for `full_text`, yet the block
its map end appends carries the diagnostic text; the map `{"full_text":["b"]}`
has no string-valued `full_text`, yet the block appended carries `b`. -/
theorem C4_counterexample :
    (deliver example_env initial_state nested_map_events).2 = true
    ∧ (deliver example_env initial_state nested_map_events).1.statusline_buffer.map
        (fun b => b.full_text.map (fun t => t.utf8))
      = [some "SPEC VIOLATION: full_text is NULL!", some "SPEC VIOLATION: full_text is NULL!"]
    ∧ (deliver example_env initial_state array_valued_map_events).2 = true
    ∧ (deliver example_env initial_state array_valued_map_events).1.statusline_buffer.map
        (fun b => b.full_text.map (fun t => t.utf8))
      = [some "b"] := by
  decide

/-! ### Click events -/

theorem yajl_gen_with_gen (s : State) (g : List GenCall) (c : GenCall) :
    yajl_gen (with_gen s g) c = with_gen s (g ++ [c]) := rfl

theorem ystr_with_gen (s : State) (g : List GenCall) (str : String) :
    ystr (with_gen s g) str = with_gen s (g ++ [GenCall.string str]) := rfl

theorem ystr_if_with_gen (s : State) (g : List GenCall) (c : Bool) (str : String) :
    ystr_if (with_gen s g) c str
      = with_gen s (g ++ (if c = true then [GenCall.string str] else [])) := by
  cases c <;> simp [ystr_if, ystr_with_gen]

theorem ystr_member_with_gen (s : State) (g : List GenCall) (key : String)
    (value : Option String) :
    ystr_member (with_gen s g) key value = with_gen s (g ++ optional_member key value) := by
  cases value <;> simp [ystr_member, optional_member, ystr_with_gen]

theorem filter_cons_append (p : String × Int → Bool) (a : String × Int)
    (l : List (String × Int)) :
    (a :: l).filter p = (if p a = true then [a] else []) ++ l.filter p := by
  cases h : p a <;> simp [List.filter_cons, h]

theorem map_ite_singleton (c : Bool) (a : String × Int) :
    List.map GenCall.string (List.map (fun m => m.1) (if c = true then [a] else []))
      = if c = true then [GenCall.string a.1] else [] := by
  cases c <;> rfl

/-- The names generated for the modifiers, one optional name per mask in the
order of the source, are the names of the masks set in `mods`. -/
theorem modifiers_calls (mods : Int) :
    (modifiers_of mods).map GenCall.string
      = (if mask_set mods XCB_MOD_MASK_SHIFT = true then [GenCall.string "Shift"] else [])
        ++ ((if mask_set mods XCB_MOD_MASK_CONTROL = true then [GenCall.string "Control"] else [])
        ++ ((if mask_set mods XCB_MOD_MASK_1 = true then [GenCall.string "Mod1"] else [])
        ++ ((if mask_set mods XCB_MOD_MASK_2 = true then [GenCall.string "Mod2"] else [])
        ++ ((if mask_set mods XCB_MOD_MASK_3 = true then [GenCall.string "Mod3"] else [])
        ++ ((if mask_set mods XCB_MOD_MASK_4 = true then [GenCall.string "Mod4"] else [])
        ++ (if mask_set mods XCB_MOD_MASK_5 = true then [GenCall.string "Mod5"] else [])))))) := by
  unfold modifiers_of modifier_names
  simp only [filter_cons_append, List.filter_nil, List.map_append, List.append_nil,
    map_ite_singleton]

theorem gen_click_object_with_gen (s : State) (g : List GenCall) (button : Int)
    (name instance_ : Option String) (x y x_rel y_rel out_x out_y width height mods : Int) :
    gen_click_object (with_gen s g) button name instance_ x y x_rel y_rel out_x out_y width
        height mods
      = with_gen s (g
          ++ click_object button name instance_ x y x_rel y_rel out_x out_y width height mods) := by
  unfold gen_click_object
  simp only [yajl_gen_with_gen, ystr_with_gen, ystr_if_with_gen, ystr_member_with_gen]
  refine congrArg (with_gen s) ?_
  unfold click_object
  rw [modifiers_calls]
  simp only [List.append_assoc, List.cons_append, List.nil_append, List.append_nil]

/-- The generator calls of one click are the click object of the protocol,
appended to the buffer; nothing else of the state changes. -/
theorem gen_click_object_eq (s : State) (button : Int) (name instance_ : Option String)
    (x y x_rel y_rel out_x out_y width height mods : Int) :
    gen_click_object s button name instance_ x y x_rel y_rel out_x out_y width height mods
      = with_gen s (s.gen
          ++ click_object button name instance_ x y x_rel y_rel out_x out_y width height mods) :=
  gen_click_object_with_gen s s.gen button name instance_ x y x_rel y_rel out_x out_y width
    height mods

theorem send_block_clicked_eq (s : State) (button : Int) (name instance_ : Option String)
    (x y x_rel y_rel out_x out_y width height mods : Int)
    (h : s.child.click_events = true) :
    send_block_clicked s button name instance_ x y x_rel y_rel out_x out_y width height mods
      = child_write_output
          (with_gen ( child_click_events_initialize s)
            (( child_click_events_initialize s).gen
              ++ click_object button name instance_ x y x_rel y_rel out_x out_y width height
                  mods)) := by
  unfold send_block_clicked
  rw [if_neg (by simp [h])]
  dsimp only
  rw [gen_click_object_eq]

/-- C6: with click events enabled, `send_block_clicked` opens the stream if
need be, appends to the generator buffer exactly the click object of the
protocol - `name` and `instance` when set, then `button`, `modifiers`, `x`, `y`,
`relative_x`, `relative_y`, `output_x`, `output_y`, `width`, `height`, every
integer being the argument, `modifiers` being the names of the masks set in
`mods` in the fixed order - and hands the buffer to `child_write_output`.  For
the example of the protocol the object is the one written out, with
`modifiers` equal to `["Shift","Control"]`. -/
theorem C6_click_object (s : State) (button : Int) (name instance_ : Option String)
    (x y x_rel y_rel out_x out_y width height mods : Int)
    (h : s.child.click_events = true) :
    send_block_clicked s button name instance_ x y x_rel y_rel out_x out_y width height mods
      = child_write_output
          (with_gen ( child_click_events_initialize s)
            (( child_click_events_initialize s).gen
              ++ click_object button name instance_ x y x_rel y_rel out_x out_y width height mods))
    ∧ modifiers_of mods
        = (([("Shift", 1), ("Control", 4), ("Mod1", 8), ("Mod2", 16), ("Mod3", 32), ("Mod4", 64),
            ("Mod5", 128)] : List (String × Int)).filter
              (fun m => Int.land mods m.2 != 0)).map (fun m => m.1)
    ∧ click_object 1 (some "vol") (some "0") 10 20 1 2 3 4 30 18
          (Int.lor XCB_MOD_MASK_SHIFT XCB_MOD_MASK_CONTROL)
        = [GenCall.map_open,
            GenCall.string "name", GenCall.string "vol",
            GenCall.string "instance", GenCall.string "0",
            GenCall.string "button", GenCall.integer 1,
            GenCall.string "modifiers", GenCall.array_open,
              GenCall.string "Shift", GenCall.string "Control", GenCall.array_close,
            GenCall.string "x", GenCall.integer 10,
            GenCall.string "y", GenCall.integer 20,
            GenCall.string "relative_x", GenCall.integer 1,
            GenCall.string "relative_y", GenCall.integer 2,
            GenCall.string "output_x", GenCall.integer 3,
            GenCall.string "output_y", GenCall.integer 4,
            GenCall.string "width", GenCall.integer 30,
            GenCall.string "height", GenCall.integer 18,
            GenCall.map_close] := by
  exact ⟨send_block_clicked_eq s button name instance_ x y x_rel y_rel out_x out_y width
    height mods h, rfl, by decide⟩

theorem C6_click_object_witness :
    send_block_clicked clickable_state 1 (some "vol") (some "0") 10 20 1 2 3 4 30 18 5
      = child_write_output
          (with_gen ( child_click_events_initialize clickable_state)
            (( child_click_events_initialize clickable_state).gen
              ++ click_object 1 (some "vol") (some "0") 10 20 1 2 3 4 30 18 5)) :=
  (C6_click_object clickable_state 1 (some "vol") (some "0") 10 20 1 2 3 4 30 18 5
    (by decide)).1

theorem writeall_ok (s : State) (fd : Int) (out : Output)
    (h : ∀ r ∈ s.writeall_results, r = true) :
    writeall s fd out =
      ({ s with writeall_results := s.writeall_results.tail,
                trace := s.trace ++ [Effect.writeall fd out true] }, true) := by
  obtain ⟨child, ctx, head, buffer, gen, io, fd0, sig, cstdin, results, pipe, fed, trace⟩ := s
  cases results with
  | nil => rfl
  | cons r rest =>
    have hr : r = true := h r (List.mem_cons_self _ _)
    subst hr
    rfl

/-- With click events enabled and writes that succeed, `child_write_output`
writes the generator buffer and a newline and clears the buffer. -/
theorem child_write_output_ok (s : State) (hc : s.child.click_events = true)
    (h : ∀ r ∈ s.writeall_results, r = true) :
    child_write_output s =
      { s with gen := [], writeall_results := s.writeall_results.tail.tail,
               trace := s.trace ++ written s.child_stdin s.gen } := by
  unfold child_write_output
  rw [if_pos hc]
  dsimp only
  rw [writeall_ok s _ _ h]
  dsimp only
  rw [if_pos rfl, writeall_ok _ _ _ (fun r hr => h r (List.mem_of_mem_tail hr))]
  simp [written]

theorem child_click_events_initialize_ok (s : State) (hc : s.child.click_events = true)
    (hi : s.child.click_events_init = false) (h : ∀ r ∈ s.writeall_results, r = true) :
    child_click_events_initialize s =
      { s with child := { s.child with click_events_init := true },
               gen := [], writeall_results := s.writeall_results.tail.tail,
               trace := s.trace ++ written s.child_stdin (s.gen ++ [GenCall.array_open]) } := by
  unfold child_click_events_initialize
  rw [if_pos (by simp [hi])]
  dsimp only
  rw [child_write_output_ok (yajl_gen s GenCall.array_open) hc h]
  rfl

theorem child_click_events_initialize_done (s : State)
    (hi : s.child.click_events_init = true) :
    child_click_events_initialize s = s := by
  unfold child_click_events_initialize
  rw [if_neg (by simp [hi])]

/-- A click sent once the stream is open, writes succeeding: the click object
and a newline are written, nothing else changes. -/
theorem send_click_open (s : State) (c : Click) (hc : s.child.click_events = true)
    (hi : s.child.click_events_init = true) (hg : s.gen = [])
    (h : ∀ r ∈ s.writeall_results, r = true) :
    send_click s c =
      { s with gen := [], writeall_results := s.writeall_results.tail.tail,
               trace := s.trace ++ written s.child_stdin c.object } := by
  unfold send_click send_block_clicked
  rw [if_neg (by simp [hc])]
  dsimp only
  rw [child_click_events_initialize_done s hi, gen_click_object_eq,
    child_write_output_ok (with_gen s (s.gen ++ click_object c.button c.name c.instance_ c.x c.y
      c.x_rel c.y_rel c.out_x c.out_y c.width c.height c.mods)) hc h]
  simp [with_gen, hg, Click.object]

theorem send_clicks_open :
    ∀ (clicks : List Click) (s : State), s.child.click_events = true →
      s.child.click_events_init = true → s.gen = [] →
      (∀ r ∈ s.writeall_results, r = true) →
      send_clicks s clicks =
        { s with gen := [], writeall_results := s.writeall_results.drop (2 * clicks.length),
                 trace := s.trace ++ clicks_written s.child_stdin clicks } := by
  intro clicks
  induction clicks with
  | nil =>
    intro s _ _ hg _
    obtain ⟨child, ctx, head, buffer, gen, io, fd0, sig, cstdin, results, pipe, fed, trace⟩ := s
    simp only at hg
    subst hg
    simp [send_clicks, clicks_written]
  | cons c rest ih =>
    intro s hc hi hg h
    have h2 : ∀ r ∈ s.writeall_results.tail.tail, r = true :=
      fun r hr => h r (List.mem_of_mem_tail (List.mem_of_mem_tail hr))
    rw [send_clicks, send_click_open s c hc hi hg h]
    rw [ih { s with gen := [], writeall_results := s.writeall_results.tail.tail,
                    trace := s.trace ++ written s.child_stdin c.object } hc hi rfl h2]
    simp [clicks_written, Nat.mul_succ, List.drop_drop, ← List.drop_one, Nat.add_comm]

theorem stays_open_scalars (l rest : List GenCall) (depth : Nat)
    (hl : ∀ x ∈ l, x.is_scalar = true) :
    stays_open depth (l ++ rest) = stays_open depth rest := by
  induction l with
  | nil => rfl
  | cons x l ih =>
    have hx := hl x (List.mem_cons_self _ _)
    have ih' := ih (fun y hy => hl y (List.mem_cons_of_mem _ hy))
    cases x <;> simp_all [stays_open, GenCall.is_scalar]

theorem optional_member_scalars (key : String) (value : Option String) :
    ∀ x ∈ optional_member key value, x.is_scalar = true := by
  cases value <;> simp [optional_member, GenCall.is_scalar]

theorem stays_open_map_open (depth : Nat) (rest : List GenCall) :
    stays_open depth (GenCall.map_open :: rest) = stays_open (depth + 1) rest := rfl

theorem stays_open_array_open (depth : Nat) (rest : List GenCall) :
    stays_open depth (GenCall.array_open :: rest) = stays_open (depth + 1) rest := rfl

theorem stays_open_map_close (depth : Nat) (rest : List GenCall) :
    stays_open (depth + 2) (GenCall.map_close :: rest) = stays_open (depth + 1) rest := by
  simp [stays_open]

theorem stays_open_array_close (depth : Nat) (rest : List GenCall) :
    stays_open (depth + 2) (GenCall.array_close :: rest) = stays_open (depth + 1) rest := by
  simp [stays_open]

theorem stays_open_string (depth : Nat) (str : String) (rest : List GenCall) :
    stays_open depth (GenCall.string str :: rest) = stays_open depth rest := rfl

theorem stays_open_integer (depth : Nat) (n : Int) (rest : List GenCall) :
    stays_open depth (GenCall.integer n :: rest) = stays_open depth rest := rfl

/-- A click object opens and closes only what it opens itself: entered at depth
1 or deeper it closes nothing of that depth. -/
theorem stays_open_click_object (c : Click) (rest : List GenCall) (depth : Nat)
    (hd : 1 ≤ depth) :
    stays_open depth (c.object ++ rest) = stays_open depth rest := by
  have hm : ∀ x ∈ (modifiers_of c.mods).map GenCall.string, x.is_scalar = true := by
    intro x hx
    obtain ⟨n, -, rfl⟩ := List.mem_map.mp hx
    rfl
  obtain ⟨d, rfl⟩ : ∃ d, depth = d + 1 := ⟨depth - 1, by omega⟩
  unfold Click.object click_object
  simp only [List.append_assoc, List.cons_append, List.nil_append]
  rw [stays_open_map_open, stays_open_scalars _ _ _ (optional_member_scalars _ _),
    stays_open_scalars _ _ _ (optional_member_scalars _ _)]
  simp only [stays_open_string, stays_open_integer, stays_open_array_open]
  rw [stays_open_scalars _ _ _ hm, stays_open_array_close]
  simp only [stays_open_string, stays_open_integer]
  rw [stays_open_map_close]

theorem stays_open_click_objects (clicks : List Click) (depth : Nat) (hd : 1 ≤ depth) :
    stays_open depth (click_objects clicks) = true := by
  induction clicks with
  | nil => rfl
  | cons c rest ih => rw [click_objects, stays_open_click_object c _ depth hd, ih]

theorem json_written_written (fd : Int) (calls : List GenCall) (rest : List Effect) :
    json_written (written fd calls ++ rest) = calls ++ json_written rest := by
  simp [written, json_written]

theorem json_written_clicks (fd : Int) (clicks : List Click) :
    json_written (clicks_written fd clicks) = click_objects clicks := by
  induction clicks with
  | nil => rfl
  | cons c rest ih => rw [clicks_written, json_written_written, ih, click_objects]

/-- C7: for a child that accepts click events and has not been sent any, when
every write succeeds, a sequence of click notifications writes the opening of
the top-level array once, with its newline, before the first click object, and
then - for every notification, in order - its click object and a newline, and
nothing else.  `click_events_init` is true after the first notification and
after every later one.  The generator output written is the array opening
followed by the click objects, and after the opening the nesting depth never
falls back to 0: the top-level array is not closed and no array is opened
beside it (the only arrays opened and closed later are the `modifiers` arrays
inside the click objects). -/
theorem C7_array_opened_once (s : State) (c : Click) (rest : List Click)
    (hc : s.child.click_events = true) (hi : s.child.click_events_init = false)
    (h : ∀ r ∈ s.writeall_results, r = true) :
    (send_clicks s (c :: rest)).trace
        = s.trace ++ written s.child_stdin (s.gen ++ [GenCall.array_open])
            ++ clicks_written s.child_stdin (c :: rest)
    ∧ (send_clicks s (c :: rest)).child.click_events_init = true
    ∧ (send_clicks s (c :: rest)).child.click_events = true
    ∧ json_written (written s.child_stdin (s.gen ++ [GenCall.array_open])
          ++ clicks_written s.child_stdin (c :: rest))
        = s.gen ++ GenCall.array_open :: click_objects (c :: rest)
    ∧ stays_open 1 (click_objects (c :: rest)) = true := by
  have h2 : ∀ r ∈ s.writeall_results.tail.tail, r = true :=
    fun r hr => h r (List.mem_of_mem_tail (List.mem_of_mem_tail hr))
  have hinit := child_click_events_initialize_ok s hc hi h
  have hfirst : send_click s c =
      { s with child := { s.child with click_events_init := true },
               gen := [], writeall_results := s.writeall_results.tail.tail.tail.tail,
               trace := s.trace ++ written s.child_stdin (s.gen ++ [GenCall.array_open])
                 ++ written s.child_stdin c.object } := by
    unfold send_click send_block_clicked
    rw [if_neg (by simp [hc])]
    dsimp only
    rw [gen_click_object_eq]
    rw [child_write_output_ok
      (with_gen ( child_click_events_initialize s)
        (( child_click_events_initialize s).gen ++ click_object c.button c.name c.instance_ c.x
          c.y c.x_rel c.y_rel c.out_x c.out_y c.width c.height c.mods))
      (by rw [hinit]; exact hc) (by rw [hinit]; exact h2)]
    rw [hinit]
    simp [with_gen, Click.object]
  have hrest := send_clicks_open rest
    { s with child := { s.child with click_events_init := true },
             gen := [], writeall_results := s.writeall_results.tail.tail.tail.tail,
             trace := s.trace ++ written s.child_stdin (s.gen ++ [GenCall.array_open])
               ++ written s.child_stdin c.object } hc rfl rfl
    (fun r hr => h2 r (List.mem_of_mem_tail (List.mem_of_mem_tail hr)))
  refine ⟨?_, ?_, ?_, ?_, stays_open_click_objects _ 1 (le_refl 1)⟩
  · rw [send_clicks, hfirst, hrest]
    simp [clicks_written]
  · rw [send_clicks, hfirst, hrest]
  · rw [send_clicks, hfirst, hrest]
    exact hc
  · rw [json_written_written, json_written_clicks]
    simp

theorem C7_array_opened_once_witness :
    (send_clicks clickable_state [example_click, example_click]).trace
        = clickable_state.trace
            ++ written clickable_state.child_stdin (clickable_state.gen ++ [GenCall.array_open])
            ++ clicks_written clickable_state.child_stdin [example_click, example_click]
    ∧ (send_clicks clickable_state [example_click, example_click]).child.click_events_init
        = true :=
  ⟨(C7_array_opened_once clickable_state example_click [example_click]
      (by decide) (by decide) (by decide)).1,
    (C7_array_opened_once clickable_state example_click [example_click]
      (by decide) (by decide) (by decide)).2.1⟩

/-! ### Failed writes -/

/-- What `cleanup` does: the child record is zeroed, and the outside calls it
adds are no writes. -/
theorem cleanup_spec (s : State) :
    (cleanup s).child = zero_child
    ∧ (cleanup s).statusline_head = s.statusline_head
    ∧ (cleanup s).gen = s.gen
    ∧ ∃ k, (cleanup s).trace = s.trace ++ k ∧ ∀ e ∈ k, e.is_write = false := by
  unfold cleanup
  cases h1 : s.stdin_io.isSome <;> cases h2 : s.child_sig <;>
    simp [emit, h1, h2, Effect.is_write]

/-- C9 is broken when the write that opens the array fails: `send_block_clicked`
kills the child and zeroes the record, and then `child_click_events_initialize`
sets `click_events_init`, so the record is left with `click_events_init` true
(and the click object is left in the generator buffer, unwritten).  When the
failing write is the one of a click object, and after `kill_child`, the record
is all zero. -/
theorem C9_record_after_failed_array_open :
    (send_block_clicked array_open_fails_state 1 (some "vol") (some "0") 10 20 1 2 3 4 30 18
        5).child = { zero_child with click_events_init := true }
    ∧ (send_block_clicked array_open_fails_state 1 (some "vol") (some "0") 10 20 1 2 3 4 30 18
        5).child ≠ zero_child
    ∧ (send_block_clicked array_open_fails_state 1 (some "vol") (some "0") 10 20 1 2 3 4 30 18
        5).trace.filter Effect.is_write
        = [Effect.writeall 4 (Output.json [GenCall.array_open]) false]
    ∧ (send_block_clicked object_write_fails_state 1 (some "vol") (some "0") 10 20 1 2 3 4 30 18
        5).child = zero_child
    ∧ (kill_child clickable_state).child = zero_child := by
  decide

theorem cleanup_trace (s : State) :
    (cleanup s).trace = s.trace ++ cleanup_calls s := by
  unfold cleanup cleanup_calls
  cases h1 : s.stdin_io.isSome <;> cases h2 : s.child_sig <;> simp [emit, h1, h2]

/-- C19: `stop_child` marks the child stopped and sends one signal, `stop_signal`
to the process group of the child, exactly when `stop_signal > 0` and the child
is not stopped, and otherwise leaves the whole state as it is, sending nothing;
`cont_child` marks the child running and sends one signal, `cont_signal`,
exactly when `cont_signal > 0` and the child is stopped, and otherwise leaves
the whole state as it is.  So stopping a stopped child and continuing a running
child do nothing. -/
theorem C19_stop_cont (s : State) :
    stop_child s
        = (if s.child.stop_signal > 0 ∧ s.child.stopped = false then
            { s with child := { s.child with stopped := true },
                     trace := s.trace ++ [Effect.killpg s.child.pid s.child.stop_signal] }
          else s)
    ∧ cont_child s
        = (if s.child.cont_signal > 0 ∧ s.child.stopped = true then
            { s with child := { s.child with stopped := false },
                     trace := s.trace ++ [Effect.killpg s.child.pid s.child.cont_signal] }
          else s)
    ∧ stop_child (stop_child s) = stop_child s
    ∧ cont_child (cont_child s) = cont_child s := by
  have h1 : stop_child s
        = (if s.child.stop_signal > 0 ∧ s.child.stopped = false then
            { s with child := { s.child with stopped := true },
                     trace := s.trace ++ [Effect.killpg s.child.pid s.child.stop_signal] }
          else s) := by
    unfold stop_child
    by_cases h : s.child.stop_signal > 0 <;> cases hs : s.child.stopped <;> simp [h, hs, emit]
  have h2 : cont_child s
        = (if s.child.cont_signal > 0 ∧ s.child.stopped = true then
            { s with child := { s.child with stopped := false },
                     trace := s.trace ++ [Effect.killpg s.child.pid s.child.cont_signal] }
          else s) := by
    unfold cont_child
    by_cases h : s.child.cont_signal > 0 <;> cases hs : s.child.stopped <;> simp [h, hs, emit]
  refine ⟨h1, h2, ?_, ?_⟩
  · unfold stop_child
    by_cases h : s.child.stop_signal > 0 <;> cases hs : s.child.stopped <;> simp [h, hs, emit]
  · unfold cont_child
    by_cases h : s.child.cont_signal > 0 <;> cases hs : s.child.stopped <;> simp [h, hs, emit]

/-- C20: for a child record with `pid > 0`, `kill_child` sends to the process
group `pid` the continue signal, when one is configured and the child is
stopped, and then `SIGTERM`; it then waits for the child and runs `cleanup`,
which zeroes the record.  With `pid` not positive it leaves the whole state as
it is and sends nothing. -/
theorem C20_kill_child (s : State) :
    kill_child s
        = (if s.child.pid > 0 then
            cleanup { s with trace := s.trace ++ kill_signals s.child
                                ++ [Effect.waitpid s.child.pid] }
          else s)
    ∧ (kill_child s).trace
        = (if s.child.pid > 0 then
            s.trace ++ kill_signals s.child ++ [Effect.waitpid s.child.pid] ++ cleanup_calls s
          else s.trace)
    ∧ (kill_child s).child = (if s.child.pid > 0 then zero_child else s.child)
    ∧ kill_signals s.child
        = (if s.child.cont_signal > 0 ∧ s.child.stopped = true then
            [Effect.killpg s.child.pid s.child.cont_signal, Effect.killpg s.child.pid SIGTERM]
          else [Effect.killpg s.child.pid SIGTERM]) := by
  have h1 : kill_child s
        = (if s.child.pid > 0 then
            cleanup { s with trace := s.trace ++ kill_signals s.child
                                ++ [Effect.waitpid s.child.pid] }
          else s) := by
    unfold kill_child kill_signals
    by_cases hp : s.child.pid > 0
    · rw [if_pos hp, if_pos hp]
      by_cases hc : s.child.cont_signal > 0 <;> cases hs : s.child.stopped <;>
        simp [hc, hs, emit]
    · rw [if_neg hp, if_neg hp]
  refine ⟨h1, ?_, ?_, ?_⟩
  · rw [h1]
    by_cases hp : s.child.pid > 0
    · rw [if_pos hp, if_pos hp, cleanup_trace]
      rfl
    · rw [if_neg hp, if_neg hp]
  · rw [h1]
    by_cases hp : s.child.pid > 0
    · rw [if_pos hp, if_pos hp]
      exact (cleanup_spec _).1
    · rw [if_neg hp, if_neg hp]
  · unfold kill_signals
    by_cases hc : s.child.cont_signal > 0 <;> cases hs : s.child.stopped <;> simp [hc, hs]

/-! ### Parse failures -/

theorem c_str_nul_free (l : List Char) (h : ∀ c ∈ l, c ≠ NUL) :
    c_str (String.mk l) = String.mk l := by
  unfold c_str
  congr 1
  apply List.takeWhile_eq_self_iff.mpr
  intro c hc
  simpa using h c hc

theorem flat_line_nul_free (buffer : List Char) (h : ∀ c ∈ buffer, c ≠ NUL) :
    flat_line buffer = String.mk (trim_line_end buffer) := by
  unfold flat_line trim_line_end
  split
  · exact c_str_nul_free _ (fun c hc => h c (List.mem_of_mem_dropLast hc))
  · exact c_str_nul_free _ h

/-- What `get_buffer` returns when one `read` delivers bytes that do not start
with NUL and the next `read` would block: these bytes. -/
theorem get_buffer_one_read (env : Env) (s : State) (c : Char) (bytes : List Char)
    (rest : List ReadResult) (hc : c ≠ NUL)
    (hp : s.stdin_pipe = ReadResult.data (c :: bytes) :: ReadResult.eagain :: rest) :
    get_buffer env s
      = some ({ s with stdin_pipe := rest },
          { buffer := some (c :: bytes), ret_buffer_len := ((c :: bytes).length : Nat) }) := by
  unfold get_buffer
  rw [hp]
  simp [get_buffer_loop, get_buffer_finish, hc]

/-- C12: for a chunk that is not empty and holds no NUL byte, `read_flat_input`
puts into `full_text` of the first active block the chunk without its last byte
when that byte is a newline or a carriage return, and the whole chunk
otherwise, and changes nothing else; one byte at most is removed (`a\r\n` gives
`a\r`).  From an empty active statusline, the first-line callback on the chunk
`battery 90%\n`, in which `parse_json_header` finds no header (version 0),
leaves exactly one active block, with `full_text` equal to `battery 90%`. -/
theorem C12_plain_text (env : Env) (s : State) (first : status_block)
    (rest : List status_block) (buffer : List Char) (s0 : State) (pipe : List ReadResult)
    (hhead : s.statusline_head = first :: rest)
    (hne : buffer ≠ []) (hnul : ∀ c ∈ buffer, c ≠ NUL)
    (hempty : s0.statusline_head = [])
    (hpipe : s0.stdin_pipe
      = ReadResult.data "battery 90%\n".data :: ReadResult.eagain :: pipe)
    (hplain : (env.parse_json_header s0.child "battery 90%\n".data).1.version = 0) :
    read_flat_input s buffer
        = some { s with
            statusline_head :=
              ({ first with full_text := some (i3string_from_utf8 (String.mk (trim_line_end buffer))) }
                : status_block) :: rest }
    ∧ trim_line_end buffer
        = (if buffer.getLast? = some '\n' ∨ buffer.getLast? = some '\r' then buffer.dropLast
            else buffer)
    ∧ trim_line_end "a\r\n".data = "a\r".data
    ∧ trim_line_end "a\n".data = "a".data
    ∧ trim_line_end "a".data = "a".data
    ∧ (∃ s1, stdin_io_first_line_cb env s0 = some s1
        ∧ s1.statusline_head
            = [({ zero_block with full_text := some (i3string_from_utf8 "battery 90%") }
                : status_block)]) := by
  have _ := hne
  refine ⟨?_, rfl, by decide, by decide, by decide, ?_⟩
  · unfold read_flat_input
    rw [hhead]
    dsimp only
    rw [flat_line_nul_free buffer hnul]
  · have hb : get_buffer env s0
        = some ({ s0 with stdin_pipe := pipe },
            { buffer := some "battery 90%\n".data,
              ret_buffer_len := ("battery 90%\n".data.length : Nat) }) :=
      get_buffer_one_read env s0 'b' "attery 90%\n".data pipe (by decide) hpipe
    unfold stdin_io_first_line_cb
    rw [hb]
    dsimp only
    rw [if_neg (by rw [hplain]; decide)]
    unfold read_flat_input
    simp only [hempty, List.nil_append, Option.map_some']
    refine ⟨_, rfl, ?_⟩
    simp only [emit, i3string_from_utf8]
    have : flat_line "battery 90%\n".data = "battery 90%" := by decide
    rw [this]

theorem C12_plain_text_witness :
    read_flat_input one_block_state "a\r\n".data
        = some { one_block_state with
            statusline_head :=
              ({ zero_block with
                  full_text := some (i3string_from_utf8 (String.mk (trim_line_end "a\r\n".data))) }
                : status_block) :: [] }
    ∧ ∃ s1, stdin_io_first_line_cb example_env battery_state = some s1
        ∧ s1.statusline_head
            = [({ zero_block with full_text := some (i3string_from_utf8 "battery 90%") }
                : status_block)] :=
  ⟨(C12_plain_text example_env one_block_state zero_block [] "a\r\n".data battery_state []
      rfl (by decide) (by decide) rfl rfl rfl).1,
    (C12_plain_text example_env one_block_state zero_block [] "a\r\n".data battery_state []
      rfl (by decide) (by decide) rfl rfl rfl).2.2.2.2.2⟩

/-! ### Scalars and the remembered key -/

theorem stdin_boolean_no_key (s : State) (val : Bool)
    (hk : s.parser_context.last_map_key = none) : stdin_boolean s val = (s, 0) := by
  unfold stdin_boolean
  rw [hk]

theorem stdin_integer_no_key (s : State) (val : Int)
    (hk : s.parser_context.last_map_key = none) : stdin_integer s val = (s, 0) := by
  unfold stdin_integer
  rw [hk]

theorem stdin_string_no_key (s : State) (val : String)
    (hk : s.parser_context.last_map_key = none) : stdin_string s val = (s, 0) := by
  unfold stdin_string
  rw [hk]

theorem stdin_string_returns_one (s : State) (val : String) (k : String)
    (hk : s.parser_context.last_map_key = some k) : (stdin_string s val).2 = 1 := by
  cases hf : strcasecmp_eq k "full_text" with
  | false => exact (stdin_string_keeps_full_text s val k hk hf).1
  | true => rw [stdin_string_full_text s val k hk hf]

/-- A scalar callback returns 0 exactly when no key is remembered. -/
theorem scalar_returns_zero_iff (s : State) (bval : Bool) (ival : Int) (sval : String) :
    ((stdin_boolean s bval).2 = 0 ↔ s.parser_context.last_map_key = none)
    ∧ ((stdin_integer s ival).2 = 0 ↔ s.parser_context.last_map_key = none)
    ∧ ((stdin_string s sval).2 = 0 ↔ s.parser_context.last_map_key = none) := by
  cases hk : s.parser_context.last_map_key with
  | none =>
    rw [stdin_boolean_no_key s bval hk, stdin_integer_no_key s ival hk,
      stdin_string_no_key s sval hk]
    simp
  | some k =>
    rw [(stdin_boolean_keeps_full_text s bval k hk).1,
      (stdin_integer_keeps_full_text s ival k hk).1, stdin_string_returns_one s sval k hk]
    simp

/-- The remembered key changes with a map key event and with no other event. -/
theorem callback_key (env : Env) (s : State) (e : Event) :
    (callback env s e).1.parser_context.last_map_key
      = (match e with
          | Event.map_key key => some (sasprintf_s key)
          | _ => s.parser_context.last_map_key) := by
  cases e with
  | start_array => rfl
  | end_array => rfl
  | start_map => rfl
  | end_map =>
    show (stdin_end_map env s).1.parser_context.last_map_key = _
    unfold stdin_end_map
    dsimp only
    split <;> rfl
  | map_key key => rfl
  | boolean val =>
    obtain ⟨b, hb⟩ := stdin_boolean_set_block s val
    show (stdin_boolean s val).1.parser_context.last_map_key = _
    rw [hb]; rfl
  | integer val =>
    obtain ⟨b, hb⟩ := stdin_integer_set_block s val
    show (stdin_integer s val).1.parser_context.last_map_key = _
    rw [hb]; rfl
  | string val =>
    obtain ⟨b, hb⟩ := stdin_string_set_block s val
    show (stdin_string s val).1.parser_context.last_map_key = _
    rw [hb]; rfl

/-- After events that were all delivered, no key is remembered exactly when
none was remembered before and no map key is among the events. -/
theorem deliver_key_none (env : Env) :
    ∀ (events : List Event) (s : State), (deliver env s events).2 = true →
      ((deliver env s events).1.parser_context.last_map_key = none
        ↔ s.parser_context.last_map_key = none ∧ ∀ k, Event.map_key k ∉ events) := by
  intro events
  induction events with
  | nil => intro s _; simp [deliver]
  | cons e rest ih =>
    intro s hd
    rw [deliver_cons] at hd ⊢
    split at hd
    · simp at hd
    · rename_i hne
      rw [if_neg hne, ih _ hd, callback_key]
      cases e <;> simp
      rename_i key
      intro _
      exact ⟨key, fun h => absurd rfl h⟩

/-- C14, as the code has it: a boolean, integer or string callback returns the
abort value 0 exactly when no key is remembered, and the remembered key is
never cleared.  So in a parse that starts with no key remembered, after events
that were all delivered, a scalar callback returns 0 exactly when no map key is
among these events - a scalar arriving before any key was ever seen - and
returns 1 once any key was seen, also after the map of that key has ended. -/
theorem C14_scalar_without_key (env : Env) (s : State) (events : List Event)
    (bval : Bool) (ival : Int) (sval : String)
    (h0 : s.parser_context.last_map_key = none)
    (hd : (deliver env s events).2 = true) :
    ((stdin_boolean (deliver env s events).1 bval).2 = 0 ↔ ∀ k, Event.map_key k ∉ events)
    ∧ ((stdin_integer (deliver env s events).1 ival).2 = 0 ↔ ∀ k, Event.map_key k ∉ events)
    ∧ ((stdin_string (deliver env s events).1 sval).2 = 0 ↔ ∀ k, Event.map_key k ∉ events)
    ∧ ((stdin_boolean (deliver env s events).1 bval).2 = 0
        ∨ (stdin_boolean (deliver env s events).1 bval).2 = 1)
    ∧ ((stdin_integer (deliver env s events).1 ival).2 = 0
        ∨ (stdin_integer (deliver env s events).1 ival).2 = 1)
    ∧ ((stdin_string (deliver env s events).1 sval).2 = 0
        ∨ (stdin_string (deliver env s events).1 sval).2 = 1) := by
  obtain ⟨z1, z2, z3⟩ := scalar_returns_zero_iff (deliver env s events).1 bval ival sval
  have hk := deliver_key_none env events s hd
  rw [h0] at hk
  simp only [true_and] at hk
  refine ⟨z1.trans hk, z2.trans hk, z3.trans hk, ?_, ?_, ?_⟩
  · cases hl : (deliver env s events).1.parser_context.last_map_key with
    | none => exact Or.inl (z1.mpr hl)
    | some k => exact Or.inr (stdin_boolean_keeps_full_text _ bval k hl).1
  · cases hl : (deliver env s events).1.parser_context.last_map_key with
    | none => exact Or.inl (z2.mpr hl)
    | some k => exact Or.inr (stdin_integer_keeps_full_text _ ival k hl).1
  · cases hl : (deliver env s events).1.parser_context.last_map_key with
    | none => exact Or.inl (z3.mpr hl)
    | some k => exact Or.inr (stdin_string_returns_one _ sval k hl)

theorem C14_scalar_without_key_witness :
    ((stdin_string (deliver example_env initial_state finished_block_events).1 "x").2 = 0
      ↔ ∀ k, Event.map_key k ∉ finished_block_events)
    ∧ ((stdin_boolean (deliver example_env initial_state [Event.start_array]).1 true).2 = 0
      ↔ ∀ k, Event.map_key k ∉ [Event.start_array]) :=
  ⟨(C14_scalar_without_key example_env initial_state finished_block_events true 5 "x" rfl
      (by decide)).2.2.1,
    (C14_scalar_without_key example_env initial_state [Event.start_array] true 5 "x" rfl
      (by decide)).1⟩

/-- C14 fails as stated: directly inside the array, after the map of the block
`{"full_text":"a"}` has ended, a string, a boolean and an integer are each
accepted - the callback returns 1, not 0 - because the key `full_text` of the
ended map is still remembered; the whole input `[{"full_text":"a"},"x"` is
delivered without abort. -/
theorem C14_counterexample :
    (stdin_string finished_block_state "x").2 = 1
    ∧ (stdin_boolean finished_block_state true).2 = 1
    ∧ (stdin_integer finished_block_state 5).2 = 1
    ∧ finished_block_state.parser_context.last_map_key = some "full_text"
    ∧ (deliver example_env initial_state (finished_block_events ++ [Event.string "x"])).2
        = true := by
  decide

/-! ### Unknown keys -/

/-- C15: when the remembered key is, also up to the case of letters, none of the
names the callback of the scalar's type recognises, the callback returns 1 and
leaves the whole state, the block under construction with it, as it is. -/
theorem C15_unknown_key_ignored (s : State) (k : String) (bval : Bool) (ival : Int)
    (sval : String) (hk : s.parser_context.last_map_key = some k) :
    (recognised boolean_keys k = false → stdin_boolean s bval = (s, 1))
    ∧ (recognised string_keys k = false → stdin_string s sval = (s, 1))
    ∧ (recognised integer_keys k = false → stdin_integer s ival = (s, 1))
    ∧ boolean_keys = ["urgent", "separator"]
    ∧ string_keys = ["full_text", "short_text", "color", "background", "border", "markup",
        "align", "min_width", "name", "instance"]
    ∧ integer_keys = ["min_width", "separator_block_width", "border_top", "border_right",
        "border_bottom", "border_left"] := by
  refine ⟨?_, ?_, ?_, rfl, rfl, rfl⟩
  · intro h
    simp only [recognised, boolean_keys, List.any_cons, List.any_nil, Bool.or_false,
      Bool.or_eq_false_iff] at h
    obtain ⟨h1, h2⟩ := h
    unfold stdin_boolean
    rw [hk]
    dsimp only
    rw [if_neg (by simp [h1]), if_neg (by simp [h2])]
  · intro h
    simp only [recognised, string_keys, List.any_cons, List.any_nil, Bool.or_false,
      Bool.or_eq_false_iff] at h
    obtain ⟨h1, h2, h3, h4, h5, h6, h7, h8, h9, h10⟩ := h
    unfold stdin_string
    rw [hk]
    dsimp only
    rw [if_neg (by simp [h1]), if_neg (by simp [h2]), if_neg (by simp [h3]),
      if_neg (by simp [h4]), if_neg (by simp [h5]), if_neg (by simp [h6]),
      if_neg (by simp [h7]), if_neg (by simp [h8]), if_neg (by simp [h9]),
      if_neg (by simp [h10])]
  · intro h
    simp only [recognised, integer_keys, List.any_cons, List.any_nil, Bool.or_false,
      Bool.or_eq_false_iff] at h
    obtain ⟨h1, h2, h3, h4, h5, h6⟩ := h
    unfold stdin_integer
    rw [hk]
    dsimp only
    rw [if_neg (by simp [h1]), if_neg (by simp [h2]), if_neg (by simp [h3]),
      if_neg (by simp [h4]), if_neg (by simp [h5]), if_neg (by simp [h6])]

theorem C15_unknown_key_ignored_witness :
    stdin_boolean unknown_key_state true = (unknown_key_state, 1)
    ∧ stdin_string unknown_key_state "#ff0000" = (unknown_key_state, 1)
    ∧ stdin_integer unknown_key_state 3 = (unknown_key_state, 1) :=
  ⟨(C15_unknown_key_ignored unknown_key_state "colour" true 3 "#ff0000" (by decide)).1
      (by decide),
    (C15_unknown_key_ignored unknown_key_state "colour" true 3 "#ff0000" (by decide)).2.1
      (by decide),
    (C15_unknown_key_ignored unknown_key_state "colour" true 3 "#ff0000" (by decide)).2.2.1
      (by decide)⟩

/-! ### The case of the letters of a key -/

theorem tolower_bne_nul (c : Char) : (tolower c != NUL) = (c != NUL) := by
  unfold tolower
  split
  · rename_i h
    obtain ⟨hlo, hhi⟩ := h
    have h1 : c ≠ NUL := by
      intro hc
      rw [hc] at hlo
      exact absurd hlo (by decide)
    have h2 : Char.ofNat (c.toNat + 32) ≠ NUL := by
      generalize c.toNat = n at hlo hhi
      interval_cases n <;> decide
    rw [bne_iff_ne.mpr h1, bne_iff_ne.mpr h2]
  · rfl

theorem c_str_map_tolower (k : String) :
    (c_str k).data.map tolower = (k.data.map tolower).takeWhile (fun c => c != NUL) := by
  have hf : ((fun c => c != NUL) ∘ tolower) = (fun c => c != NUL) :=
    funext tolower_bne_nul
  unfold c_str
  rw [List.takeWhile_map, hf]

/-- Keys that differ only in the case of letters are matched alike. -/
theorem strcasecmp_eq_of_case (k k' name : String)
    (h : k.data.map tolower = k'.data.map tolower) :
    strcasecmp_eq k name = strcasecmp_eq k' name := by
  unfold strcasecmp_eq
  rw [c_str_map_tolower k, c_str_map_tolower k', h]

theorem same_result_ite (c : Prop) [Decidable c] (a b a' b' : State × Nat)
    (ha : same_result a a') (hb : same_result b b') :
    same_result (if c then a else b) (if c then a' else b') := by
  split
  · exact ha
  · exact hb

theorem stdin_boolean_congr (s s' : State) (k k' : String) (val : Bool)
    (hb : s.parser_context.block = s'.parser_context.block)
    (hk : s.parser_context.last_map_key = some k)
    (hk' : s'.parser_context.last_map_key = some k')
    (h : ∀ name, strcasecmp_eq k name = strcasecmp_eq k' name) :
    same_result (stdin_boolean s val) (stdin_boolean s' val) := by
  unfold stdin_boolean
  rw [hk, hk']
  dsimp only
  rw [h "urgent", h "separator", hb]
  repeat' first
    | apply same_result_ite
    | exact ⟨rfl, rfl⟩
    | exact ⟨rfl, hb⟩

theorem stdin_integer_congr (s s' : State) (k k' : String) (val : Int)
    (hb : s.parser_context.block = s'.parser_context.block)
    (hk : s.parser_context.last_map_key = some k)
    (hk' : s'.parser_context.last_map_key = some k')
    (h : ∀ name, strcasecmp_eq k name = strcasecmp_eq k' name) :
    same_result (stdin_integer s val) (stdin_integer s' val) := by
  unfold stdin_integer
  rw [hk, hk']
  dsimp only
  rw [h "min_width", h "separator_block_width", h "border_top", h "border_right",
    h "border_bottom", h "border_left", hb]
  repeat' first
    | apply same_result_ite
    | exact ⟨rfl, rfl⟩
    | exact ⟨rfl, hb⟩

theorem stdin_string_congr (s s' : State) (k k' : String) (val : String)
    (hb : s.parser_context.block = s'.parser_context.block)
    (hk : s.parser_context.last_map_key = some k)
    (hk' : s'.parser_context.last_map_key = some k')
    (h : ∀ name, strcasecmp_eq k name = strcasecmp_eq k' name) :
    same_result (stdin_string s val) (stdin_string s' val) := by
  unfold stdin_string
  rw [hk, hk']
  dsimp only
  rw [h "full_text", h "short_text", h "color", h "background", h "border", h "markup",
    h "align", h "min_width", h "name", h "instance", hb]
  repeat' first
    | apply same_result_ite
    | exact ⟨rfl, rfl⟩
    | exact ⟨rfl, hb⟩

/-- C16: two keys that differ only in the case of ASCII letters (the same
characters once `A`..`Z` are lowered) are interchangeable: in every state, once
the one or the other is remembered, every boolean, integer and string value
yields the same return value and the same block under construction.  So
`FULL_TEXT`, `Urgent` and `Min_Width` are matched as `full_text`, `urgent` and
`min_width`. -/
theorem C16_key_case_insensitive (s : State) (k k' : String) (bval : Bool) (ival : Int)
    (sval : String) (hcase : k.data.map tolower = k'.data.map tolower) :
    (stdin_boolean (stdin_map_key s k).1 bval).2 = (stdin_boolean (stdin_map_key s k').1 bval).2
    ∧ (stdin_boolean (stdin_map_key s k).1 bval).1.parser_context.block
        = (stdin_boolean (stdin_map_key s k').1 bval).1.parser_context.block
    ∧ (stdin_integer (stdin_map_key s k).1 ival).2 = (stdin_integer (stdin_map_key s k').1 ival).2
    ∧ (stdin_integer (stdin_map_key s k).1 ival).1.parser_context.block
        = (stdin_integer (stdin_map_key s k').1 ival).1.parser_context.block
    ∧ (stdin_string (stdin_map_key s k).1 sval).2 = (stdin_string (stdin_map_key s k').1 sval).2
    ∧ (stdin_string (stdin_map_key s k).1 sval).1.parser_context.block
        = (stdin_string (stdin_map_key s k').1 sval).1.parser_context.block
    ∧ "FULL_TEXT".data.map tolower = "full_text".data.map tolower
    ∧ "Urgent".data.map tolower = "urgent".data.map tolower
    ∧ "Min_Width".data.map tolower = "min_width".data.map tolower := by
  have h : ∀ name, strcasecmp_eq (sasprintf_s k) name = strcasecmp_eq (sasprintf_s k') name := by
    intro name
    unfold sasprintf_s
    rw [strcasecmp_eq_c_str, strcasecmp_eq_c_str]
    exact strcasecmp_eq_of_case k k' name hcase
  obtain ⟨b1, b2⟩ := stdin_boolean_congr (stdin_map_key s k).1 (stdin_map_key s k').1
    (sasprintf_s k) (sasprintf_s k') bval rfl rfl rfl h
  obtain ⟨i1, i2⟩ := stdin_integer_congr (stdin_map_key s k).1 (stdin_map_key s k').1
    (sasprintf_s k) (sasprintf_s k') ival rfl rfl rfl h
  obtain ⟨s1, s2⟩ := stdin_string_congr (stdin_map_key s k).1 (stdin_map_key s k').1
    (sasprintf_s k) (sasprintf_s k') sval rfl rfl rfl h
  exact ⟨b1, b2, i1, i2, s1, s2, by decide, by decide, by decide⟩

theorem C16_key_case_insensitive_witness :
    (stdin_string (stdin_map_key initial_state "FULL_TEXT").1 "a").1.parser_context.block
        = (stdin_string (stdin_map_key initial_state "full_text").1 "a").1.parser_context.block
    ∧ (stdin_string (stdin_map_key initial_state "full_text").1 "a").1.parser_context.block.full_text
        = some (i3string_from_markup_with_length "a") :=
  ⟨(C16_key_case_insensitive initial_state "FULL_TEXT" "full_text" true 1 "a"
      (by decide)).2.2.2.2.2.1, by decide⟩

/-! ### Fields of the block under construction through a map -/

theorem updates_block_ite (R : status_block → status_block → Prop) (s : State) (c : Prop)
    [Decidable c] (a b : State × Nat)
    (ha : updates_block R s a) (hb : updates_block R s b) :
    updates_block R s (if c then a else b) := by
  split
  · exact ha
  · exact hb

theorem stdin_end_map_block (env : Env) (s : State) :
    (stdin_end_map env s).1.parser_context.block = s.parser_context.block := by
  unfold stdin_end_map
  dsimp only
  split <;> rfl

theorem keyed_events_other (key : Option String) (e : Event) (rest : List Event)
    (h : ∀ k, e ≠ Event.map_key k) :
    keyed_events key (e :: rest) = (key, e) :: keyed_events key rest := by
  cases e with
  | map_key k => exact absurd rfl (h k)
  | start_array => rfl
  | end_array => rfl
  | start_map => rfl
  | end_map => rfl
  | boolean val => rfl
  | integer val => rfl
  | string val => rfl

theorem callback_key_other (env : Env) (s : State) (e : Event)
    (h : ∀ k, e ≠ Event.map_key k) :
    (callback env s e).1.parser_context.last_map_key = s.parser_context.last_map_key := by
  rw [callback_key]
  cases e with
  | map_key k => exact absurd rfl (h k)
  | start_array => rfl
  | end_array => rfl
  | start_map => rfl
  | end_map => rfl
  | boolean val => rfl
  | integer val => rfl
  | string val => rfl

/-- A property of the block under construction that every event other than a
map key preserves, under a condition `Q` on the event and the key remembered
when it is delivered, holds after a sequence of events all of which meet the
condition. -/
theorem deliver_invariant (env : Env) (P : status_block → Prop)
    (Q : Option String × Event → Prop)
    (hstep : ∀ (s : State) (e : Event), (∀ k, e ≠ Event.map_key k) →
      P s.parser_context.block → Q (s.parser_context.last_map_key, e) →
      P (callback env s e).1.parser_context.block) :
    ∀ (events : List Event) (s : State), P s.parser_context.block →
      (∀ ke ∈ keyed_events s.parser_context.last_map_key events, Q ke) →
      P (deliver env s events).1.parser_context.block := by
  intro events
  induction events with
  | nil => intro s hp _; exact hp
  | cons e rest ih =>
    intro s hp hq
    rw [deliver_cons]
    rcases Classical.em (∃ k, e = Event.map_key k) with ⟨k, rfl⟩ | hne
    · split
      · exact hp
      · exact ih _ hp hq
    · have hne' : ∀ k, e ≠ Event.map_key k := fun k h => hne ⟨k, h⟩
      rw [keyed_events_other _ _ _ hne'] at hq
      have hp1 := hstep s e hne' hp (hq _ (List.mem_cons_self _ _))
      split
      · exact hp1
      · refine ih _ hp1 (fun ke hke => hq ke (List.mem_cons_of_mem _ ?_))
        rw [callback_key_other env s e hne'] at hke
        exact hke

/-- The events of a map that were all delivered: the block appended by the map
end is the finished copy of the block under construction as the events between
map start and map end leave it. -/
theorem deliver_whole_map (env : Env) (s : State) (events : List Event)
    (hd : (deliver env s (Event.start_map :: events ++ [Event.end_map])).2 = true) :
    (deliver env s (Event.start_map :: events ++ [Event.end_map])).1.statusline_buffer.getLast?
      = some (finish_block env
          (deliver env (stdin_start_map env s).1 events).1.parser_context.block) := by
  have h0 : (callback env s Event.start_map) = (stdin_start_map env s) := rfl
  have h1 : (stdin_start_map env s).2 = 1 := rfl
  rw [List.cons_append, deliver_cons, h0, if_neg (by rw [h1]; exact one_ne_zero),
    deliver_append] at hd ⊢
  cases hb : (deliver env (stdin_start_map env s).1 events).2 with
  | false =>
    rw [hb] at hd
    simp only [Bool.false_eq_true, if_false] at hd
    rw [hb] at hd
    exact absurd hd (by simp)
  | true =>
    rw [if_pos rfl, deliver_cons]
    have h2 : ∀ t, (callback env t Event.end_map) = (stdin_end_map env t) := fun _ => rfl
    rw [h2, if_neg (by rw [(stdin_end_map_spec env _).2.2.2]; exact one_ne_zero)]
    show (stdin_end_map env _).1.statusline_buffer.getLast? = _
    rw [(stdin_end_map_spec env _).2.1]
    simp

/-- A key that matches one name does not match a name that differs from it. -/
theorem strcasecmp_exclusive (k a b : String) (ha : strcasecmp_eq k a = true)
    (hab : strcasecmp_eq a b = false) : strcasecmp_eq k b = false := by
  cases hb : strcasecmp_eq k b with
  | false => rfl
  | true =>
    unfold strcasecmp_eq at ha hb hab
    rw [beq_iff_eq] at ha hb
    rw [← ha, hb] at hab
    simp at hab

theorem finish_block_flags (env : Env) (block : status_block) :
    (finish_block env block).no_separator = block.no_separator
    ∧ (finish_block env block).pango_markup = block.pango_markup := by
  unfold finish_block
  cases h1 : block.full_text <;> cases h2 : block.min_width_str <;>
    cases h3 : block.short_text <;> simp [h1, h2, h3]

/-! ### The separator -/

theorem stdin_boolean_separator (s : State) (k : String) (val : Bool)
    (hk : s.parser_context.last_map_key = some k)
    (hsep : strcasecmp_eq k "separator" = true) :
    stdin_boolean s val
      = (set_block s { s.parser_context.block with no_separator := !val }, 1) := by
  have hu : strcasecmp_eq k "urgent" = false :=
    strcasecmp_exclusive k "separator" "urgent" hsep (by decide)
  unfold stdin_boolean
  rw [hk]
  dsimp only
  rw [if_neg (by simp [hu]), if_pos hsep]

theorem stdin_boolean_keeps_separator (s : State) (val : Bool)
    (h : ∀ k, s.parser_context.last_map_key = some k → strcasecmp_eq k "separator" = false) :
    updates_block (fun b b' => b'.no_separator = b.no_separator) s (stdin_boolean s val) := by
  unfold stdin_boolean
  cases hk : s.parser_context.last_map_key with
  | none => exact rfl
  | some k =>
    dsimp only
    apply updates_block_ite
    · exact rfl
    · rw [if_neg (by simp [h k hk])]
      exact rfl

theorem stdin_integer_keeps_flags (s : State) (val : Int) :
    updates_block (fun b b' => b'.no_separator = b.no_separator
      ∧ b'.pango_markup = b.pango_markup) s (stdin_integer s val) := by
  unfold stdin_integer
  cases hk : s.parser_context.last_map_key with
  | none => exact ⟨rfl, rfl⟩
  | some k =>
    dsimp only
    repeat' first
      | apply updates_block_ite
      | exact ⟨rfl, rfl⟩

theorem stdin_string_keeps_separator (s : State) (val : String) :
    updates_block (fun b b' => b'.no_separator = b.no_separator) s (stdin_string s val) := by
  unfold stdin_string
  cases hk : s.parser_context.last_map_key with
  | none => exact rfl
  | some k =>
    dsimp only
    repeat' first
      | apply updates_block_ite
      | exact rfl

theorem stdin_start_map_flags (env : Env) (s : State) :
    (stdin_start_map env s).1.parser_context.block.no_separator = false
    ∧ (stdin_start_map env s).1.parser_context.block.pango_markup = false := by
  unfold stdin_start_map
  dsimp only
  split <;> exact ⟨rfl, rfl⟩

/-- Through events among which no boolean is delivered under the key
`separator`, a block under construction that has `no_separator` clear keeps it
clear. -/
theorem deliver_keeps_separator (env : Env) (events : List Event) (s : State)
    (hp : s.parser_context.block.no_separator = false)
    (hq : no_separator_given (keyed_events s.parser_context.last_map_key events)) :
    (deliver env s events).1.parser_context.block.no_separator = false := by
  refine deliver_invariant env (fun b => b.no_separator = false)
    (fun ke => ∀ k val, ke = (some k, Event.boolean val) → strcasecmp_eq k "separator" = false)
    ?_ events s hp hq
  intro t e _ hpt hqt
  cases e with
  | start_array => exact hpt
  | end_array => exact hpt
  | start_map => exact (stdin_start_map_flags env t).1
  | end_map =>
    show (stdin_end_map env t).1.parser_context.block.no_separator = false
    rw [stdin_end_map_block]
    exact hpt
  | map_key k => exact hpt
  | boolean val =>
    have := stdin_boolean_keeps_separator t val
      (fun k hk => hqt k val (by rw [hk]))
    exact this.trans hpt
  | integer val => exact (stdin_integer_keeps_flags t val).1.trans hpt
  | string val => exact (stdin_string_keeps_separator t val).trans hpt

/-- C17: when the remembered key is `separator` (up to the case of letters), a
boolean `val` is accepted and sets `no_separator` of the block under
construction to the negation of `val`, leaving its other fields.  And when
among the events of a map - whatever they are, nested values included - no
boolean is delivered under the key `separator`, the block the map end appends
to staging has `no_separator = false`.  For `{"full_text":"a","separator":false}`
the block appended has `no_separator = true`, for `"separator":true` it has
`no_separator = false`. -/
theorem C17_separator (env : Env) (s : State) (k : String) (val : Bool) (s0 : State)
    (events : List Event)
    (hk : s.parser_context.last_map_key = some k)
    (hsep : strcasecmp_eq k "separator" = true)
    (hd : (deliver env s0 (Event.start_map :: events ++ [Event.end_map])).2 = true)
    (habsent : no_separator_given (keyed_events s0.parser_context.last_map_key events)) :
    (stdin_boolean s val).2 = 1
    ∧ (stdin_boolean s val).1.parser_context.block
        = { s.parser_context.block with no_separator := !val }
    ∧ (∃ b, (deliver env s0
          (Event.start_map :: events ++ [Event.end_map])).1.statusline_buffer.getLast? = some b
        ∧ b.no_separator = false)
    ∧ (deliver example_env initial_state separator_off_events).1.statusline_buffer.map
          (fun b => b.no_separator) = [true]
    ∧ (deliver example_env initial_state separator_on_events).1.statusline_buffer.map
          (fun b => b.no_separator) = [false] := by
  refine ⟨?_, ?_, ?_, by decide, by decide⟩
  · rw [stdin_boolean_separator s k val hk hsep]
  · rw [stdin_boolean_separator s k val hk hsep]
    rfl
  · refine ⟨_, deliver_whole_map env s0 events hd, ?_⟩
    rw [(finish_block_flags env _).1]
    exact deliver_keeps_separator env events (stdin_start_map env s0).1
      (stdin_start_map_flags env s0).1 habsent

theorem C17_separator_witness :
    (stdin_boolean separator_key_state false).1.parser_context.block
        = { separator_key_state.parser_context.block with no_separator := !false }
    ∧ ∃ b, (deliver example_env initial_state
          (Event.start_map :: plain_member_events ++ [Event.end_map])).1.statusline_buffer.getLast?
            = some b
        ∧ b.no_separator = false :=
  ⟨(C17_separator example_env separator_key_state "Separator" false initial_state
      plain_member_events (by decide) (by decide) (by decide)
      (by
        intro ke hke k v h
        subst h
        have hl : keyed_events initial_state.parser_context.last_map_key plain_member_events
            = [(some "full_text", Event.string "a"), (some "urgent", Event.boolean true)] := by
          decide
        rw [hl] at hke
        simp only [List.mem_cons, List.mem_singleton, Prod.mk.injEq, Option.some.injEq,
          Event.boolean.injEq, List.not_mem_nil, or_false, false_and, and_false, false_or,
          reduceCtorEq] at hke
        obtain ⟨rfl, -⟩ := hke
        decide)).2.1,
    (C17_separator example_env separator_key_state "Separator" false initial_state
      plain_member_events (by decide) (by decide) (by decide)
      (by
        intro ke hke k v h
        subst h
        have hl : keyed_events initial_state.parser_context.last_map_key plain_member_events
            = [(some "full_text", Event.string "a"), (some "urgent", Event.boolean true)] := by
          decide
        rw [hl] at hke
        simp only [List.mem_cons, List.mem_singleton, Prod.mk.injEq, Option.some.injEq,
          Event.boolean.injEq, List.not_mem_nil, or_false, false_and, and_false, false_or,
          reduceCtorEq] at hke
        obtain ⟨rfl, -⟩ := hke
        decide)).2.2.1⟩

/-- The test the source makes on a `markup` value, `len == strlen("pango")`
and `strncasecmp(val, "pango", strlen("pango")) == 0`, holds exactly when the
value, letters lowered, is `pango`. -/
theorem markup_flag_iff (val : String) :
    (val.length == "pango".length && strncasecmp_eq val "pango" "pango".length)
      = decide (val.data.map tolower = "pango".data) := by
  have h5 : "pango".length = 5 := by decide
  have hp : ((c_str "pango").data.take 5).map tolower = "pango".data := by decide
  unfold strncasecmp_eq
  rw [h5, hp, Bool.eq_iff_iff]
  simp only [Bool.and_eq_true, beq_iff_eq, decide_eq_true_eq]
  constructor
  · rintro ⟨hlen, heq⟩
    have hlen : val.data.length = 5 := hlen
    have h1 : (((c_str val).data.take 5).map tolower).length = 5 := by
      rw [heq]
      decide
    rw [List.length_map, List.length_take] at h1
    have hpre : (c_str val).data <+: val.data := List.takeWhile_prefix _
    have hle : (c_str val).data.length ≤ val.data.length := hpre.length_le
    have hcv : (c_str val).data = val.data :=
      hpre.eq_of_length (by omega)
    rw [hcv, List.take_of_length_le (by omega)] at heq
    exact heq
  · intro h
    have hl : val.data.length = 5 := by
      have := congrArg List.length h
      rw [List.length_map] at this
      exact this
    have hnul : ∀ c ∈ val.data, c ≠ NUL := by
      intro c hc hcn
      have hm : tolower c ∈ val.data.map tolower := List.mem_map_of_mem _ hc
      rw [h, hcn] at hm
      revert hm
      decide
    have hc : c_str val = val := c_str_nul_free val.data hnul
    refine ⟨hl, ?_⟩
    rw [hc, List.take_of_length_le (by omega)]
    exact h

theorem stdin_string_markup (s : State) (k : String) (val : String)
    (hk : s.parser_context.last_map_key = some k)
    (hm : strcasecmp_eq k "markup" = true) :
    stdin_string s val
      = (set_block s { s.parser_context.block with
          pango_markup := decide (val.data.map tolower = "pango".data) }, 1) := by
  have h1 : strcasecmp_eq k "full_text" = false :=
    strcasecmp_exclusive k "markup" "full_text" hm (by decide)
  have h2 : strcasecmp_eq k "short_text" = false :=
    strcasecmp_exclusive k "markup" "short_text" hm (by decide)
  have h3 : strcasecmp_eq k "color" = false :=
    strcasecmp_exclusive k "markup" "color" hm (by decide)
  have h4 : strcasecmp_eq k "background" = false :=
    strcasecmp_exclusive k "markup" "background" hm (by decide)
  have h5 : strcasecmp_eq k "border" = false :=
    strcasecmp_exclusive k "markup" "border" hm (by decide)
  unfold stdin_string
  rw [hk]
  dsimp only
  rw [if_neg (by simp [h1]), if_neg (by simp [h2]), if_neg (by simp [h3]),
    if_neg (by simp [h4]), if_neg (by simp [h5]), if_pos hm, markup_flag_iff]

theorem stdin_boolean_keeps_markup (s : State) (val : Bool) :
    updates_block (fun b b' => b'.pango_markup = b.pango_markup) s (stdin_boolean s val) := by
  unfold stdin_boolean
  cases hk : s.parser_context.last_map_key with
  | none => exact rfl
  | some k =>
    dsimp only
    repeat' first
      | apply updates_block_ite
      | exact rfl

theorem stdin_string_keeps_markup (s : State) (val : String)
    (h : ∀ k, s.parser_context.last_map_key = some k → strcasecmp_eq k "markup" = false) :
    updates_block (fun b b' => b'.pango_markup = b.pango_markup) s (stdin_string s val) := by
  unfold stdin_string
  cases hk : s.parser_context.last_map_key with
  | none => exact rfl
  | some k =>
    dsimp only
    rw [if_neg (c := strcasecmp_eq k "markup" = true) (by simp [h k hk])]
    repeat' first
      | apply updates_block_ite
      | exact rfl

/-- Through events among which no string is delivered under the key `markup`,
a block under construction that has `pango_markup` clear keeps it clear. -/
theorem deliver_keeps_markup (env : Env) (events : List Event) (s : State)
    (hp : s.parser_context.block.pango_markup = false)
    (hq : no_markup_given (keyed_events s.parser_context.last_map_key events)) :
    (deliver env s events).1.parser_context.block.pango_markup = false := by
  refine deliver_invariant env (fun b => b.pango_markup = false)
    (fun ke => ∀ k val, ke = (some k, Event.string val) → strcasecmp_eq k "markup" = false)
    ?_ events s hp hq
  intro t e _ hpt hqt
  cases e with
  | start_array => exact hpt
  | end_array => exact hpt
  | start_map => exact (stdin_start_map_flags env t).2
  | end_map =>
    show (stdin_end_map env t).1.parser_context.block.pango_markup = false
    rw [stdin_end_map_block]
    exact hpt
  | map_key k => exact hpt
  | boolean val => exact (stdin_boolean_keeps_markup t val).trans hpt
  | integer val => exact (stdin_integer_keeps_flags t val).2.trans hpt
  | string val =>
    have := stdin_string_keeps_markup t val
      (fun k hk => hqt k val (by rw [hk]))
    exact this.trans hpt

/-- C18: when the remembered key is `markup` (up to the case of letters), a
string value `v` is accepted and sets `pango_markup` of the block under
construction, leaving its other fields, and the flag is true exactly when `v`,
its letters `A`..`Z` lowered, is the five characters `pango`.  And when among
the events of a map - whatever they are, nested values included - no string is
delivered under the key `markup`, the block the map end appends to staging has
`pango_markup = false`.  In `{"full_text":"a","markup":v}` the values `Pango`
and `PANGO` give a block with the flag set, and `none`, `pang` and `pango `
(with a trailing blank) give a block with the flag clear. -/
theorem C18_markup (env : Env) (s : State) (k : String) (v : String) (s0 : State)
    (events : List Event)
    (hk : s.parser_context.last_map_key = some k)
    (hm : strcasecmp_eq k "markup" = true)
    (hd : (deliver env s0 (Event.start_map :: events ++ [Event.end_map])).2 = true)
    (habsent : no_markup_given (keyed_events s0.parser_context.last_map_key events)) :
    (stdin_string s v).2 = 1
    ∧ (stdin_string s v).1.parser_context.block
        = { s.parser_context.block with
            pango_markup := decide (v.data.map tolower = "pango".data) }
    ∧ ((stdin_string s v).1.parser_context.block.pango_markup = true
        ↔ v.data.map tolower = "pango".data)
    ∧ (∃ b, (deliver env s0
          (Event.start_map :: events ++ [Event.end_map])).1.statusline_buffer.getLast? = some b
        ∧ b.pango_markup = false)
    ∧ markup_flags "Pango" = [true] ∧ markup_flags "PANGO" = [true]
    ∧ markup_flags "none" = [false] ∧ markup_flags "pang" = [false]
    ∧ markup_flags "pango " = [false] := by
  refine ⟨?_, ?_, ?_, ?_, by decide, by decide, by decide, by decide, by decide⟩
  · rw [stdin_string_markup s k v hk hm]
  · rw [stdin_string_markup s k v hk hm]
    rfl
  · rw [stdin_string_markup s k v hk hm]
    show decide (v.data.map tolower = "pango".data) = true ↔ _
    exact decide_eq_true_iff
  · refine ⟨_, deliver_whole_map env s0 events hd, ?_⟩
    rw [(finish_block_flags env _).2]
    exact deliver_keeps_markup env events (stdin_start_map env s0).1
      (stdin_start_map_flags env s0).2 habsent

theorem C18_markup_witness :
    ((stdin_string markup_key_state "Pango").1.parser_context.block.pango_markup = true
        ↔ "Pango".data.map tolower = "pango".data)
    ∧ ∃ b, (deliver example_env initial_state
          (Event.start_map :: plain_member_events ++ [Event.end_map])).1.statusline_buffer.getLast?
            = some b
        ∧ b.pango_markup = false :=
  ⟨(C18_markup example_env markup_key_state "Markup" "Pango" initial_state
      plain_member_events (by decide) (by decide) (by decide)
      (by
        intro ke hke k v h
        subst h
        have hl : keyed_events initial_state.parser_context.last_map_key plain_member_events
            = [(some "full_text", Event.string "a"), (some "urgent", Event.boolean true)] := by
          decide
        rw [hl] at hke
        simp only [List.mem_cons, List.mem_singleton, Prod.mk.injEq, Option.some.injEq,
          Event.string.injEq, List.not_mem_nil, or_false, false_and, and_false, false_or,
          reduceCtorEq] at hke
        obtain ⟨rfl, -⟩ := hke
        decide)).2.2.1,
    (C18_markup example_env markup_key_state "Markup" "Pango" initial_state
      plain_member_events (by decide) (by decide) (by decide)
      (by
        intro ke hke k v h
        subst h
        have hl : keyed_events initial_state.parser_context.last_map_key plain_member_events
            = [(some "full_text", Event.string "a"), (some "urgent", Event.boolean true)] := by
          decide
        rw [hl] at hke
        simp only [List.mem_cons, List.mem_singleton, Prod.mk.injEq, Option.some.injEq,
          Event.string.injEq, List.not_mem_nil, or_false, false_and, and_false, false_or,
          reduceCtorEq] at hke
        obtain ⟨rfl, -⟩ := hke
        decide)).2.2.2.1⟩

/-! ### The read path -/

/-- Reads that each deliver at least one byte are appended to the buffer in
the order they arrive; the loop then goes on with what follows them. -/
theorem get_buffer_loop_reads (chunk : Nat) (tail : List ReadResult) :
    ∀ (cs : List (List Char)) (buffer : List Char) (buffer_len : Nat),
      (∀ c ∈ cs, c ≠ []) →
      ∃ buffer_len', get_buffer_loop chunk (cs.map ReadResult.data ++ tail) buffer buffer_len
        = get_buffer_loop chunk tail (buffer ++ cs.flatten) buffer_len' := by
  intro cs
  induction cs with
  | nil =>
    intro buffer buffer_len _
    exact ⟨buffer_len, by simp⟩
  | cons c cs ih =>
    intro buffer buffer_len hne
    have hc : c.length ≠ 0 := by
      intro h
      exact hne c (List.mem_cons_self _ _) (List.length_eq_zero.mp h)
    obtain ⟨n, hn⟩ := ih (buffer ++ c)
      (if (buffer ++ c).length = buffer_len then buffer_len + chunk else buffer_len)
      (fun x hx => hne x (List.mem_cons_of_mem _ hx))
    refine ⟨n, ?_⟩
    rw [List.map_cons, List.cons_append, get_buffer_loop, if_neg hc]
    dsimp only
    rw [hn, List.flatten_cons, List.append_assoc]

theorem get_buffer_none (env : Env) (s : State) (rest : List ReadResult)
    (h : get_buffer_loop env.STDIN_CHUNK_SIZE s.stdin_pipe [] env.STDIN_CHUNK_SIZE
      = some ({ buffer := none, ret_buffer_len := -1 }, rest)) :
    get_buffer env s
        = some ({ s with stdin_pipe := rest }, { buffer := none, ret_buffer_len := -1 })
    ∧ stdin_io_cb env s = some { s with stdin_pipe := rest }
    ∧ stdin_io_first_line_cb env s = some { s with stdin_pipe := rest } := by
  have hg : get_buffer env s
      = some ({ s with stdin_pipe := rest }, { buffer := none, ret_buffer_len := -1 }) := by
    unfold get_buffer
    rw [h]
  refine ⟨hg, ?_, ?_⟩
  · unfold stdin_io_cb
    rw [hg]
  · unfold stdin_io_first_line_cb
    rw [hg]

/-- C21: when the first `read` of an attempt would block, `get_buffer` hands
back no buffer (and the length -1), and both callbacks of the read watcher
return at once: the state afterwards is the state before with that one result
of `read` consumed, so the active statusline, the staging statusline, the child
record and the parser are as they were, and no outside call - in particular no
render request - is made. -/
theorem C21_would_block (env : Env) (s : State) (rest : List ReadResult)
    (hpipe : s.stdin_pipe = ReadResult.eagain :: rest) :
    get_buffer env s
        = some ({ s with stdin_pipe := rest }, { buffer := none, ret_buffer_len := -1 })
    ∧ stdin_io_cb env s = some { s with stdin_pipe := rest }
    ∧ stdin_io_first_line_cb env s = some { s with stdin_pipe := rest }
    ∧ ∀ r, (stdin_io_cb env s = some r ∨ stdin_io_first_line_cb env s = some r) →
        r.statusline_head = s.statusline_head
        ∧ r.statusline_buffer = s.statusline_buffer
        ∧ r.child = s.child
        ∧ r.stdin_io = s.stdin_io
        ∧ r.parser_fed = s.parser_fed
        ∧ r.trace = s.trace := by
  have h : get_buffer_loop env.STDIN_CHUNK_SIZE s.stdin_pipe [] env.STDIN_CHUNK_SIZE
      = some ({ buffer := none, ret_buffer_len := -1 }, rest) := by
    rw [hpipe]
    rfl
  obtain ⟨h1, h2, h3⟩ := get_buffer_none env s rest h
  refine ⟨h1, h2, h3, ?_⟩
  intro r hr
  rw [h2, h3] at hr
  have hrs : r = { s with stdin_pipe := rest } := by
    rcases hr with hr | hr <;> exact (Option.some.inj hr).symm
  rw [hrs]
  exact ⟨rfl, rfl, rfl, rfl, rfl, rfl⟩

theorem C21_would_block_witness :
    stdin_io_cb example_env quiet_state
        = some { quiet_state with stdin_pipe := [ReadResult.data "late\n".data] }
    ∧ stdin_io_first_line_cb example_env quiet_state
        = some { quiet_state with stdin_pipe := [ReadResult.data "late\n".data] } :=
  ⟨(C21_would_block example_env quiet_state [ReadResult.data "late\n".data] (by decide)).2.1,
    (C21_would_block example_env quiet_state [ReadResult.data "late\n".data]
      (by decide)).2.2.1⟩

/-- C27: when, after reads that each delivered bytes, a `read` of the same
`get_buffer` call returns 0 bytes, `get_buffer` hands back no buffer and the
length -1, whatever was received before; both callbacks of the read watcher
then return at once, so the bytes are not handed to the parser, the statuslines
are as they were and no render is requested.  Likewise, when the first byte
received is NUL, `get_buffer` hands back no buffer and the length -1, however
many bytes and reads follow before a `read` would block. -/
theorem C27_end_of_stream (env : Env) (s : State) (cs : List (List Char)) (z : ReadResult)
    (rest : List ReadResult) (s2 : State) (bytes : List Char) (more : List (List Char))
    (rest2 : List ReadResult)
    (hne : ∀ c ∈ cs, c ≠ [])
    (hz : z = ReadResult.eof ∨ z = ReadResult.data [])
    (hpipe : s.stdin_pipe = cs.map ReadResult.data ++ z :: rest)
    (hmore : ∀ c ∈ more, c ≠ [])
    (hpipe2 : s2.stdin_pipe
      = ReadResult.data (NUL :: bytes) :: more.map ReadResult.data
          ++ ReadResult.eagain :: rest2) :
    get_buffer env s
        = some ({ s with stdin_pipe := rest }, { buffer := none, ret_buffer_len := -1 })
    ∧ stdin_io_cb env s = some { s with stdin_pipe := rest }
    ∧ stdin_io_first_line_cb env s = some { s with stdin_pipe := rest }
    ∧ get_buffer env s2
        = some ({ s2 with stdin_pipe := rest2 }, { buffer := none, ret_buffer_len := -1 })
    ∧ stdin_io_cb env s2 = some { s2 with stdin_pipe := rest2 }
    ∧ stdin_io_first_line_cb env s2 = some { s2 with stdin_pipe := rest2 } := by
  have h1 : get_buffer_loop env.STDIN_CHUNK_SIZE s.stdin_pipe [] env.STDIN_CHUNK_SIZE
      = some ({ buffer := none, ret_buffer_len := -1 }, rest) := by
    obtain ⟨n, hn⟩ := get_buffer_loop_reads env.STDIN_CHUNK_SIZE (z :: rest) cs []
      env.STDIN_CHUNK_SIZE hne
    rw [hpipe, hn]
    rcases hz with hz | hz <;> subst hz <;> rfl
  have h2 : get_buffer_loop env.STDIN_CHUNK_SIZE s2.stdin_pipe [] env.STDIN_CHUNK_SIZE
      = some ({ buffer := none, ret_buffer_len := -1 }, rest2) := by
    obtain ⟨n, hn⟩ := get_buffer_loop_reads env.STDIN_CHUNK_SIZE (ReadResult.eagain :: rest2)
      ((NUL :: bytes) :: more) [] env.STDIN_CHUNK_SIZE
      (by
        intro c hc
        rcases List.mem_cons.mp hc with h | h
        · rw [h]
          exact List.cons_ne_nil _ _
        · exact hmore c h)
    rw [List.map_cons] at hn
    rw [hpipe2, hn, List.flatten_cons, List.nil_append, List.cons_append]
    simp only [get_buffer_loop, get_buffer_finish, if_true]
  obtain ⟨a1, a2, a3⟩ := get_buffer_none env s rest h1
  obtain ⟨b1, b2, b3⟩ := get_buffer_none env s2 rest2 h2
  exact ⟨a1, a2, a3, b1, b2, b3⟩

theorem C27_end_of_stream_witness :
    stdin_io_cb example_env closing_state = some { closing_state with stdin_pipe := [] }
    ∧ stdin_io_cb example_env nul_first_state = some { nul_first_state with stdin_pipe := [] } :=
  ⟨(C27_end_of_stream example_env closing_state ["par".data, "tial".data] ReadResult.eof []
      nul_first_state "abc".data ["def".data] [] (by decide) (Or.inl rfl) (by decide)
      (by decide) (by decide)).2.1,
    (C27_end_of_stream example_env closing_state ["par".data, "tial".data] ReadResult.eof []
      nul_first_state "abc".data ["def".data] [] (by decide) (Or.inl rfl) (by decide)
      (by decide) (by decide)).2.2.2.2.1⟩

/-- C29: on an active statusline that is not empty, `read_flat_input` with a
chunk that is not empty replaces `full_text` of the first block and nothing
else: the blocks, their number and their order, every other field of the first
block and the rest of the state are as before.  So when the first-line callback
takes the plain-text path (`parse_json_header` leaves version 0) on an active
statusline that already holds blocks, the zeroed block it appends at the tail
stays as appended, without text, and the text goes to the block that was first
before. -/
theorem C29_plain_text_first_block (env : Env) (s : State) (first : status_block)
    (rest : List status_block) (buffer : List Char) (s0 : State) (first0 : status_block)
    (rest0 : List status_block) (c : Char) (bytes : List Char) (pipe : List ReadResult)
    (hhead : s.statusline_head = first :: rest)
    (hne : buffer ≠ [])
    (hhead0 : s0.statusline_head = first0 :: rest0)
    (hc : c ≠ NUL)
    (hpipe : s0.stdin_pipe = ReadResult.data (c :: bytes) :: ReadResult.eagain :: pipe)
    (hplain : (env.parse_json_header s0.child (c :: bytes)).1.version = 0) :
    read_flat_input s buffer
        = some { s with
            statusline_head :=
              ({ first with full_text := some (i3string_from_utf8 (flat_line buffer)) }
                : status_block) :: rest }
    ∧ (∀ r, read_flat_input s buffer = some r →
        r.statusline_head.length = s.statusline_head.length
        ∧ r.statusline_head.tail = s.statusline_head.tail
        ∧ r.statusline_head.head?.map (fun b => ({ b with full_text := none } : status_block))
            = s.statusline_head.head?.map (fun b => ({ b with full_text := none } : status_block)))
    ∧ (∃ r, stdin_io_first_line_cb env s0 = some r
        ∧ r.statusline_head
            = ({ first0 with full_text := some (i3string_from_utf8 (flat_line (c :: bytes))) }
                : status_block) :: rest0 ++ [zero_block]
        ∧ r.statusline_head.length = s0.statusline_head.length + 1
        ∧ r.statusline_head.getLast? = some zero_block
        ∧ zero_block.full_text = none) := by
  have _ := hne
  have h1 : read_flat_input s buffer
        = some { s with
            statusline_head :=
              ({ first with full_text := some (i3string_from_utf8 (flat_line buffer)) }
                : status_block) :: rest } := by
    unfold read_flat_input
    rw [hhead]
  refine ⟨h1, ?_, ?_⟩
  · intro r hr
    rw [h1] at hr
    have hrs := (Option.some.inj hr).symm
    rw [hrs, hhead]
    exact ⟨rfl, rfl, rfl⟩
  · have hb : get_buffer env s0
        = some ({ s0 with stdin_pipe := pipe },
            { buffer := some (c :: bytes),
              ret_buffer_len := ((c :: bytes).length : Nat) }) :=
      get_buffer_one_read env s0 c bytes pipe hc hpipe
    unfold stdin_io_first_line_cb
    rw [hb]
    dsimp only
    rw [if_neg (by rw [hplain]; decide)]
    unfold read_flat_input
    simp only [hhead0, List.cons_append, Option.map_some']
    refine ⟨_, rfl, rfl, ?_, ?_, rfl⟩
    · simp [emit]
    · show ((_ :: rest0) ++ [zero_block]).getLast? = some zero_block
      exact List.getLast?_concat _

theorem C29_plain_text_first_block_witness :
    ∃ r, stdin_io_first_line_cb example_env replaced_child_state = some r
      ∧ r.statusline_head.map (fun b => b.full_text.map (fun t => t.utf8))
          = [some "hello", some "status_command not found or is missing a library dependency (exit 127)", none] := by
  obtain ⟨r, h1, h2, -⟩ :=
    (C29_plain_text_first_block example_env one_block_state zero_block [] "x".data
      replaced_child_state
      ((error_statusline (exit_message 127)).headD zero_block)
      (error_statusline (exit_message 127)).tail
      'h' "ello\n".data [] rfl (by decide) (by decide) (by decide) (by decide)
      (by decide)).2.2
  refine ⟨r, h1, ?_⟩
  rw [h2]
  decide

/-! ### Integer members -/

theorem to_uint32_cast (v : Int) : ((to_uint32 v : Nat) : Int) = v % 4294967296 := by
  unfold to_uint32
  exact Int.toNat_of_nonneg (Int.emod_nonneg v (by decide))

theorem stdin_integer_fields (s : State) (k : String) (v : Int)
    (hk : s.parser_context.last_map_key = some k) :
    (strcasecmp_eq k "min_width" = true →
      stdin_integer s v
        = (set_block s { s.parser_context.block with min_width := to_uint32 v }, 1))
    ∧ (strcasecmp_eq k "separator_block_width" = true →
      stdin_integer s v
        = (set_block s { s.parser_context.block with sep_block_width := to_uint32 v }, 1))
    ∧ (strcasecmp_eq k "border_top" = true →
      stdin_integer s v
        = (set_block s { s.parser_context.block with border_top := to_uint32 v }, 1))
    ∧ (strcasecmp_eq k "border_right" = true →
      stdin_integer s v
        = (set_block s { s.parser_context.block with border_right := to_uint32 v }, 1))
    ∧ (strcasecmp_eq k "border_bottom" = true →
      stdin_integer s v
        = (set_block s { s.parser_context.block with border_bottom := to_uint32 v }, 1))
    ∧ (strcasecmp_eq k "border_left" = true →
      stdin_integer s v
        = (set_block s { s.parser_context.block with border_left := to_uint32 v }, 1)) := by
  have hx : ∀ a b : String, strcasecmp_eq k a = true → strcasecmp_eq a b = false →
      ¬ (strcasecmp_eq k b = true) := by
    intro a b ha hab
    rw [strcasecmp_exclusive k a b ha hab]
    exact Bool.false_ne_true
  refine ⟨?_, ?_, ?_, ?_, ?_, ?_⟩ <;> intro h <;> unfold stdin_integer <;> rw [hk] <;>
    dsimp only
  · rw [if_pos h]
  · rw [if_neg (hx _ _ h (by decide)), if_pos h]
  · rw [if_neg (hx _ _ h (by decide)), if_neg (hx _ _ h (by decide)), if_pos h]
  · rw [if_neg (hx _ _ h (by decide)), if_neg (hx _ _ h (by decide)),
      if_neg (hx _ _ h (by decide)), if_pos h]
  · rw [if_neg (hx _ _ h (by decide)), if_neg (hx _ _ h (by decide)),
      if_neg (hx _ _ h (by decide)), if_neg (hx _ _ h (by decide)), if_pos h]
  · rw [if_neg (hx _ _ h (by decide)), if_neg (hx _ _ h (by decide)),
      if_neg (hx _ _ h (by decide)), if_neg (hx _ _ h (by decide)),
      if_neg (hx _ _ h (by decide)), if_pos h]

/-- C22 fails as stated: the value is converted to `uint32_t` before it is
stored.  Under the key `min_width` the integer 4294967296 leaves 0 in the
field and -1 leaves 4294967295; in the map `{"full_text":"a","min_width":v}`
the block appended has `min_width` 0 for 4294967296 and 1 for 4294967297.
These values lie within the signed 64-bit range. -/
theorem C22_counterexample :
    (stdin_integer (stdin_map_key initial_state "min_width").1
        4294967296).1.parser_context.block.min_width = 0
    ∧ (stdin_integer (stdin_map_key initial_state "min_width").1
        (-1)).1.parser_context.block.min_width = 4294967295
    ∧ (deliver example_env initial_state (min_width_events 4294967296)).1.statusline_buffer.map
        (fun b => b.min_width) = [0]
    ∧ (deliver example_env initial_state (min_width_events 4294967297)).1.statusline_buffer.map
        (fun b => b.min_width) = [1]
    ∧ (-9223372036854775808 : Int) ≤ -1 ∧ (4294967297 : Int) < 9223372036854775808 := by
  decide

/-- C22, as the code has it: under the keys `min_width`,
`separator_block_width`, `border_top`, `border_right`, `border_bottom` and
`border_left` (compared without regard to case) an integer `v` is accepted and
the field of that key - `min_width`, `sep_block_width`, `border_top`, .. - is
set to `v` converted to `uint32_t`, that is to `v` modulo 2^32; no other field
of the block changes.  The field holds `v` itself exactly when
`0 ≤ v < 2^32`. -/
theorem C22_integer_fields (s : State) (k : String) (v : Int)
    (hk : s.parser_context.last_map_key = some k) :
    (strcasecmp_eq k "min_width" = true →
      stdin_integer s v
        = (set_block s { s.parser_context.block with min_width := to_uint32 v }, 1))
    ∧ (strcasecmp_eq k "separator_block_width" = true →
      stdin_integer s v
        = (set_block s { s.parser_context.block with sep_block_width := to_uint32 v }, 1))
    ∧ (strcasecmp_eq k "border_top" = true →
      stdin_integer s v
        = (set_block s { s.parser_context.block with border_top := to_uint32 v }, 1))
    ∧ (strcasecmp_eq k "border_right" = true →
      stdin_integer s v
        = (set_block s { s.parser_context.block with border_right := to_uint32 v }, 1))
    ∧ (strcasecmp_eq k "border_bottom" = true →
      stdin_integer s v
        = (set_block s { s.parser_context.block with border_bottom := to_uint32 v }, 1))
    ∧ (strcasecmp_eq k "border_left" = true →
      stdin_integer s v
        = (set_block s { s.parser_context.block with border_left := to_uint32 v }, 1))
    ∧ ((to_uint32 v : Nat) : Int) = v % 4294967296
    ∧ (((to_uint32 v : Nat) : Int) = v ↔ 0 ≤ v ∧ v < 4294967296) := by
  obtain ⟨h1, h2, h3, h4, h5, h6⟩ := stdin_integer_fields s k v hk
  refine ⟨h1, h2, h3, h4, h5, h6, to_uint32_cast v, ?_⟩
  rw [to_uint32_cast]
  omega

theorem C22_integer_fields_witness :
    stdin_integer border_key_state 3
      = (set_block border_key_state
          { border_key_state.parser_context.block with border_top := to_uint32 3 }, 1) :=
  (C22_integer_fields border_key_state "Border_Top" 3 (by decide)).2.2.1 (by decide)

/-! ### Growth of staging -/

/-- What one callback does to staging: `start_array` empties it, `end_map`
appends the finished block, every other callback leaves it as it is. -/
theorem callback_staging (env : Env) (s : State) (e : Event) :
    (callback env s e).1.statusline_buffer
      = (if e = Event.start_array then []
          else if e = Event.end_map then
            s.statusline_buffer ++ [finish_block env s.parser_context.block]
          else s.statusline_buffer) := by
  by_cases h1 : e = Event.start_array
  · subst h1
    rw [if_pos rfl]
    exact clear_statusline_nil _ _
  · rw [if_neg h1]
    by_cases h3 : e = Event.end_map
    · subst h3
      rw [if_pos rfl]
      exact (stdin_end_map_spec env s).2.1
    · rw [if_neg h3]
      by_cases h2 : e = Event.end_array
      · subst h2
        rfl
      · obtain ⟨b, k, hc⟩ := callback_inner env s e h1 h2 h3
        rw [hc]

theorem deliver_staged_count (env : Env) :
    ∀ (events : List Event) (s : State), (deliver env s events).2 = true →
      (deliver env s events).1.statusline_buffer.length
        = staged_count s.statusline_buffer.length events := by
  intro events
  induction events with
  | nil =>
    intro s _
    simp [deliver, staged_count, after_last_array_start]
  | cons e rest ih =>
    intro s hd
    rw [deliver_cons] at hd ⊢
    by_cases hr : (callback env s e).2 = 0
    · rw [if_pos hr] at hd
      exact absurd hd (by simp)
    · rw [if_neg hr] at hd ⊢
      rw [ih _ hd, callback_staging]
      unfold staged_count
      rw [after_last_array_start]
      cases hrest : after_last_array_start rest with
      | some tail => rfl
      | none =>
        dsimp only
        by_cases h1 : e = Event.start_array
        · rw [if_pos h1, if_pos h1]
          simp
        · rw [if_neg h1, if_neg h1]
          dsimp only
          by_cases h3 : e = Event.end_map
          · rw [if_pos h3, h3, List.count_cons_self, List.length_append, List.length_singleton]
            omega
          · rw [if_neg h3, List.count_cons_of_ne (fun h => h3 h.symm)]

theorem stdin_start_map_block (env : Env) (s : State) :
    (stdin_start_map env s).1.parser_context.block = default_block env := by
  unfold stdin_start_map default_block
  dsimp only
  split <;> rfl

/-! ### The width asked for -/

theorem scalar_returns_one (env : Env) (s : State) (value : Scalar) (k : String)
    (hk : s.parser_context.last_map_key = some k) :
    (callback env s value.event).2 = 1 := by
  cases value with
  | boolean val => exact (stdin_boolean_keeps_full_text s val k hk).1
  | integer val => exact (stdin_integer_keeps_full_text s val k hk).1
  | string val => exact stdin_string_returns_one s val k hk

/-- Through the members of a map of scalars, a quantity `f` of the block under
construction that each member either sets (to `h b`, when `g` finds `b` in the
member) or leaves alone ends as the last member that sets it leaves it. -/
theorem deliver_members_field (env : Env) {α β : Type} (f : status_block → α)
    (g : String × Scalar → Option β) (h : β → α)
    (hstep : ∀ (s : State) (key : String) (value : Scalar),
      s.parser_context.last_map_key = some (sasprintf_s key) →
      f (callback env s value.event).1.parser_context.block
        = ((g (key, value)).map h).getD (f s.parser_context.block)) :
    ∀ (members : List (String × Scalar)) (s : State),
      f (deliver env s (member_events members)).1.parser_context.block
        = ((last_given g members).map h).getD (f s.parser_context.block) := by
  intro members
  induction members with
  | nil =>
    intro s
    rfl
  | cons m rest ih =>
    intro s
    obtain ⟨key, value⟩ := m
    rw [member_events, deliver_cons]
    have hk : (callback env s (Event.map_key key)).2 = 1 := rfl
    have hs1 : (callback env s (Event.map_key key)).1.parser_context.last_map_key
        = some (sasprintf_s key) := rfl
    have hb1 : (callback env s (Event.map_key key)).1.parser_context.block
        = s.parser_context.block := rfl
    generalize callback env s (Event.map_key key) = r1 at hk hs1 hb1 ⊢
    rw [if_neg (by rw [hk]; exact one_ne_zero), deliver_cons]
    have h2 := scalar_returns_one env r1.1 value _ hs1
    have h3 := hstep r1.1 key value hs1
    generalize callback env r1.1 value.event = r2 at h2 h3 ⊢
    rw [if_neg (by rw [h2]; exact one_ne_zero), ih r2.1, last_given]
    cases last_given g rest with
    | some b => rfl
    | none =>
      dsimp only
      rw [Option.map_none', Option.getD_none, h3, hb1]

theorem finish_block_min_width (env : Env) (block : status_block) :
    (finish_block env block).min_width
      = (match block.min_width_str with
          | some str =>
            to_uint32 (env.predict_text_width
              { utf8 := str, pango_markup := block.pango_markup })
          | none => block.min_width) := by
  unfold finish_block
  cases h1 : block.full_text <;> cases h2 : block.min_width_str <;>
    cases h3 : block.short_text <;>
    simp [h1, h2, h3, i3string_set_markup, i3string_from_utf8]

theorem stdin_boolean_keeps_width (s : State) (val : Bool) :
    updates_block (fun b b' => b'.min_width_str = b.min_width_str ∧ b'.min_width = b.min_width)
      s (stdin_boolean s val) := by
  unfold stdin_boolean
  cases hk : s.parser_context.last_map_key with
  | none => exact ⟨rfl, rfl⟩
  | some k =>
    dsimp only
    repeat' first
      | apply updates_block_ite
      | exact ⟨rfl, rfl⟩

theorem stdin_integer_keeps_width_str (s : State) (val : Int) :
    updates_block (fun b b' => b'.min_width_str = b.min_width_str) s (stdin_integer s val) := by
  unfold stdin_integer
  cases hk : s.parser_context.last_map_key with
  | none => exact rfl
  | some k =>
    dsimp only
    repeat' first
      | apply updates_block_ite
      | exact rfl

theorem stdin_integer_keeps_min_width (s : State) (val : Int)
    (h : ∀ k, s.parser_context.last_map_key = some k → strcasecmp_eq k "min_width" = false) :
    updates_block (fun b b' => b'.min_width = b.min_width) s (stdin_integer s val) := by
  unfold stdin_integer
  cases hk : s.parser_context.last_map_key with
  | none => exact rfl
  | some k =>
    dsimp only
    rw [if_neg (c := strcasecmp_eq k "min_width" = true) (by simp [h k hk])]
    repeat' first
      | apply updates_block_ite
      | exact rfl

theorem stdin_string_keeps_min_width (s : State) (val : String) :
    updates_block (fun b b' => b'.min_width = b.min_width) s (stdin_string s val) := by
  unfold stdin_string
  cases hk : s.parser_context.last_map_key with
  | none => exact rfl
  | some k =>
    dsimp only
    repeat' first
      | apply updates_block_ite
      | exact rfl

theorem stdin_string_keeps_width_str (s : State) (val : String)
    (h : ∀ k, s.parser_context.last_map_key = some k → strcasecmp_eq k "min_width" = false) :
    updates_block (fun b b' => b'.min_width_str = b.min_width_str) s (stdin_string s val) := by
  unfold stdin_string
  cases hk : s.parser_context.last_map_key with
  | none => exact rfl
  | some k =>
    dsimp only
    rw [if_neg (c := strcasecmp_eq k "min_width" = true) (by simp [h k hk])]
    repeat' first
      | apply updates_block_ite
      | exact rfl

theorem stdin_string_min_width (s : State) (k : String) (val : String)
    (hk : s.parser_context.last_map_key = some k)
    (hm : strcasecmp_eq k "min_width" = true) :
    stdin_string s val
      = (set_block s { s.parser_context.block with
          min_width_str := some (sasprintf_s val) }, 1) := by
  have hx : ∀ b : String, strcasecmp_eq "min_width" b = false →
      ¬ (strcasecmp_eq k b = true) := by
    intro b hab
    rw [strcasecmp_exclusive k "min_width" b hm hab]
    exact Bool.false_ne_true
  unfold stdin_string
  rw [hk]
  dsimp only
  rw [if_neg (hx _ (by decide)), if_neg (hx _ (by decide)), if_neg (hx _ (by decide)),
    if_neg (hx _ (by decide)), if_neg (hx _ (by decide)), if_neg (hx _ (by decide)),
    if_neg (hx _ (by decide)), if_pos hm]

theorem member_sets_width_str (env : Env) (s : State) (key : String) (value : Scalar)
    (hk : s.parser_context.last_map_key = some (sasprintf_s key)) :
    (callback env s value.event).1.parser_context.block.min_width_str
      = ((min_width_string (key, value)).map (fun v => some (sasprintf_s v))).getD
          s.parser_context.block.min_width_str := by
  have hkey : ∀ name, strcasecmp_eq (sasprintf_s key) name = strcasecmp_eq key name :=
    fun name => strcasecmp_eq_c_str key name
  cases value with
  | boolean val => exact (stdin_boolean_keeps_width s val).1
  | integer val => exact stdin_integer_keeps_width_str s val
  | string val =>
    show (stdin_string s val).1.parser_context.block.min_width_str = _
    cases hm : strcasecmp_eq key "min_width" with
    | true =>
      rw [stdin_string_min_width s _ val hk (by rw [hkey]; exact hm)]
      simp only [min_width_string, hm, if_true]
      rfl
    | false =>
      have := stdin_string_keeps_width_str s val
        (fun k hk' => by
          rw [hk] at hk'
          rw [← Option.some.inj hk', hkey]
          exact hm)
      simp only [min_width_string, hm]
      exact this

theorem member_sets_min_width (env : Env) (s : State) (key : String) (value : Scalar)
    (hk : s.parser_context.last_map_key = some (sasprintf_s key)) :
    (callback env s value.event).1.parser_context.block.min_width
      = ((min_width_integer (key, value)).map to_uint32).getD
          s.parser_context.block.min_width := by
  have hkey : ∀ name, strcasecmp_eq (sasprintf_s key) name = strcasecmp_eq key name :=
    fun name => strcasecmp_eq_c_str key name
  cases value with
  | boolean val => exact (stdin_boolean_keeps_width s val).2
  | string val => exact stdin_string_keeps_min_width s val
  | integer val =>
    show (stdin_integer s val).1.parser_context.block.min_width = _
    cases hm : strcasecmp_eq key "min_width" with
    | true =>
      rw [(stdin_integer_fields s _ val hk).1 (by rw [hkey]; exact hm)]
      simp only [min_width_integer, hm, if_true]
      rfl
    | false =>
      have := stdin_integer_keeps_min_width s val
        (fun k hk' => by
          rw [hk] at hk'
          rw [← Option.some.inj hk', hkey]
          exact hm)
      simp only [min_width_integer, hm]
      exact this

theorem member_sets_markup (env : Env) (s : State) (key : String) (value : Scalar)
    (hk : s.parser_context.last_map_key = some (sasprintf_s key)) :
    (callback env s value.event).1.parser_context.block.pango_markup
      = ((markup_string (key, value)).map
            (fun v => decide (v.data.map tolower = "pango".data))).getD
          s.parser_context.block.pango_markup := by
  have hkey : ∀ name, strcasecmp_eq (sasprintf_s key) name = strcasecmp_eq key name :=
    fun name => strcasecmp_eq_c_str key name
  cases value with
  | boolean val => exact stdin_boolean_keeps_markup s val
  | integer val => exact (stdin_integer_keeps_flags s val).2
  | string val =>
    show (stdin_string s val).1.parser_context.block.pango_markup = _
    cases hm : strcasecmp_eq key "markup" with
    | true =>
      rw [stdin_string_markup s _ val hk (by rw [hkey]; exact hm)]
      simp only [markup_string, hm, if_true]
      rfl
    | false =>
      have := stdin_string_keeps_markup s val
        (fun k hk' => by
          rw [hk] at hk'
          rw [← Option.some.inj hk', hkey]
          exact hm)
      simp only [markup_string, hm]
      exact this

/-- The block a map of scalars appends to staging has the markup mode and the
`min_width` the map asks for. -/
theorem deliver_map_width (env : Env) (s : State) (members : List (String × Scalar)) :
    ∃ b, (deliver env s (map_events members)).1.statusline_buffer = s.statusline_buffer ++ [b]
      ∧ b.pango_markup = given_markup members
      ∧ b.min_width = given_min_width env members := by
  obtain ⟨-, i2, -, -⟩ := deliver_members env members (stdin_start_map env s).1
  have hb0 := stdin_start_map_block env s
  have f1 := deliver_members_field env (fun b => b.min_width_str) min_width_string
    (fun v => some (sasprintf_s v)) (member_sets_width_str env) members (stdin_start_map env s).1
  have f2 := deliver_members_field env (fun b => b.min_width) min_width_integer
    to_uint32 (member_sets_min_width env) members (stdin_start_map env s).1
  have f3 := deliver_members_field env (fun b => b.pango_markup) markup_string
    (fun v => decide (v.data.map tolower = "pango".data)) (member_sets_markup env) members
    (stdin_start_map env s).1
  rw [hb0] at f1 f2 f3
  dsimp only at f1 f2 f3
  rw [deliver_map_events]
  have hm : (deliver env (stdin_start_map env s).1
      (member_events members)).1.parser_context.block.pango_markup = given_markup members := by
    rw [f3]
    unfold given_markup
    cases last_given markup_string members <;> rfl
  refine ⟨finish_block env
      (deliver env (stdin_start_map env s).1 (member_events members)).1.parser_context.block,
      ?_, ?_, ?_⟩
  · show (stdin_end_map env _).1.statusline_buffer = _
    rw [(stdin_end_map_spec env _).2.1, i2, (stdin_start_map_full_text env s).2]
  · rw [(finish_block_flags env _).2, hm]
  · rw [finish_block_min_width, f1, f2, hm]
    unfold given_min_width
    cases last_given min_width_string members with
    | some str => rfl
    | none =>
      cases last_given min_width_integer members <;> rfl

/-- C23 fails as stated on a map with a nested object: the map
`{"min_width":"abc","x":{}}` gives `min_width` as the string `abc`, which
measures 3, yet the start of the nested object zeroes the block under
construction, and both blocks appended have `min_width` 0. -/
theorem C23_counterexample :
    (deliver measuring_env initial_state nested_min_width_events).2 = true
    ∧ staged_widths nested_min_width_events = [(0, false), (0, false)]
    ∧ to_uint32 (measuring_env.predict_text_width { utf8 := "abc", pango_markup := false }) = 3
    ∧ staged_widths (map_events [("min_width", Scalar.string "abc")]) = [(3, false)] := by
  decide

/-- C23, for maps whose member values are all scalars: a string given for
`min_width` is only stored when it arrives; the block appended at map end has
as `min_width` the width `predict_text_width` measures for the last such
string, read under the markup mode the map ends with (pango exactly when the
last `markup` string is `pango` up to case), converted to `uint32_t` - whether
`markup` comes before or after `min_width` in the map.  A map with no string
`min_width` ends with the last integer given for `min_width`, as `uint32_t`,
or with 0. -/
theorem C23_deferred_min_width (env : Env) (s : State) (members : List (String × Scalar))
    (str v : String) :
    (∃ b, (deliver env s (map_events members)).1.statusline_buffer = s.statusline_buffer ++ [b]
      ∧ b.pango_markup = given_markup members
      ∧ b.min_width = given_min_width env members)
    ∧ (stdin_string (stdin_map_key s "min_width").1 str).1.parser_context.block
        = { s.parser_context.block with min_width_str := some (sasprintf_s str) }
    ∧ given_min_width env [("min_width", Scalar.string str), ("markup", Scalar.string v)]
        = to_uint32 (env.predict_text_width
            { utf8 := sasprintf_s str,
              pango_markup := decide (v.data.map tolower = "pango".data) })
    ∧ given_min_width env [("markup", Scalar.string v), ("min_width", Scalar.string str)]
        = to_uint32 (env.predict_text_width
            { utf8 := sasprintf_s str,
              pango_markup := decide (v.data.map tolower = "pango".data) })
    ∧ staged_widths (map_events [("full_text", Scalar.string "a"),
        ("min_width", Scalar.string "abcd"), ("markup", Scalar.string "pango")]) = [(8, true)]
    ∧ staged_widths (map_events [("full_text", Scalar.string "a"),
        ("markup", Scalar.string "pango"), ("min_width", Scalar.string "abcd")]) = [(8, true)]
    ∧ staged_widths (map_events [("full_text", Scalar.string "a"),
        ("min_width", Scalar.string "abcd"), ("markup", Scalar.string "none")]) = [(4, false)]
    ∧ staged_widths (map_events [("full_text", Scalar.string "a"),
        ("min_width", Scalar.integer 30), ("markup", Scalar.string "pango")]) = [(30, true)]
    ∧ staged_widths (map_events [("full_text", Scalar.string "a"),
        ("min_width", Scalar.integer 30), ("min_width", Scalar.string "abcd")]) = [(4, false)]
    ∧ staged_widths (map_events [("full_text", Scalar.string "a")]) = [(0, false)] := by
  have h1 : strcasecmp_eq "min_width" "min_width" = true := by decide
  have h2 : strcasecmp_eq "markup" "min_width" = false := by decide
  have h3 : strcasecmp_eq "min_width" "markup" = false := by decide
  have h4 : strcasecmp_eq "markup" "markup" = true := by decide
  refine ⟨deliver_map_width env s members, ?_, ?_, ?_, by decide, by decide, by decide,
    by decide, by decide, by decide⟩
  · rw [stdin_string_min_width (stdin_map_key s "min_width").1 (sasprintf_s "min_width") str
      rfl (by decide)]
    rfl
  · simp [given_min_width, given_markup, last_given, min_width_string, markup_string,
      h1, h2, h3, h4]
  · simp [given_min_width, given_markup, last_given, min_width_string, markup_string,
      h1, h2, h3, h4]

/-! ### The read loop at the level of the machine -/

theorem mem_read_spec (count : Nat) (pipe : List ReadResult) :
    Mem.pipe_size (Mem.read count pipe).2 ≤ Mem.pipe_size pipe
    ∧ ∀ got, (Mem.read count pipe).1 = ReadResult.data got →
        got.length ≤ count
        ∧ (got.length ≠ 0 → Mem.pipe_size (Mem.read count pipe).2 < Mem.pipe_size pipe) := by
  cases pipe with
  | nil => exact ⟨le_refl _, fun got h => by simp [Mem.read] at h⟩
  | cons r rest =>
    cases r with
    | eagain => exact ⟨by simp [Mem.read, Mem.pipe_size], fun got h => by simp [Mem.read] at h⟩
    | eof => exact ⟨by simp [Mem.read, Mem.pipe_size], fun got h => by simp [Mem.read] at h⟩
    | error => exact ⟨by simp [Mem.read, Mem.pipe_size], fun got h => by simp [Mem.read] at h⟩
    | data bytes =>
      by_cases hfit : bytes.length ≤ count
      · simp only [Mem.read, hfit, if_true, Mem.pipe_size]
        refine ⟨by omega, ?_⟩
        intro got h
        simp only [ReadResult.data.injEq] at h
        subst h
        exact ⟨hfit, fun _ => by omega⟩
      · simp only [Mem.read, hfit, if_false, Mem.pipe_size, List.length_drop]
        refine ⟨by omega, ?_⟩
        intro got h
        simp only [ReadResult.data.injEq] at h
        subst h
        rw [List.length_take]
        exact ⟨Nat.min_le_left _ _, fun h0 => by
          have : min count bytes.length = count := Nat.min_eq_left (by omega)
          rw [this] at h0
          omega⟩

theorem head_after_write (b : List (Option Char)) (rec_ : Nat) (got : List Char) (c : Char)
    (hgot : got ≠ []) (hb : b.head? = some (some c)) :
    ∃ c', (b.take rec_ ++ got.map some ++ b.drop (rec_ + got.length)).head? = some (some c')
      ∧ (0 < rec_ → c' = c) := by
  cases rec_ with
  | zero =>
    cases got with
    | nil => exact absurd rfl hgot
    | cons g gs => exact ⟨g, by simp, fun h => absurd h (by decide)⟩
  | succ r =>
    cases b with
    | nil => simp at hb
    | cons x xs =>
      simp only [List.head?_cons, Option.some.injEq] at hb
      subst hb
      exact ⟨c, by simp, fun _ => rfl⟩

theorem head_after_realloc (b : List (Option Char)) (n k : Nat) (x : Option Char)
    (hn : 0 < n) (hb : b.head? = some x) :
    (b.take n ++ List.replicate k none).head? = some x := by
  cases b with
  | nil => simp at hb
  | cons y ys =>
    cases n with
    | zero => exact absurd hn (by decide)
    | succ m =>
      simp only [List.head?_cons, Option.some.injEq] at hb
      subst hb
      simp

theorem length_after_write (b : List (Option Char)) (rec_ : Nat) (got : List Char)
    (h : rec_ + got.length ≤ b.length) :
    (b.take rec_ ++ got.map some ++ b.drop (rec_ + got.length)).length = b.length := by
  simp only [List.length_append, List.length_take, List.length_map, List.length_drop]
  omega

theorem length_after_realloc (b : List (Option Char)) (n : Nat) :
    (b.take n ++ List.replicate (n - b.length) none).length = n := by
  simp only [List.length_append, List.length_take, List.length_replicate]
  omega

/-- A `read` that returned bytes within the space asked for keeps the
variables in order, unless `buffer_len` would leave the range of `int`; it
never writes beyond the allocation. -/
theorem mem_store_sound (chunk : Nat) (v : Mem.Vars) (got : List Char)
    (hv : Mem.sound chunk v) (h0 : got.length ≠ 0)
    (hn : got.length ≤ v.buffer_len - v.rec_) :
    Mem.store chunk v got = Except.error Mem.Outcome.overflow
    ∨ ∃ v', Mem.store chunk v got = Except.ok v' ∧ Mem.sound chunk v'
        ∧ v'.rec_ = v.rec_ + got.length := by
  obtain ⟨h1, h2, h3, h4, c, hc, hc0⟩ := hv
  have hlt : v.rec_ < v.buffer_len := by omega
  have hchunk : 0 < chunk := by
    rcases h1 with h | h
    · exact h.1
    · omega
  have hfit : ¬ (v.rec_ + got.length > v.buffer.length) := by omega
  have hgot : got ≠ [] := fun h => h0 (by rw [h]; rfl)
  have hov : ¬ (v.rec_ + got.length > INT_MAX) := by omega
  obtain ⟨c', hc', -⟩ := head_after_write v.buffer v.rec_ got c hgot hc
  have hlen := length_after_write v.buffer v.rec_ got (by omega)
  unfold Mem.store
  rw [if_neg hfit]
  dsimp only
  rw [if_neg hov]
  by_cases hfull : v.rec_ + got.length = v.buffer_len
  · rw [if_pos hfull]
    by_cases hov2 : v.buffer_len + chunk > INT_MAX
    · left
      rw [if_pos hov2]
    · right
      rw [if_neg hov2]
      refine ⟨_, rfl, ⟨Or.inl ⟨hchunk, ?_⟩, ?_, ?_, ?_, c', ?_, ?_⟩, rfl⟩
      · show v.rec_ + got.length < v.buffer_len + chunk
        omega
      · show v.buffer_len + chunk ≤ List.length _
        rw [length_after_realloc]
      · show v.rec_ + got.length < List.length _
        rw [length_after_realloc]
        omega
      · show v.buffer_len + chunk ≤ INT_MAX
        omega
      · show List.head? _ = _
        exact head_after_realloc _ _ _ _ (by omega) hc'
      · intro h
        have : v.rec_ + got.length = 0 := h
        omega
  · right
    rw [if_neg hfull]
    refine ⟨_, rfl, ⟨Or.inl ⟨hchunk, ?_⟩, ?_, ?_, h4, c', hc', ?_⟩, rfl⟩
    · show v.rec_ + got.length < v.buffer_len
      omega
    · show v.buffer_len ≤ List.length _
      rw [hlen]
      exact h2
    · show v.rec_ + got.length < List.length _
      rw [hlen]
      omega
    · intro h
      have : v.rec_ + got.length = 0 := h
      omega

theorem mem_finish_sound (chunk : Nat) (v : Mem.Vars) (hv : Mem.sound chunk v) :
    Mem.get_buffer_finish v ≠ Mem.Outcome.out_of_fuel
    ∧ Mem.get_buffer_finish v ≠ Mem.Outcome.bad_access
    ∧ ∀ bytes rec_, Mem.get_buffer_finish v = Mem.Outcome.buffer bytes rec_ →
        bytes = v.buffer ∧ rec_ = v.rec_ ∧ 1 ≤ rec_ ∧ rec_ < bytes.length ∧ rec_ ≤ INT_MAX := by
  obtain ⟨h1, h2, h3, h4, c, hc, hc0⟩ := hv
  unfold Mem.get_buffer_finish
  rw [hc]
  dsimp only
  by_cases hn : c = NUL
  · rw [if_pos hn]
    exact ⟨by simp, by simp, fun _ _ h => by simp at h⟩
  · rw [if_neg hn]
    refine ⟨by simp, by simp, ?_⟩
    intro bytes rec_ h
    simp only [Mem.Outcome.buffer.injEq] at h
    obtain ⟨hb, hr⟩ := h
    subst hb
    subst hr
    have hpos : v.rec_ ≠ 0 := fun h => hn (hc0 h)
    refine ⟨rfl, rfl, by omega, h3, ?_⟩
    rcases h1 with h | h <;> omega

/-- The loop, given enough rounds and started with its variables in order,
ends by itself, never touches memory outside the allocation, and when it
hands back a buffer `rec` is at least 1, within `int` and inside the
allocation. -/
theorem mem_loop_safe (chunk : Nat) :
    ∀ (fuel : Nat) (pipe : List ReadResult) (v : Mem.Vars),
      Mem.pipe_size pipe < fuel → Mem.sound chunk v →
      (Mem.get_buffer_loop chunk fuel pipe v).1 ≠ Mem.Outcome.out_of_fuel
      ∧ (Mem.get_buffer_loop chunk fuel pipe v).1 ≠ Mem.Outcome.bad_access
      ∧ ∀ bytes rec_, (Mem.get_buffer_loop chunk fuel pipe v).1 = Mem.Outcome.buffer bytes rec_ →
          1 ≤ rec_ ∧ rec_ < bytes.length ∧ rec_ ≤ INT_MAX := by
  intro fuel
  induction fuel with
  | zero => intro pipe v h; exact absurd h (Nat.not_lt_zero _)
  | succ fuel ih =>
    intro pipe v hfuel hv
    obtain ⟨r1, r2⟩ := mem_read_spec (v.buffer_len - v.rec_) pipe
    rw [Mem.get_buffer_loop]
    generalize Mem.read (v.buffer_len - v.rec_) pipe = rr at r1 r2
    obtain ⟨r, rest⟩ := rr
    cases r with
    | eagain =>
      obtain ⟨f1, f2, f3⟩ := mem_finish_sound chunk v hv
      exact ⟨f1, f2, fun bytes rec_ h => (f3 bytes rec_ h).2.2⟩
    | error => exact ⟨by simp, by simp, fun _ _ h => by simp at h⟩
    | eof => exact ⟨by simp, by simp, fun _ _ h => by simp at h⟩
    | data got =>
      dsimp only
      by_cases h0 : got.length = 0
      · rw [if_pos h0]
        exact ⟨by simp, by simp, fun _ _ h => by simp at h⟩
      · rw [if_neg h0]
        obtain ⟨g1, g2⟩ := r2 got rfl
        rcases mem_store_sound chunk v got hv h0 g1 with hs | ⟨v', hs, hv', -⟩
        · rw [hs]
          exact ⟨by simp, by simp, fun _ _ h => by simp at h⟩
        · rw [hs]
          exact ih rest v' (by have := g2 h0; simp only at this; omega) hv'

theorem mem_store_holds (chunk : Nat) (v : Mem.Vars) (received got : List Char)
    (hv : Mem.holds chunk v received) (h0 : got.length ≠ 0)
    (hn : got.length ≤ v.buffer_len - v.rec_)
    (hint : v.rec_ + got.length + chunk ≤ INT_MAX) :
    ∃ v', Mem.store chunk v got = Except.ok v' ∧ Mem.holds chunk v' (received ++ got) := by
  obtain ⟨hs, k1, k2, k3, k4, k5, k6⟩ := hv
  have hs' := hs
  obtain ⟨h1, h2, h3, h4, c, hc, hc0⟩ := hs'
  have hlt : v.rec_ < v.buffer_len := by omega
  have hchunk : 0 < chunk := by
    rcases h1 with h | h
    · exact h.1
    · omega
  have hge : chunk ≤ v.buffer_len := Nat.le_of_dvd (by omega) k3
  have hlen := length_after_write v.buffer v.rec_ got (by omega)
  have htake : (v.buffer.take v.rec_ ++ got.map some ++ v.buffer.drop (v.rec_ + got.length)).take
      (v.rec_ + got.length) = (received ++ got).map some := by
    rw [List.take_left' (by
      rw [List.length_append, List.length_take, List.length_map]
      omega), k2, List.map_append]
  rcases mem_store_sound chunk v got hs h0 hn with hov | ⟨v', hv', hsound, hrec⟩
  · exfalso
    unfold Mem.store at hov
    rw [if_neg (by omega)] at hov
    dsimp only at hov
    rw [if_neg (by omega)] at hov
    by_cases hfull : v.rec_ + got.length = v.buffer_len
    · rw [if_pos hfull, if_neg (by omega)] at hov
      simp at hov
    · rw [if_neg hfull] at hov
      simp at hov
  · refine ⟨v', hv', hsound, ?_⟩
    unfold Mem.store at hv'
    rw [if_neg (by omega)] at hv'
    dsimp only at hv'
    rw [if_neg (by omega)] at hv'
    by_cases hfull : v.rec_ + got.length = v.buffer_len
    · rw [if_pos hfull, if_neg (by omega)] at hv'
      simp only [Except.ok.injEq] at hv'
      subst hv'
      refine ⟨by
        show v.rec_ + got.length = (received ++ got).length
        rw [List.length_append, k1], ?_, Dvd.dvd.add k3 (dvd_refl chunk), ?_, ?_, ?_⟩
      · show List.take (v.rec_ + got.length) _ = _
        rw [List.take_append_of_le_length (by
          rw [List.length_take, hlen]
          omega), List.take_take, Nat.min_eq_left (by omega), htake]
      · show v.buffer_len + chunk ≤ v.rec_ + got.length + chunk
        omega
      · intro h
        have : v.rec_ + got.length < chunk := h
        omega
      · show List.length _ = _
        rw [length_after_realloc]
        have : ¬ (v.rec_ + got.length < chunk) := by omega
        show v.buffer_len + chunk = if v.rec_ + got.length < chunk then chunk + 1
          else v.buffer_len + chunk
        rw [if_neg this]
    · rw [if_neg hfull] at hv'
      simp only [Except.ok.injEq] at hv'
      subst hv'
      refine ⟨by
        show v.rec_ + got.length = (received ++ got).length
        rw [List.length_append, k1], htake, k3, ?_, ?_, ?_⟩
      · show v.buffer_len ≤ v.rec_ + got.length + chunk
        omega
      · intro h
        have : v.rec_ + got.length < chunk := h
        exact k5 (by omega)
      · show List.length _ = if v.rec_ + got.length < chunk then chunk + 1 else v.buffer_len
        rw [hlen, k6]
        by_cases hr : v.rec_ < chunk
        · have hb := k5 hr
          rw [if_pos hr, if_pos (by omega)]
        · rw [if_neg hr, if_neg (by omega)]

/-- Bytes that are there to be read, in chunks none of which is empty, are all
taken into the buffer, in order, by as many reads as it takes, before the
loop meets the `read` that would block - as long as `buffer_len` stays within
`int`. -/
theorem mem_loop_reads (chunk : Nat) (rest : List ReadResult) (hchunk : 0 < chunk) :
    ∀ (fuel : Nat) (cs : List (List Char)) (v : Mem.Vars) (received : List Char),
      Mem.pipe_size (cs.map ReadResult.data ++ ReadResult.eagain :: rest) < fuel →
      (∀ c ∈ cs, c ≠ []) →
      Mem.holds chunk v received →
      v.rec_ + cs.flatten.length + chunk ≤ INT_MAX →
      ∃ v', Mem.get_buffer_loop chunk fuel (cs.map ReadResult.data ++ ReadResult.eagain :: rest) v
            = (Mem.get_buffer_finish v', rest)
        ∧ Mem.holds chunk v' (received ++ cs.flatten) := by
  intro fuel
  induction fuel with
  | zero => intro cs v received h; exact absurd h (Nat.not_lt_zero _)
  | succ fuel ih =>
    intro cs v received hfuel hne hv hint
    cases cs with
    | nil =>
      refine ⟨v, ?_, by simpa using hv⟩
      rw [List.map_nil, List.nil_append, Mem.get_buffer_loop]
      rfl
    | cons c more =>
      have hc : c ≠ [] := hne c (List.mem_cons_self _ _)
      have hclen : c.length ≠ 0 := fun h => hc (List.length_eq_zero.mp h)
      have hmore : ∀ x ∈ more, x ≠ [] := fun x hx => hne x (List.mem_cons_of_mem _ hx)
      have hlt : v.rec_ < v.buffer_len := by
        rcases hv.1.1 with h | h
        · exact h.2
        · omega
      rw [List.flatten_cons, List.length_append] at hint
      rw [List.map_cons, List.cons_append] at hfuel ⊢
      rw [Mem.pipe_size] at hfuel
      by_cases hfit : c.length ≤ v.buffer_len - v.rec_
      · have hread : Mem.read (v.buffer_len - v.rec_)
            (ReadResult.data c :: (more.map ReadResult.data ++ ReadResult.eagain :: rest))
            = (ReadResult.data c, more.map ReadResult.data ++ ReadResult.eagain :: rest) := by
          simp [Mem.read, hfit]
        obtain ⟨v1, hstore, hv1⟩ := mem_store_holds chunk v received c hv hclen hfit (by omega)
        obtain ⟨v', hloop, hv'⟩ := ih more v1 (received ++ c) (by omega) hmore hv1 (by
          rw [hv1.2.1, List.length_append, ← hv.2.1]
          omega)
        refine ⟨v', ?_, by rw [List.flatten_cons, ← List.append_assoc]; exact hv'⟩
        rw [Mem.get_buffer_loop, hread]
        dsimp only
        rw [if_neg hclen, hstore]
        exact hloop
      · have hcount : 0 < v.buffer_len - v.rec_ := by omega
        have hread : Mem.read (v.buffer_len - v.rec_)
            (ReadResult.data c :: (more.map ReadResult.data ++ ReadResult.eagain :: rest))
            = (ReadResult.data (c.take (v.buffer_len - v.rec_)),
                ReadResult.data (c.drop (v.buffer_len - v.rec_))
                  :: (more.map ReadResult.data ++ ReadResult.eagain :: rest)) := by
          simp [Mem.read, hfit]
        have hgl : (c.take (v.buffer_len - v.rec_)).length = v.buffer_len - v.rec_ := by
          rw [List.length_take]
          omega
        obtain ⟨v1, hstore, hv1⟩ := mem_store_holds chunk v received
          (c.take (v.buffer_len - v.rec_)) hv (by omega) (by omega) (by omega)
        have hdl : (c.drop (v.buffer_len - v.rec_)).length = c.length - (v.buffer_len - v.rec_) :=
          List.length_drop _ _
        obtain ⟨v', hloop, hv'⟩ := ih (c.drop (v.buffer_len - v.rec_) :: more) v1
          (received ++ c.take (v.buffer_len - v.rec_))
          (by
            rw [List.map_cons, List.cons_append, Mem.pipe_size, hdl]
            omega)
          (by
            intro x hx
            rcases List.mem_cons.mp hx with h | h
            · rw [h]
              intro h0
              rw [h0] at hdl
              simp only [List.length_nil] at hdl
              omega
            · exact hmore x h)
          hv1
          (by
            rw [hv1.2.1, List.flatten_cons, List.length_append, List.length_append, hgl, hdl,
              ← hv.2.1]
            omega)
        refine ⟨v', ?_, ?_⟩
        · rw [Mem.get_buffer_loop, hread]
          dsimp only
          rw [if_neg (by omega), hstore]
          exact hloop
        · have : received ++ c.take (v.buffer_len - v.rec_)
              ++ (c.drop (v.buffer_len - v.rec_) :: more).flatten
              = received ++ (c :: more).flatten := by
            rw [List.flatten_cons, List.flatten_cons, List.append_assoc, ← List.append_assoc
              (c.take _), List.take_append_drop]
          rw [← this]
          exact hv'

theorem mem_initial_holds (chunk : Nat) (hchunk : 0 < chunk) (hint : ¬ (chunk + 1 > INT_MAX)) :
    Mem.holds chunk
      { buffer := (List.replicate (chunk + 1) none).set 0 (some NUL), rec_ := 0,
        buffer_len := chunk } [] := by
  refine ⟨⟨Or.inl ⟨hchunk, hchunk⟩, ?_, ?_, ?_, NUL, ?_, fun _ => rfl⟩, rfl, rfl, dvd_refl chunk,
    ?_, fun _ => rfl, ?_⟩
  · show chunk ≤ List.length _
    rw [List.length_set, List.length_replicate]
    omega
  · show 0 < List.length _
    rw [List.length_set, List.length_replicate]
    omega
  · show chunk ≤ INT_MAX
    omega
  · show List.head? _ = _
    rw [List.replicate_succ]
    rfl
  · show chunk ≤ 0 + chunk
    omega
  · show List.length _ = if 0 < chunk then chunk + 1 else chunk
    rw [List.length_set, List.length_replicate, if_pos hchunk]

theorem mem_initial_sound (chunk : Nat) (hint : ¬ (chunk + 1 > INT_MAX)) :
    Mem.sound chunk
      { buffer := (List.replicate (chunk + 1) none).set 0 (some NUL), rec_ := 0,
        buffer_len := chunk } := by
  rcases Nat.eq_zero_or_pos chunk with h0 | hpos
  · subst h0
    exact ⟨Or.inr ⟨rfl, rfl⟩, by decide, by decide, by decide, NUL, rfl, fun _ => rfl⟩
  · exact (mem_initial_holds chunk hpos hint).1

theorem least_multiple_above (chunk len n : Nat) (h1 : n < len) (h2 : chunk ∣ len)
    (h3 : len ≤ n + chunk) : len = chunk * (n / chunk + 1) := by
  obtain ⟨k, hk⟩ := h2
  have hpos : 0 < chunk := by omega
  have hk1 : 1 ≤ k := by
    rcases Nat.eq_zero_or_pos k with h | h
    · rw [h, Nat.mul_zero] at hk
      omega
    · exact h
  have hdiv : n / chunk = k - 1 := by
    apply Nat.div_eq_of_lt_le
    · have : (k - 1) * chunk + chunk = chunk * k := by
        rw [← Nat.succ_mul, Nat.succ_eq_add_one, Nat.sub_add_cancel hk1, Nat.mul_comm]
      omega
    · rw [Nat.sub_add_cancel hk1, Nat.mul_comm]
      omega
  rw [hdiv, Nat.sub_add_cancel hk1]
  exact hk

theorem mem_pipe_size_replicate (r : ReadResult) (tail : List ReadResult) :
    ∀ k : Nat, k ≤ Mem.pipe_size (List.replicate k r ++ tail) := by
  intro k
  induction k with
  | zero => exact Nat.zero_le _
  | succ k ih =>
    rw [List.replicate_succ, List.cons_append]
    cases r <;> simp only [Mem.pipe_size] <;> omega

/-- Reads that each fill the buffer to the brim make `buffer_len` grow by one
chunk each; once that would take it beyond `INT_MAX` the loop is left with an
`int` overflow. -/
theorem mem_loop_overflow (chunk : Nat) (a : Char) (tail : List ReadResult) :
    ∀ (k fuel : Nat) (v : Mem.Vars), k < fuel → Mem.sound chunk v →
      v.rec_ + chunk = v.buffer_len → 0 < chunk → v.buffer_len + k * chunk > INT_MAX →
      (Mem.get_buffer_loop chunk fuel
        (List.replicate k (ReadResult.data (List.replicate chunk a)) ++ tail) v).1
        = Mem.Outcome.overflow := by
  intro k
  induction k with
  | zero =>
    intro fuel v _ hv _ _ hk
    have := hv.2.2.2.1
    omega
  | succ k ih =>
    intro fuel v hfuel hv hfull hchunk hk
    cases fuel with
    | zero => exact absurd hfuel (Nat.not_lt_zero _)
    | succ fuel =>
      have hread : Mem.read (v.buffer_len - v.rec_)
          (ReadResult.data (List.replicate chunk a)
            :: (List.replicate k (ReadResult.data (List.replicate chunk a)) ++ tail))
          = (ReadResult.data (List.replicate chunk a),
              List.replicate k (ReadResult.data (List.replicate chunk a)) ++ tail) := by
        have : (List.replicate chunk a).length ≤ v.buffer_len - v.rec_ := by
          rw [List.length_replicate]
          omega
        simp only [Mem.read, this, if_true]
      have hlen : (List.replicate chunk a).length = chunk := List.length_replicate _ _
      rw [List.replicate_succ, List.cons_append, Mem.get_buffer_loop, hread]
      dsimp only
      rw [if_neg (by omega)]
      rcases mem_store_sound chunk v (List.replicate chunk a) hv (by omega) (by omega) with
        hs | ⟨v', hs, hv', hrec⟩
      · rw [hs]
      · rw [hs]
        have hbl : v'.buffer_len = v.buffer_len + chunk := by
          unfold Mem.store at hs
          rw [if_neg (by have := hv.2.1; omega)] at hs
          dsimp only at hs
          rw [if_neg (by have := hv.2.2.2.1; omega), if_pos (by omega)] at hs
          by_cases hov : v.buffer_len + chunk > INT_MAX
          · rw [if_pos hov] at hs
            simp at hs
          · rw [if_neg hov] at hs
            simp only [Except.ok.injEq] at hs
            rw [← hs]
        exact ih fuel v' (by omega) hv' (by omega) hchunk (by
          rw [hbl]
          have : (k + 1) * chunk = chunk + k * chunk := by
            rw [Nat.succ_mul, Nat.add_comm]
          omega)

/-- C26: `get_buffer`, run against any pipe with any chunk size, ends by
itself and never writes outside the buffer it allocated; and whenever it
hands back a buffer, the length `rec` it reports is at least 1, within `int`,
and below the size of the buffer as last allocated (`STDIN_CHUNK_SIZE + 1` by
`smalloc`, `buffer_len` by each `srealloc`).  So the bytes at `rec - 1` and at
`rec`, which `read_flat_input` reads and writes, lie inside the buffer. -/
theorem C26_index_safety (env : Env) (s : State) :
    (Mem.get_buffer env s).1 ≠ Mem.Outcome.out_of_fuel
    ∧ (Mem.get_buffer env s).1 ≠ Mem.Outcome.bad_access
    ∧ ∀ bytes rec_, (Mem.get_buffer env s).1 = Mem.Outcome.buffer bytes rec_ →
        1 ≤ rec_ ∧ rec_ < bytes.length ∧ rec_ - 1 < bytes.length ∧ rec_ ≤ INT_MAX := by
  unfold Mem.get_buffer
  dsimp only
  by_cases hint : env.STDIN_CHUNK_SIZE + 1 > INT_MAX
  · rw [if_pos hint]
    exact ⟨by simp, by simp, fun _ _ h => by simp at h⟩
  · rw [if_neg hint]
    obtain ⟨f1, f2, f3⟩ := mem_loop_safe env.STDIN_CHUNK_SIZE (Mem.pipe_size s.stdin_pipe + 1)
      s.stdin_pipe _ (Nat.lt_succ_self _) (mem_initial_sound env.STDIN_CHUNK_SIZE hint)
    refine ⟨f1, f2, ?_⟩
    intro bytes rec_ h
    obtain ⟨g1, g2, g3⟩ := f3 bytes rec_ h
    exact ⟨g1, g2, by omega, g3⟩

theorem C26_index_safety_witness :
    (Mem.get_buffer small_chunk_env chunked_reads_state).1
        = Mem.Outcome.buffer ("abcdefghijkl".data.map some ++ [none, none, none, none]) 12
    ∧ (1 ≤ 12
      ∧ 12 < ("abcdefghijkl".data.map some ++ [none, none, none, none]).length
      ∧ 12 - 1 < ("abcdefghijkl".data.map some ++ [none, none, none, none]).length
      ∧ 12 ≤ INT_MAX) :=
  ⟨by decide,
    (C26_index_safety small_chunk_env chunked_reads_state).2.2
      ("abcdefghijkl".data.map some ++ [none, none, none, none]) 12 (by decide)⟩

theorem mem_get_buffer_overflow (env : Env) (s : State) (a : Char) (k : Nat)
    (tail : List ReadResult)
    (hpipe : s.stdin_pipe
      = List.replicate k (ReadResult.data (List.replicate env.STDIN_CHUNK_SIZE a)) ++ tail)
    (hchunk : 0 < env.STDIN_CHUNK_SIZE)
    (hint : ¬ (env.STDIN_CHUNK_SIZE + 1 > INT_MAX))
    (hk : env.STDIN_CHUNK_SIZE + k * env.STDIN_CHUNK_SIZE > INT_MAX) :
    (Mem.get_buffer env s).1 = Mem.Outcome.overflow := by
  unfold Mem.get_buffer
  dsimp only
  rw [if_neg hint, hpipe]
  exact mem_loop_overflow env.STDIN_CHUNK_SIZE a tail k _ _
    (Nat.lt_succ_of_le (mem_pipe_size_replicate _ _ _))
    (mem_initial_sound env.STDIN_CHUNK_SIZE hint) (Nat.zero_add _) hchunk hk

/-- C25 fails as stated for totals near `INT_MAX`: `rec` and `buffer_len` are
`int`.  With chunks of 1024 bytes, 2097151 reads that each return 1024 bytes
of `a` - none longer than the space asked for, the first byte not NUL, the
next `read` blocking - amount to 2147482624 bytes, which `rec` can still
count; but when the last of them has filled the buffer,
`buffer_len += STDIN_CHUNK_SIZE` leaves the range of `int`, and no buffer is
handed back. -/
theorem C25_counterexample :
    (Mem.get_buffer example_env (flood_state example_env 2097151)).1 = Mem.Outcome.overflow
    ∧ example_env.STDIN_CHUNK_SIZE = 1024
    ∧ 2097151 * 1024 ≤ INT_MAX
    ∧ 2097151 * 1024 + 1024 > INT_MAX
    ∧ 'a' ≠ NUL := by
  exact ⟨mem_get_buffer_overflow example_env (flood_state example_env 2097151) 'a' 2097151
    [ReadResult.eagain] rfl (by decide) (by decide) (by decide), rfl, by decide, by decide,
    by decide⟩

theorem head_of_take {α : Type} (l : List α) (n : Nat) (x : α) (t : List α)
    (h : l.take n = x :: t) : l.head? = some x := by
  cases l with
  | nil => simp at h
  | cons y ys =>
    cases n with
    | zero => simp at h
    | succ m =>
      simp only [List.take_succ_cons, List.cons.injEq] at h
      rw [List.head?_cons, h.1]

/-- C25, as the code has it: when what `read` finds in the pipe during one
`get_buffer` call are the chunks `c1, .., cn`, none empty and the first byte
of `c1` not NUL, before a `read` would block, and the total length plus
`STDIN_CHUNK_SIZE` is within `int`, then `get_buffer` hands back a buffer
whose first `rec` bytes are `c1 ++ .. ++ cn` - every byte once, in the order
of arrival - with `rec` the total length, however many reads it takes to fetch
them.  The buffer handed back is the one of `smalloc`,
`STDIN_CHUNK_SIZE + 1` bytes, when the total is below the chunk size, and else
has as many bytes as the least multiple of `STDIN_CHUNK_SIZE` above the total:
it has grown by one chunk each time it was full.  These are the bytes that the
callbacks of the read watcher are given. -/
theorem C25_arrival_order (env : Env) (s : State) (first : Char) (tail : List Char)
    (cs : List (List Char)) (rest : List ReadResult)
    (hfirst : first ≠ NUL)
    (hne : ∀ c ∈ cs, c ≠ [])
    (hpipe : s.stdin_pipe
      = ((first :: tail) :: cs).map ReadResult.data ++ ReadResult.eagain :: rest)
    (hchunk : 0 < env.STDIN_CHUNK_SIZE)
    (hint : ((first :: tail) :: cs).flatten.length + env.STDIN_CHUNK_SIZE ≤ INT_MAX) :
    ∃ bytes,
      Mem.get_buffer env s
        = (Mem.Outcome.buffer bytes ((first :: tail) :: cs).flatten.length,
            { s with stdin_pipe := rest })
      ∧ bytes.take ((first :: tail) :: cs).flatten.length
          = ((first :: tail) :: cs).flatten.map some
      ∧ bytes.length
          = (if ((first :: tail) :: cs).flatten.length < env.STDIN_CHUNK_SIZE then
              env.STDIN_CHUNK_SIZE + 1
            else env.STDIN_CHUNK_SIZE
              * (((first :: tail) :: cs).flatten.length / env.STDIN_CHUNK_SIZE + 1))
      ∧ ((first :: tail) :: cs).flatten.length < bytes.length
      ∧ get_buffer env s
          = some ({ s with stdin_pipe := rest },
              { buffer := some ((first :: tail) :: cs).flatten,
                ret_buffer_len := ((((first :: tail) :: cs).flatten.length : Nat) : Int) }) := by
  have hall : ∀ c ∈ (first :: tail) :: cs, c ≠ [] := by
    intro c hc
    rcases List.mem_cons.mp hc with h | h
    · rw [h]
      exact List.cons_ne_nil _ _
    · exact hne c h
  have hfl : ((first :: tail) :: cs).flatten = first :: (tail ++ cs.flatten) := by
    rw [List.flatten_cons, List.cons_append]
  have hpos : 1 ≤ ((first :: tail) :: cs).flatten.length := by
    rw [hfl, List.length_cons]
    omega
  have hint' : ¬ (env.STDIN_CHUNK_SIZE + 1 > INT_MAX) := by omega
  obtain ⟨n, hn⟩ := get_buffer_loop_reads env.STDIN_CHUNK_SIZE (ReadResult.eagain :: rest)
    ((first :: tail) :: cs) [] env.STDIN_CHUNK_SIZE hall
  have hget : get_buffer env s
      = some ({ s with stdin_pipe := rest },
          { buffer := some ((first :: tail) :: cs).flatten,
            ret_buffer_len := ((((first :: tail) :: cs).flatten.length : Nat) : Int) }) := by
    unfold get_buffer
    rw [hpipe, hn, List.nil_append, hfl]
    simp only [get_buffer_loop, get_buffer_finish, hfirst, if_false]
  obtain ⟨v', hloop, hv'⟩ := mem_loop_reads env.STDIN_CHUNK_SIZE rest hchunk
    (Mem.pipe_size (((first :: tail) :: cs).map ReadResult.data ++ ReadResult.eagain :: rest) + 1)
    ((first :: tail) :: cs) _ [] (Nat.lt_succ_self _) hall
    (mem_initial_holds env.STDIN_CHUNK_SIZE hchunk hint') (by
      show 0 + _ + _ ≤ INT_MAX
      omega)
  rw [List.nil_append] at hv'
  obtain ⟨hs, k1, k2, k3, k4, k5, k6⟩ := hv'
  have hhead : v'.buffer.head? = some (some first) := by
    rw [k1, hfl, List.map_cons] at k2
    exact head_of_take _ _ _ _ k2
  have hfin : Mem.get_buffer_finish v' = Mem.Outcome.buffer v'.buffer v'.rec_ := by
    unfold Mem.get_buffer_finish
    rw [hhead]
    dsimp only
    rw [if_neg hfirst]
  have hbl : v'.buffer_len = env.STDIN_CHUNK_SIZE * (v'.rec_ / env.STDIN_CHUNK_SIZE + 1) := by
    apply least_multiple_above _ _ _ _ k3 k4
    rcases hs.1 with h | h
    · exact h.2
    · omega
  refine ⟨v'.buffer, ?_, ?_, ?_, ?_, hget⟩
  · unfold Mem.get_buffer
    dsimp only
    rw [if_neg hint', hpipe, hloop, hfin, k1]
  · rw [← k1]
    exact k2
  · rw [k6, ← k1]
    by_cases hr : v'.rec_ < env.STDIN_CHUNK_SIZE
    · rw [if_pos hr, if_pos hr]
    · rw [if_neg hr, if_neg hr]
      exact hbl
  · rw [← k1]
    exact hs.2.2.1

theorem C25_arrival_order_witness :
    ∃ bytes,
      Mem.get_buffer small_chunk_env chunked_reads_state
        = (Mem.Outcome.buffer bytes 12, { chunked_reads_state with stdin_pipe := [] })
      ∧ bytes.take 12 = "abcdefghijkl".data.map some
      ∧ bytes.length = 16 := by
  obtain ⟨bytes, h1, h2, h3, -⟩ := C25_arrival_order small_chunk_env chunked_reads_state 'a'
    "bcd".data ["ef".data, "gh".data, "ijkl".data] [] (by decide) (by decide) (by decide)
    (by decide) (by decide)
  exact ⟨bytes, h1, h2, h3⟩

/-! ### Signals and the presence of a child -/

theorem keeps_or_clears_refl (s : State) : keeps_or_clears s s := Or.inl rfl

theorem keeps_or_clears_trans (s t r : State) (h1 : keeps_or_clears s t)
    (h2 : keeps_or_clears t r) : keeps_or_clears s r := by
  rcases h2 with h2 | h2
  · rcases h1 with h1 | h1
    · exact Or.inl (h2.trans h1)
    · exact Or.inr (h2.trans h1)
  · exact Or.inr h2

theorem child_inv_of_step (s r : State) (hs : child_inv s) (h : keeps_or_clears s r) :
    child_inv r := by
  unfold keeps_or_clears guard_view at h
  unfold child_inv at hs ⊢
  rcases h with h | h
  · simp only [Prod.mk.injEq] at h
    obtain ⟨h1, h2, h3, h4⟩ := h
    rw [h1, h2, h3, h4]
    exact hs
  · simp only [Prod.mk.injEq] at h
    obtain ⟨h1, h2, h3, h4⟩ := h
    rw [h1, h2, h3, h4]
    exact ⟨fun h => absurd h (by decide), fun _ => ⟨rfl, rfl⟩⟩

theorem guard_view_cleanup (s : State) : guard_view (cleanup s) = (0, 0, 0, false) := by
  unfold cleanup guard_view
  cases h1 : s.stdin_io.isSome <;> cases h2 : s.child_sig <;> simp [emit, h1, h2, zero_child]

theorem guard_view_kill_child (s : State) : keeps_or_clears s (kill_child s) := by
  unfold kill_child
  by_cases hp : s.child.pid > 0
  · rw [if_pos hp]
    exact Or.inr (guard_view_cleanup _)
  · rw [if_neg hp]
    exact Or.inl rfl

theorem guard_view_set_statusline_error (s : State) (message : Option String) :
    guard_view (set_statusline_error s message) = guard_view s := by
  cases message <;> rfl

theorem guard_view_writeall (s : State) (fd : Int) (out : Output) :
    guard_view (writeall s fd out).1 = guard_view s := by
  unfold writeall
  cases s.writeall_results <;> rfl

theorem guard_view_child_write_output (s : State) :
    keeps_or_clears s (child_write_output s) := by
  unfold child_write_output
  by_cases hc : s.child.click_events = true
  · rw [if_pos hc]
    dsimp only
    have h1 := guard_view_writeall s s.child_stdin (Output.json s.gen)
    generalize writeall s s.child_stdin (Output.json s.gen) = r1 at h1
    have h2 : guard_view (if r1.2 = true then writeall r1.1 r1.1.child_stdin (Output.text "\n")
        else r1).1 = guard_view s := by
      split
      · rw [guard_view_writeall]
        exact h1
      · exact h1
    generalize (if r1.2 = true then writeall r1.1 r1.1.child_stdin (Output.text "\n")
        else r1) = r2 at h2
    split
    · apply keeps_or_clears_trans s
        { r2.1 with gen := [], child := { r2.1.child with click_events := false } }
      · exact Or.inl h2
      · apply keeps_or_clears_trans _ _ _ (guard_view_kill_child _)
        exact Or.inl (guard_view_set_statusline_error _ _)
    · exact Or.inl h2
  · rw [if_neg hc]
    exact Or.inl rfl

theorem guard_view_click_events_init (s : State) :
    keeps_or_clears s ( child_click_events_initialize s) := by
  unfold child_click_events_initialize
  split
  · apply keeps_or_clears_trans s (child_write_output (yajl_gen s GenCall.array_open))
    · exact keeps_or_clears_trans s (yajl_gen s GenCall.array_open) _ (Or.inl rfl)
        (guard_view_child_write_output _)
    · rcases keeps_or_clears_refl (child_write_output (yajl_gen s GenCall.array_open)) with h | h
      · exact Or.inl rfl
      · exact Or.inl rfl
  · exact Or.inl rfl

theorem guard_view_send_block_clicked (s : State) (button : Int) (name instance_ : Option String)
    (x y x_rel y_rel out_x out_y width height mods : Int) :
    keeps_or_clears s
      (send_block_clicked s button name instance_ x y x_rel y_rel out_x out_y width height
        mods) := by
  by_cases hc : s.child.click_events = true
  · rw [send_block_clicked_eq s button name instance_ x y x_rel y_rel out_x out_y width height
      mods hc]
    apply keeps_or_clears_trans s _ _ _ (guard_view_child_write_output _)
    exact keeps_or_clears_trans s _ _ (guard_view_click_events_init s) (Or.inl rfl)
  · unfold send_block_clicked
    rw [if_pos (by simp [hc])]
    exact Or.inl rfl

theorem guard_view_callback (env : Env) (s : State) (e : Event) :
    guard_view (callback env s e).1 = guard_view s := by
  by_cases h1 : e = Event.start_array
  · subst h1; rfl
  · by_cases h2 : e = Event.end_array
    · subst h2; rfl
    · by_cases h3 : e = Event.end_map
      · subst h3
        show guard_view (stdin_end_map env s).1 = _
        unfold stdin_end_map
        dsimp only
        split <;> rfl
      · obtain ⟨b, k, hc⟩ := callback_inner env s e h1 h2 h3
        rw [hc]
        rfl

theorem guard_view_deliver (env : Env) :
    ∀ (events : List Event) (s : State), guard_view (deliver env s events).1 = guard_view s := by
  intro events
  induction events with
  | nil => intro s; rfl
  | cons e rest ih =>
    intro s
    rw [deliver_cons]
    split
    · exact guard_view_callback env s e
    · exact (ih _).trans (guard_view_callback env s e)

theorem guard_view_read_json_input (env : Env) (s : State) (input : ParserRun) :
    guard_view (read_json_input env s input).1 = guard_view s := by
  have hy : guard_view (yajl_parse env s input).1 = guard_view s := by
    unfold yajl_parse
    dsimp only
    split
    · exact guard_view_deliver env _ s
    · split <;> exact guard_view_deliver env _ s
  unfold read_json_input
  dsimp only
  generalize yajl_parse env s input = r at hy
  split
  · show guard_view (set_statusline_error r.1 _) = _
    rw [guard_view_set_statusline_error]
    exact hy
  · split <;> exact hy

theorem guard_view_get_buffer (env : Env) (s r : State) (b : Buffer)
    (h : get_buffer env s = some (r, b)) : guard_view r = guard_view s := by
  unfold get_buffer at h
  split at h
  · exact absurd h (by simp)
  · simp only [Option.some.injEq, Prod.mk.injEq] at h
    rw [← h.1]
    rfl

theorem guard_view_read_flat_input (s r : State) (buffer : List Char)
    (h : read_flat_input s buffer = some r) : guard_view r = guard_view s := by
  unfold read_flat_input at h
  split at h
  · exact absurd h (by simp)
  · simp only [Option.some.injEq] at h
    rw [← h]
    rfl

theorem guard_view_stdin_io_cb (env : Env) (s r : State) (h : stdin_io_cb env s = some r) :
    guard_view r = guard_view s := by
  unfold stdin_io_cb at h
  split at h
  · exact absurd h (by simp)
  · rename_i t b hg
    have hb := guard_view_get_buffer env s t b hg
    split at h
    · simp only [Option.some.injEq] at h
      rw [← h]
      exact hb
    · split at h
      · simp only [Option.some.injEq] at h
        rw [← h]
        show guard_view (read_json_input env _ _).1 = _
        rw [guard_view_read_json_input]
        exact hb
      · rename_i buffer _ _
        cases hf : read_flat_input t buffer with
        | none => rw [hf] at h; exact absurd h (by simp)
        | some u =>
          rw [hf] at h
          simp only [Option.map_some', Option.some.injEq] at h
          rw [← h]
          exact (guard_view_read_flat_input t u buffer hf).trans hb

theorem guard_view_stop_child (s : State) : guard_view (stop_child s) = guard_view s := by
  unfold stop_child
  split <;> rfl

theorem guard_view_cont_child (s : State) : guard_view (cont_child s) = guard_view s := by
  unfold cont_child
  split <;> rfl

theorem guard_view_kill_child_at_exit (s : State) :
    guard_view (kill_child_at_exit s) = guard_view s := by
  unfold kill_child_at_exit
  split
  · dsimp only
    split <;> rfl
  · rfl

theorem guard_view_child_sig_cb (s : State) (rstatus : Nat) :
    guard_view (child_sig_cb s rstatus) = (0, 0, 0, false) := by
  unfold child_sig_cb
  exact guard_view_cleanup _

theorem child_inv_start_child (s : State) (command : Option String)
    (pid pipe_in_0 pipe_in_1 pipe_out_0 pipe_out_1 : Int) (pipe : List ReadResult)
    (hs : child_inv s) (hp : command = none ∨ 0 < pid) :
    child_inv (start_child s command pid pipe_in_0 pipe_in_1 pipe_out_0 pipe_out_1 pipe) := by
  cases command with
  | none => exact hs
  | some c =>
    have hpid : 0 < pid := by
      rcases hp with h | h
      · exact absurd h (by simp)
      · exact h
    have e : (start_child s (some c) pid pipe_in_0 pipe_in_1 pipe_out_0 pipe_out_1 pipe).child.pid
        = pid := rfl
    unfold child_inv
    rw [e]
    exact ⟨fun _ => hpid, fun h => absurd h (by omega)⟩

theorem child_inv_of_pid (s : State) (h : 0 < s.child.pid) : child_inv s :=
  ⟨fun _ => h, fun h0 => absurd h0 (by omega)⟩

theorem guard_view_pid (s r : State) (h : guard_view r = guard_view s) :
    r.child.pid = s.child.pid :=
  congrArg Prod.fst h

theorem pid_first_line_cb (env : Env) (s r : State) (hk : header_keeps_pid env)
    (h : stdin_io_first_line_cb env s = some r) : r.child.pid = s.child.pid := by
  unfold stdin_io_first_line_cb at h
  split at h
  · exact absurd h (by simp)
  · rename_i t b hg
    have hb := guard_view_pid _ _ (guard_view_get_buffer env s t b hg)
    split at h
    · simp only [Option.some.injEq] at h
      rw [← h]
      exact hb
    · rename_i buffer _
      have hh : (env.parse_json_header t.child buffer).1.pid = s.child.pid :=
        (hk t.child buffer).trans hb
      simp only [Option.map_eq_some'] at h
      obtain ⟨w, hw, hr⟩ := h
      rw [← hr]
      show w.child.pid = _
      split at hw
      · simp only [Option.some.injEq] at hw
        rw [← hw]
        show (read_json_input env _ _).1.child.pid = _
        rw [guard_view_pid _ _ (guard_view_read_json_input env _ _)]
        show (if env.hide_on_modifier = true then stop_child _ else _).child.pid = _
        split
        · rw [guard_view_pid _ _ (guard_view_stop_child _)]
          exact hh
        · exact hh
      · rw [guard_view_pid _ _ (guard_view_read_flat_input _ w buffer hw)]
        exact hh

theorem child_inv_step (env : Env) (hk : header_keeps_pid env) (s r : State) (a : Action)
    (hs : child_inv s) (h : step env s a = some r) : child_inv r := by
  cases a with
  | start_child command pid pipe_in_0 pipe_in_1 pipe_out_0 pipe_out_1 pipe =>
    simp only [step] at h
    split at h
    · rename_i hp
      simp only [Option.some.injEq] at h
      rw [← h]
      exact child_inv_start_child s command pid pipe_in_0 pipe_in_1 pipe_out_0 pipe_out_1 pipe
        hs hp
    · exact absurd h (by simp)
  | stdin_ready =>
    simp only [step] at h
    split at h
    · rename_i hio
      have hp : 0 < s.child.pid := hs.1 (by rw [hio]; rfl)
      apply child_inv_of_pid
      rw [pid_first_line_cb env s r hk h]
      exact hp
    · exact child_inv_of_step s r hs (Or.inl (guard_view_stdin_io_cb env s r h))
    · exact absurd h (by simp)
  | child_exited rstatus =>
    simp only [step] at h
    split at h
    · simp only [Option.some.injEq] at h
      rw [← h]
      exact child_inv_of_step s _ hs (Or.inr (guard_view_child_sig_cb s rstatus))
    · exact absurd h (by simp)
  | send_block_clicked button name instance_ x y x_rel y_rel out_x out_y width height mods =>
    simp only [step, Option.some.injEq] at h
    rw [← h]
    exact child_inv_of_step s _ hs (guard_view_send_block_clicked s button name instance_ x y
      x_rel y_rel out_x out_y width height mods)
  | kill_child =>
    simp only [step, Option.some.injEq] at h
    rw [← h]
    exact child_inv_of_step s _ hs (guard_view_kill_child s)
  | kill_child_at_exit =>
    simp only [step, Option.some.injEq] at h
    rw [← h]
    exact child_inv_of_step s _ hs (Or.inl (guard_view_kill_child_at_exit s))
  | stop_child =>
    simp only [step, Option.some.injEq] at h
    rw [← h]
    exact child_inv_of_step s _ hs (Or.inl (guard_view_stop_child s))
  | cont_child =>
    simp only [step, Option.some.injEq] at h
    rw [← h]
    exact child_inv_of_step s _ hs (Or.inl (guard_view_cont_child s))
  | clear_statusline free_resources =>
    simp only [step, Option.some.injEq] at h
    rw [← h]
    exact hs
  | pipe_filled pipe =>
    simp only [step, Option.some.injEq] at h
    rw [← h]
    exact hs
  | writes_settled results =>
    simp only [step, Option.some.injEq] at h
    rw [← h]
    exact hs

theorem child_inv_run (env : Env) (hk : header_keeps_pid env) :
    ∀ (actions : List Action) (s r : State), child_inv s → run env s actions = some r →
      child_inv r := by
  intro actions
  induction actions with
  | nil =>
    intro s r hs h
    simp only [run, Option.some.injEq] at h
    rw [← h]
    exact hs
  | cons a rest ih =>
    intro s r hs h
    unfold run at h
    split at h
    · exact absurd h (by simp)
    · rename_i t ht
      exact ih t r (child_inv_step env hk s t a hs ht) h

theorem child_inv_initial : child_inv initial_state :=
  ⟨fun h => absurd h (by decide), fun _ => ⟨rfl, rfl⟩⟩

theorem header_keeps_pid_signal_env : header_keeps_pid signal_env := fun _ _ => rfl

/-- C24: in every state the functions of `child.cpp` lead to from the initial
state in which no child is present (pid = 0 in the child record), `stop_child`
and `cont_child` send no signal: they make no outside call at all and leave
the state as it is. -/
theorem C24_no_signal_without_child (env : Env) (actions : List Action) (s : State)
    (hk : header_keeps_pid env) (hrun : run env initial_state actions = some s)
    (hpid : s.child.pid = 0) :
    stop_child s = s ∧ cont_child s = s
    ∧ (stop_child s).trace = s.trace ∧ (cont_child s).trace = s.trace
    ∧ (∀ g sig, Effect.killpg g sig ∈ (stop_child s).trace → Effect.killpg g sig ∈ s.trace)
    ∧ (∀ g sig, Effect.killpg g sig ∈ (cont_child s).trace → Effect.killpg g sig ∈ s.trace) := by
  have hi := child_inv_run env hk actions initial_state s child_inv_initial hrun
  obtain ⟨h1, h2⟩ := hi.2 hpid
  have e1 : stop_child s = s := by
    unfold stop_child
    rw [if_neg (by rw [h1]; simp)]
  have e2 : cont_child s = s := by
    unfold cont_child
    rw [if_neg (by rw [h2]; simp)]
  refine ⟨e1, e2, by rw [e1], by rw [e2], ?_, ?_⟩
  · intro g sig h
    rw [e1] at h
    exact h
  · intro g sig h
    rw [e2] at h
    exact h

theorem C24_no_signal_without_child_witness :
    header_keeps_pid signal_env
    ∧ (run signal_env initial_state (stopped_child_run.take 3)).map
        (fun s => (s.child.pid, s.child.stop_signal, s.child.stopped, s.trace.getLast?))
      = some (7, 19, true, some (Effect.killpg 7 19))
    ∧ run signal_env initial_state stopped_child_run = some stopped_child_end
    ∧ stopped_child_end.child.pid = 0
    ∧ stop_child stopped_child_end = stopped_child_end
    ∧ cont_child stopped_child_end = stopped_child_end :=
  ⟨header_keeps_pid_signal_env, by decide, by decide, by decide,
    (C24_no_signal_without_child signal_env stopped_child_run stopped_child_end
      header_keeps_pid_signal_env (by decide) (by decide)).1,
    (C24_no_signal_without_child signal_env stopped_child_run stopped_child_end
      header_keeps_pid_signal_env (by decide) (by decide)).2.1⟩

/-! ### The statuslines at the level of the machine -/

theorem mem_keeps_refl (n : Nat) (A : Nat → Prop) (h : Mem.Heap) : Mem.keeps n A h h :=
  ⟨le_refl _, fun _ _ => ⟨rfl, fun _ => rfl⟩⟩

theorem mem_keeps_trans (n : Nat) (A : Nat → Prop) (h1 h2 h3 : Mem.Heap)
    (a : Mem.keeps n A h1 h2) (b : Mem.keeps n A h2 h3) : Mem.keeps n A h1 h3 :=
  ⟨le_trans a.1 b.1, fun p hp =>
    ⟨((b.2 p hp).1).trans ((a.2 p hp).1), fun hA => ((b.2 p hp).2 hA).trans ((a.2 p hp).2 hA)⟩⟩

theorem mem_keeps_undefined (n : Nat) (A : Nat → Prop) (h : Mem.Heap) :
    Mem.keeps n A h { h with undefined := true } :=
  ⟨le_refl _, fun _ _ => ⟨rfl, fun _ => rfl⟩⟩

theorem mem_keeps_alloc (n : Nat) (A : Nat → Prop) (h : Mem.Heap) (o : Mem.Obj)
    (hn : n ≤ h.objs.length) : Mem.keeps n A h (Mem.alloc h o).1 := by
  refine ⟨by simp [Mem.alloc], fun p hp => ?_⟩
  have e : (Mem.alloc h o).1.objs[p]? = h.objs[p]? := by
    show (h.objs ++ [o])[p]? = h.objs[p]?
    exact List.getElem?_append_left (by omega)
  exact ⟨by rw [e], fun _ => e⟩

theorem mem_keeps_set_markup (n : Nat) (A : Nat → Prop) (h : Mem.Heap) (q : Nat) (m : Bool)
    (hq : q < n → A q) : Mem.keeps n A h (Mem.i3string_set_markup h q m) := by
  unfold Mem.i3string_set_markup
  split
  · rename_i utf8 old hobj
    refine ⟨by simp, fun p hp => ?_⟩
    by_cases hpq : p = q
    · subst hpq
      have hlt : p < h.objs.length := by
        by_contra hge
        rw [List.getElem?_eq_none (by omega)] at hobj
        exact absurd hobj (by simp)
      refine ⟨?_, fun hA => absurd (hq hp) hA⟩
      show ((h.objs.set p (Mem.Obj.i3string utf8 m))[p]?).map Mem.Obj.bare = _
      rw [List.getElem?_set_self hlt, hobj]
      rfl
    · have e : (h.objs.set q (Mem.Obj.i3string utf8 m))[p]? = h.objs[p]? :=
        List.getElem?_set_ne (fun hh => hpq hh.symm)
      exact ⟨by show ((h.objs.set q _)[p]?).map _ = _; rw [e], fun _ => e⟩
  · exact mem_keeps_undefined n A h

theorem mem_keeps_free (n : Nat) (A : Nat → Prop) (h : Mem.Heap) (q : Nat) (hq : n ≤ q) :
    Mem.keeps n A h (Mem.free h q) := by
  unfold Mem.free
  split
  · exact mem_keeps_undefined n A h
  · exact mem_keeps_undefined n A h
  · refine ⟨by simp, fun p hp => ?_⟩
    have e : (h.objs.set q Mem.Obj.freed)[p]? = h.objs[p]? :=
      List.getElem?_set_ne (by omega)
    exact ⟨by show ((h.objs.set q _)[p]?).map _ = _; rw [e], fun _ => e⟩

theorem mem_ensure_full_text_spec (n : Nat) (A : Nat → Prop) (h : Mem.Heap)
    (b : Mem.status_block) (hn : n ≤ h.objs.length) :
    Mem.keeps n A h (Mem.ensure_full_text h b).1
    ∧ ((Mem.ensure_full_text h b).2.full_text = b.full_text
        ∨ ∃ q, n ≤ q ∧ (Mem.ensure_full_text h b).2.full_text = some q)
    ∧ (Mem.ensure_full_text h b).2.short_text = b.short_text
    ∧ (Mem.ensure_full_text h b).2.urgent = b.urgent := by
  unfold Mem.ensure_full_text
  split
  · exact ⟨mem_keeps_alloc n A h _ hn, Or.inr ⟨h.objs.length, hn, rfl⟩, rfl, rfl⟩
  · exact ⟨mem_keeps_refl n A h, Or.inl rfl, rfl, rfl⟩

theorem mem_measure_min_width_spec (env : Env) (n : Nat) (A : Nat → Prop) (h : Mem.Heap)
    (b : Mem.status_block) (hn : n ≤ h.objs.length) :
    Mem.keeps n A h (Mem.measure_min_width env h b).1
    ∧ (Mem.measure_min_width env h b).2.full_text = b.full_text
    ∧ (Mem.measure_min_width env h b).2.short_text = b.short_text := by
  unfold Mem.measure_min_width
  split
  · split
    · rename_i str _
      dsimp only
      refine ⟨?_, ?_, ?_⟩
      · have k1 := mem_keeps_alloc n A h (Mem.Obj.i3string str false) hn
        have k2 := mem_keeps_set_markup n A (Mem.i3string_from_utf8 h str).1
          (Mem.i3string_from_utf8 h str).2 b.pango_markup
          (fun hlt => absurd hlt (by show ¬ h.objs.length < n; omega))
        have k3 := mem_keeps_free n A
          (Mem.i3string_set_markup (Mem.i3string_from_utf8 h str).1
            (Mem.i3string_from_utf8 h str).2 b.pango_markup)
          (Mem.i3string_from_utf8 h str).2 (by show n ≤ h.objs.length; exact hn)
        exact mem_keeps_trans n A _ _ _ (mem_keeps_trans n A _ _ _ k1 k2) k3
      · split <;> rfl
      · split <;> rfl
    · exact ⟨mem_keeps_undefined n A h, rfl, rfl⟩
  · exact ⟨mem_keeps_refl n A h, rfl, rfl⟩

theorem mem_apply_markup_keeps (n : Nat) (A : Nat → Prop) (h : Mem.Heap) (b : Mem.status_block)
    (hf : ∀ q, b.full_text = some q → q < n → A q)
    (hs : ∀ q, b.short_text = some q → q < n → A q) :
    Mem.keeps n A h (Mem.apply_markup h b) := by
  unfold Mem.apply_markup
  have k1 : Mem.keeps n A h
      (match b.full_text with
        | some full_text => Mem.i3string_set_markup h full_text b.pango_markup
        | none => { h with undefined := true }) := by
    split
    · rename_i q hq
      exact mem_keeps_set_markup n A h q _ (hf q hq)
    · exact mem_keeps_undefined n A h
  dsimp only
  split
  · rename_i q hq
    exact mem_keeps_trans n A _ _ _ k1 (mem_keeps_set_markup n A _ q _ (hs q hq))
  · exact k1

/-- What `stdin_end_map` does to the store: one block record, whose texts are
those of the block under construction unless `full_text` was missing, goes to
the tail of staging; of the objects that existed before, only the markup flag
of the `full_text` and the `short_text` of the block under construction can
change. -/
theorem mem_stdin_end_map_spec (env : Env) (s : Mem.Store) :
    (Mem.stdin_end_map env s).1.statusline_head = s.statusline_head
    ∧ (∃ new_block,
        (Mem.stdin_end_map env s).1.statusline_buffer = s.statusline_buffer ++ [new_block])
    ∧ (Mem.stdin_end_map env s).1.parser_context.block = s.parser_context.block
    ∧ (Mem.stdin_end_map env s).1.parser_context.last_map_key = s.parser_context.last_map_key
    ∧ (Mem.stdin_end_map env s).2 = 1
    ∧ Mem.keeps s.heap.objs.length
        (fun p => s.parser_context.block.full_text = some p
          ∨ s.parser_context.block.short_text = some p)
        s.heap (Mem.stdin_end_map env s).1.heap := by
  obtain ⟨e1, e2, e3, e4⟩ := mem_ensure_full_text_spec s.heap.objs.length
    (fun p => s.parser_context.block.full_text = some p
      ∨ s.parser_context.block.short_text = some p) s.heap s.parser_context.block (le_refl _)
  obtain ⟨m1, m2, m3⟩ := mem_measure_min_width_spec env s.heap.objs.length
    (fun p => s.parser_context.block.full_text = some p
      ∨ s.parser_context.block.short_text = some p)
    (Mem.ensure_full_text s.heap s.parser_context.block).1
    (Mem.ensure_full_text s.heap s.parser_context.block).2 (e1.1)
  have a1 := mem_apply_markup_keeps s.heap.objs.length
    (fun p => s.parser_context.block.full_text = some p
      ∨ s.parser_context.block.short_text = some p)
    (Mem.measure_min_width env (Mem.ensure_full_text s.heap s.parser_context.block).1
      (Mem.ensure_full_text s.heap s.parser_context.block).2).1
    (Mem.measure_min_width env (Mem.ensure_full_text s.heap s.parser_context.block).1
      (Mem.ensure_full_text s.heap s.parser_context.block).2).2
    (by
      intro q hq hlt
      rw [m2] at hq
      rcases e2 with e2 | ⟨q2, hq2, e2⟩
      · rw [e2] at hq
        exact Or.inl hq
      · rw [e2] at hq
        have : q2 = q := Option.some.inj hq
        omega)
    (by
      intro q hq hlt
      rw [m3, e3] at hq
      exact Or.inr hq)
  unfold Mem.stdin_end_map
  dsimp only
  refine ⟨?_, ?_, ?_, ?_, rfl, ?_⟩
  · split <;> rfl
  · split <;> exact ⟨_, rfl⟩
  · split <;> rfl
  · split <;> rfl
  · exact mem_keeps_trans _ _ _ _ _ (mem_keeps_trans _ _ _ _ _ e1 m1) a1

theorem mem_clear_statusline_keep (h : Mem.Heap) (l : List Mem.status_block) :
    Mem.clear_statusline h l false = (h, []) := by
  induction l with
  | nil => rfl
  | cons b rest ih => simpa [Mem.clear_statusline] using ih

theorem mem_clear_statusline_nil (l : List Mem.status_block) (f : Bool) :
    ∀ h : Mem.Heap, (Mem.clear_statusline h l f).2 = [] := by
  induction l with
  | nil => intro h; rfl
  | cons b rest ih =>
    intro h
    rw [Mem.clear_statusline]
    exact ih _

theorem mem_copy_statusline_append (l to_ : List Mem.status_block) :
    Mem.copy_statusline l to_ = to_ ++ l := by
  induction l generalizing to_ with
  | nil => simp [Mem.copy_statusline]
  | cons b rest ih => simp [Mem.copy_statusline, ih]

theorem mem_stdin_end_array_head (s : Mem.Store) :
    (Mem.stdin_end_array s).1.statusline_head = s.statusline_buffer := by
  show Mem.copy_statusline s.statusline_buffer (Mem.clear_statusline s.heap s.statusline_head true).2
    = _
  rw [mem_clear_statusline_nil, mem_copy_statusline_append]
  rfl

theorem mem_inner_self (s : Mem.Store) (ret : Nat) : Mem.inner s (s, ret) :=
  ⟨rfl, rfl, mem_keeps_refl _ _ _⟩

theorem mem_inner_set (s : Mem.Store) (b : Mem.status_block) (ret : Nat) :
    Mem.inner s (Mem.set_block s b, ret) :=
  ⟨rfl, rfl, mem_keeps_refl _ _ _⟩

theorem mem_inner_pointer (s : Mem.Store) (o : Mem.Obj)
    (put : Mem.status_block → Option Nat → Mem.status_block) (ret : Nat) :
    Mem.inner s (Mem.set_pointer s (Mem.alloc s.heap o) put, ret) :=
  ⟨rfl, rfl, mem_keeps_alloc _ _ _ _ (le_refl _)⟩

theorem mem_inner_ite (s : Mem.Store) (c : Prop) [Decidable c] (a b : Mem.Store × Nat)
    (ha : Mem.inner s a) (hb : Mem.inner s b) : Mem.inner s (if c then a else b) := by
  split
  · exact ha
  · exact hb

theorem mem_stdin_boolean_inner (s : Mem.Store) (val : Bool) :
    Mem.inner s (Mem.stdin_boolean s val) := by
  unfold Mem.stdin_boolean
  cases s.parser_context.last_map_key with
  | none => exact mem_inner_self s 0
  | some k =>
    dsimp only
    repeat' first
      | apply mem_inner_ite
      | apply mem_inner_set

theorem mem_stdin_integer_inner (s : Mem.Store) (val : Int) :
    Mem.inner s (Mem.stdin_integer s val) := by
  unfold Mem.stdin_integer
  cases s.parser_context.last_map_key with
  | none => exact mem_inner_self s 0
  | some k =>
    dsimp only
    repeat' first
      | apply mem_inner_ite
      | apply mem_inner_set

theorem mem_stdin_string_inner (s : Mem.Store) (val : String) :
    Mem.inner s (Mem.stdin_string s val) := by
  unfold Mem.stdin_string Mem.i3string_from_markup_with_length Mem.sasprintf
  cases s.parser_context.last_map_key with
  | none => exact mem_inner_self s 0
  | some k =>
    dsimp only
    repeat' first
      | apply mem_inner_ite
      | apply mem_inner_set
      | apply mem_inner_pointer

theorem mem_stdin_start_map_block (env : Env) (s : Mem.Store) :
    (Mem.stdin_start_map env s).1.parser_context.block = Mem.default_block env := by
  unfold Mem.stdin_start_map Mem.default_block
  dsimp only
  split <;> rfl

/-- The callbacks other than array end and map end leave both statuslines as
they are, but for array start, which empties staging; none of them touches an
object that existed before. -/
theorem mem_callback_inner (env : Env) (s : Mem.Store) (e : Event)
    (h2 : e ≠ Event.end_array) (h3 : e ≠ Event.end_map) :
    (Mem.callback env s e).1.statusline_head = s.statusline_head
    ∧ (Mem.callback env s e).1.statusline_buffer
        = (if e = Event.start_array then [] else s.statusline_buffer)
    ∧ Mem.keeps s.heap.objs.length (fun _ => False) s.heap (Mem.callback env s e).1.heap := by
  cases e with
  | end_array => exact absurd rfl h2
  | end_map => exact absurd rfl h3
  | start_array =>
    show (Mem.stdin_start_array s).1.statusline_head = _
      ∧ (Mem.stdin_start_array s).1.statusline_buffer = _
      ∧ Mem.keeps _ _ _ (Mem.stdin_start_array s).1.heap
    unfold Mem.stdin_start_array
    rw [mem_clear_statusline_keep]
    exact ⟨rfl, rfl, mem_keeps_refl _ _ _⟩
  | start_map => exact ⟨rfl, rfl, mem_keeps_refl _ _ _⟩
  | map_key key => exact ⟨rfl, rfl, mem_keeps_refl _ _ _⟩
  | boolean val =>
    obtain ⟨a, b, c⟩ := mem_stdin_boolean_inner s val
    exact ⟨a, by rw [if_neg (by simp)]; exact b, c⟩
  | integer val =>
    obtain ⟨a, b, c⟩ := mem_stdin_integer_inner s val
    exact ⟨a, by rw [if_neg (by simp)]; exact b, c⟩
  | string val =>
    obtain ⟨a, b, c⟩ := mem_stdin_string_inner s val
    exact ⟨a, by rw [if_neg (by simp)]; exact b, c⟩

theorem mem_deliver_cons (env : Env) (s : Mem.Store) (e : Event) (rest : List Event) :
    Mem.deliver env s (e :: rest)
      = if (Mem.callback env s e).2 = 0 then ((Mem.callback env s e).1, false)
        else Mem.deliver env (Mem.callback env s e).1 rest := rfl

theorem mem_pointers_iff (b : Mem.status_block) (p : Nat) :
    p ∈ Mem.pointers b ↔
      (b.full_text = some p ∨ b.short_text = some p ∨ b.color = some p ∨ b.name = some p
        ∨ b.instance_ = some p ∨ b.min_width_str = some p ∨ b.background = some p
        ∨ b.border = some p) := by
  unfold Mem.pointers
  rw [List.reduceOption_mem_iff]
  simp only [List.mem_cons, List.mem_singleton, List.not_mem_nil, or_false]
  constructor
  · intro h
    rcases h with h | h | h | h | h | h | h | h
    · exact Or.inl h.symm
    · exact Or.inr (Or.inl h.symm)
    · exact Or.inr (Or.inr (Or.inl h.symm))
    · exact Or.inr (Or.inr (Or.inr (Or.inl h.symm)))
    · exact Or.inr (Or.inr (Or.inr (Or.inr (Or.inl h.symm))))
    · exact Or.inr (Or.inr (Or.inr (Or.inr (Or.inr (Or.inl h.symm)))))
    · exact Or.inr (Or.inr (Or.inr (Or.inr (Or.inr (Or.inr (Or.inl h.symm))))))
    · exact Or.inr (Or.inr (Or.inr (Or.inr (Or.inr (Or.inr (Or.inr h.symm))))))
  · intro h
    rcases h with h | h | h | h | h | h | h | h
    · exact Or.inl h.symm
    · exact Or.inr (Or.inl h.symm)
    · exact Or.inr (Or.inr (Or.inl h.symm))
    · exact Or.inr (Or.inr (Or.inr (Or.inl h.symm)))
    · exact Or.inr (Or.inr (Or.inr (Or.inr (Or.inl h.symm))))
    · exact Or.inr (Or.inr (Or.inr (Or.inr (Or.inr (Or.inl h.symm)))))
    · exact Or.inr (Or.inr (Or.inr (Or.inr (Or.inr (Or.inr (Or.inl h.symm))))))
    · exact Or.inr (Or.inr (Or.inr (Or.inr (Or.inr (Or.inr (Or.inr h.symm))))))

theorem mem_view_text_congr (objs1 objs2 : List Mem.Obj) (x : Option Nat)
    (h : ∀ p, x = some p → objs2[p]? = objs1[p]?) :
    Mem.view_text objs2 x = Mem.view_text objs1 x := by
  cases x with
  | none => rfl
  | some p =>
    show (Mem.load_text objs2 p).map some = (Mem.load_text objs1 p).map some
    unfold Mem.load_text
    rw [h p rfl]

theorem mem_view_chars_congr (objs1 objs2 : List Mem.Obj) (x : Option Nat)
    (h : ∀ p, x = some p → objs2[p]? = objs1[p]?) :
    Mem.view_chars objs2 x = Mem.view_chars objs1 x := by
  cases x with
  | none => rfl
  | some p =>
    show (Mem.load_chars objs2 p).map some = (Mem.load_chars objs1 p).map some
    unfold Mem.load_chars
    rw [h p rfl]

/-- A block looks the same in two heaps that hold the same objects at the
addresses it points to. -/
theorem mem_view_block_congr (objs1 objs2 : List Mem.Obj) (b : Mem.status_block)
    (h : ∀ p ∈ Mem.pointers b, objs2[p]? = objs1[p]?) :
    Mem.view_block objs2 b = Mem.view_block objs1 b := by
  have g : ∀ p, (b.full_text = some p ∨ b.short_text = some p ∨ b.color = some p
      ∨ b.name = some p ∨ b.instance_ = some p ∨ b.min_width_str = some p
      ∨ b.background = some p ∨ b.border = some p) → objs2[p]? = objs1[p]? :=
    fun p hp => h p ((mem_pointers_iff b p).2 hp)
  unfold Mem.view_block
  rw [mem_view_text_congr objs1 objs2 b.full_text (fun p hp => g p (Or.inl hp)),
    mem_view_text_congr objs1 objs2 b.short_text (fun p hp => g p (Or.inr (Or.inl hp))),
    mem_view_chars_congr objs1 objs2 b.color (fun p hp => g p (Or.inr (Or.inr (Or.inl hp)))),
    mem_view_chars_congr objs1 objs2 b.name
      (fun p hp => g p (Or.inr (Or.inr (Or.inr (Or.inl hp))))),
    mem_view_chars_congr objs1 objs2 b.instance_
      (fun p hp => g p (Or.inr (Or.inr (Or.inr (Or.inr (Or.inl hp)))))),
    mem_view_chars_congr objs1 objs2 b.min_width_str
      (fun p hp => g p (Or.inr (Or.inr (Or.inr (Or.inr (Or.inr (Or.inl hp))))))),
    mem_view_chars_congr objs1 objs2 b.background
      (fun p hp => g p (Or.inr (Or.inr (Or.inr (Or.inr (Or.inr (Or.inr (Or.inl hp)))))))),
    mem_view_chars_congr objs1 objs2 b.border
      (fun p hp => g p (Or.inr (Or.inr (Or.inr (Or.inr (Or.inr (Or.inr (Or.inr hp))))))))]

theorem mem_view_congr (objs1 objs2 : List Mem.Obj) (blocks : List Mem.status_block)
    (h : ∀ b ∈ blocks, ∀ p ∈ Mem.pointers b, objs2[p]? = objs1[p]?) :
    Mem.view objs2 blocks = Mem.view objs1 blocks := by
  unfold Mem.view
  exact List.map_congr_left (fun b hb => mem_view_block_congr objs1 objs2 b (h b hb))

theorem mem_free_other (h : Mem.Heap) (q p : Nat) (hpq : p ≠ q) :
    (Mem.free h q).objs[p]? = h.objs[p]? := by
  unfold Mem.free
  split
  · rfl
  · rfl
  · exact List.getElem?_set_ne (fun hh => hpq hh.symm)

theorem mem_FREE_other (h : Mem.Heap) (x : Option Nat) (p : Nat) (hp : x ≠ some p) :
    (Mem.FREE h x).objs[p]? = h.objs[p]? := by
  cases x with
  | none => rfl
  | some q => exact mem_free_other h q p (fun hh => hp (by rw [hh]))

theorem mem_I3STRING_FREE_other (h : Mem.Heap) (x : Option Nat) (p : Nat) (hp : x ≠ some p) :
    (Mem.I3STRING_FREE h x).objs[p]? = h.objs[p]? := by
  cases x with
  | none => rfl
  | some q => exact mem_free_other h q p (fun hh => hp (by rw [hh]))

/-- Source `clear_statusline` with `free_resources` leaves the objects alone
that no block of the statusline points to. -/
theorem mem_clear_statusline_other (l : List Mem.status_block) (p : Nat) :
    ∀ h : Mem.Heap, (∀ b ∈ l, p ∉ Mem.pointers b) →
      (Mem.clear_statusline h l true).1.objs[p]? = h.objs[p]? := by
  induction l with
  | nil => intro h _; rfl
  | cons first rest ih =>
    intro h hp
    have hf := hp first (List.mem_cons_self _ _)
    rw [mem_pointers_iff] at hf
    simp only [not_or] at hf
    obtain ⟨f1, f2, f3, f4, f5, f6, f7, f8⟩ := hf
    rw [Mem.clear_statusline, ih _ (fun b hb => hp b (List.mem_cons_of_mem _ hb))]
    rw [if_pos rfl]
    rw [mem_FREE_other _ _ _ f8, mem_FREE_other _ _ _ f7, mem_FREE_other _ _ _ f6,
      mem_FREE_other _ _ _ f5, mem_FREE_other _ _ _ f4, mem_FREE_other _ _ _ f3,
      mem_I3STRING_FREE_other _ _ _ f2, mem_I3STRING_FREE_other _ _ _ f1]

/-- Source `stdin_end_array` when no staged block points to an object that an
active block points to: the active statusline then looks as the staging
statusline looked, block for block. -/
theorem mem_stdin_end_array_view (s : Mem.Store)
    (hd : ∀ b ∈ s.statusline_buffer, ∀ p ∈ Mem.pointers b,
      ∀ a ∈ s.statusline_head, p ∉ Mem.pointers a) :
    Mem.view (Mem.stdin_end_array s).1.heap.objs (Mem.stdin_end_array s).1.statusline_head
      = Mem.view s.heap.objs s.statusline_buffer := by
  rw [mem_stdin_end_array_head]
  exact mem_view_congr _ _ _
    (fun b hb p hp => mem_clear_statusline_other s.statusline_head p s.heap (hd b hb p hp))

theorem mem_allocated_mono (objs1 objs2 : List Mem.Obj) (blocks : List Mem.status_block)
    (hl : objs1.length ≤ objs2.length) (h : Mem.allocated objs1 blocks) :
    Mem.allocated objs2 blocks :=
  fun b hb p hp => lt_of_lt_of_le (h b hb p hp) hl

theorem mem_allocated_append (objs : List Mem.Obj) (l1 l2 : List Mem.status_block)
    (h1 : Mem.allocated objs l1) (h2 : Mem.allocated objs l2) : Mem.allocated objs (l1 ++ l2) := by
  intro b hb p hp
  rcases List.mem_append.mp hb with h | h
  · exact h1 b h p hp
  · exact h2 b h p hp

theorem mem_allocated_one (objs : List Mem.Obj) (b : Mem.status_block) :
    Mem.allocated objs [b] ↔ ∀ p ∈ Mem.pointers b, p < objs.length := by
  constructor
  · intro h p hp
    exact h b (List.mem_singleton.mpr rfl) p hp
  · intro h c hc p hp
    rw [List.mem_singleton.mp hc] at hp
    exact h p hp

theorem mem_grows_self (s : Mem.Store) (ret : Nat) : Mem.grows s (s, ret) := fun h => h

theorem mem_grows_ite (s : Mem.Store) (c : Prop) [Decidable c] (a b : Mem.Store × Nat)
    (ha : Mem.grows s a) (hb : Mem.grows s b) : Mem.grows s (if c then a else b) := by
  split
  · exact ha
  · exact hb

theorem mem_grows_set (s : Mem.Store) (b : Mem.status_block) (ret : Nat)
    (hb : Mem.pointers b = Mem.pointers s.parser_context.block) :
    Mem.grows s (Mem.set_block s b, ret) := by
  intro h
  rw [mem_allocated_one] at h ⊢
  intro p hp
  exact h p (by rw [← hb]; exact hp)

theorem mem_grows_pointer (s : Mem.Store) (o : Mem.Obj)
    (put : Mem.status_block → Option Nat → Mem.status_block) (ret : Nat)
    (hput : ∀ b q p, p ∈ Mem.pointers (put b (some q)) → p = q ∨ p ∈ Mem.pointers b) :
    Mem.grows s (Mem.set_pointer s (Mem.alloc s.heap o) put, ret) := by
  intro h
  rw [mem_allocated_one] at h ⊢
  intro p hp
  show p < (s.heap.objs ++ [o]).length
  rw [List.length_append, List.length_singleton]
  rcases hput _ _ p hp with hq | hq
  · rw [hq]
    exact Nat.lt_succ_self _
  · exact Nat.lt_succ_of_lt (h p hq)

theorem mem_stdin_boolean_grows (s : Mem.Store) (val : Bool) :
    Mem.grows s (Mem.stdin_boolean s val) := by
  unfold Mem.stdin_boolean
  cases s.parser_context.last_map_key with
  | none => exact mem_grows_self s 0
  | some k =>
    dsimp only
    repeat' first
      | apply mem_grows_ite
      | exact mem_grows_set _ _ _ rfl

theorem mem_stdin_integer_grows (s : Mem.Store) (val : Int) :
    Mem.grows s (Mem.stdin_integer s val) := by
  unfold Mem.stdin_integer
  cases s.parser_context.last_map_key with
  | none => exact mem_grows_self s 0
  | some k =>
    dsimp only
    repeat' first
      | apply mem_grows_ite
      | exact mem_grows_set _ _ _ rfl

theorem mem_stdin_string_grows (s : Mem.Store) (val : String) :
    Mem.grows s (Mem.stdin_string s val) := by
  unfold Mem.stdin_string Mem.i3string_from_markup_with_length Mem.sasprintf
  cases s.parser_context.last_map_key with
  | none => exact mem_grows_self s 0
  | some k =>
    dsimp only
    repeat' first
      | apply mem_grows_ite
      | exact mem_grows_set _ _ _ rfl
      | exact mem_grows_self _ _
      | exact mem_grows_pointer _ _ _ _ (by
          intro b q p hp
          rw [mem_pointers_iff] at hp
          rw [mem_pointers_iff]
          dsimp only at hp
          rcases hp with h | h | h | h | h | h | h | h
          all_goals first
            | exact Or.inl (Option.some.inj h).symm
            | exact Or.inr (Or.inl h)
            | exact Or.inr (Or.inr (Or.inl h))
            | exact Or.inr (Or.inr (Or.inr (Or.inl h)))
            | exact Or.inr (Or.inr (Or.inr (Or.inr (Or.inl h))))
            | exact Or.inr (Or.inr (Or.inr (Or.inr (Or.inr (Or.inl h)))))
            | exact Or.inr (Or.inr (Or.inr (Or.inr (Or.inr (Or.inr (Or.inl h))))))
            | exact Or.inr (Or.inr (Or.inr (Or.inr (Or.inr (Or.inr (Or.inr (Or.inl h)))))))
            | exact Or.inr (Or.inr (Or.inr (Or.inr (Or.inr (Or.inr (Or.inr (Or.inr h))))))))

theorem mem_free_length (h : Mem.Heap) (q : Nat) : (Mem.free h q).objs.length = h.objs.length := by
  unfold Mem.free
  split
  · rfl
  · rfl
  · exact List.length_set _ _ _

theorem mem_FREE_length (h : Mem.Heap) (x : Option Nat) :
    (Mem.FREE h x).objs.length = h.objs.length := by
  cases x with
  | none => rfl
  | some q => exact mem_free_length h q

theorem mem_I3STRING_FREE_length (h : Mem.Heap) (x : Option Nat) :
    (Mem.I3STRING_FREE h x).objs.length = h.objs.length := by
  cases x with
  | none => rfl
  | some q => exact mem_free_length h q

theorem mem_clear_statusline_length (l : List Mem.status_block) (f : Bool) :
    ∀ h : Mem.Heap, (Mem.clear_statusline h l f).1.objs.length = h.objs.length := by
  induction l with
  | nil => intro h; rfl
  | cons first rest ih =>
    intro h
    rw [Mem.clear_statusline, ih]
    split
    · rw [mem_FREE_length, mem_FREE_length, mem_FREE_length, mem_FREE_length, mem_FREE_length,
        mem_FREE_length, mem_I3STRING_FREE_length, mem_I3STRING_FREE_length]
    · rfl

theorem mem_ensure_full_text_allocated (h : Mem.Heap) (b : Mem.status_block)
    (hb : ∀ p ∈ Mem.pointers b, p < h.objs.length) :
    ∀ p ∈ Mem.pointers (Mem.ensure_full_text h b).2, p < (Mem.ensure_full_text h b).1.objs.length := by
  unfold Mem.ensure_full_text
  split
  · intro p hp
    show p < (h.objs ++ [Mem.Obj.i3string SPEC_VIOLATION false]).length
    rw [List.length_append, List.length_singleton]
    rw [mem_pointers_iff] at hp
    dsimp only at hp
    rcases hp with g | g | g | g | g | g | g | g
    · rw [← Option.some.inj g]
      exact Nat.lt_succ_self _
    · exact Nat.lt_succ_of_lt (hb p ((mem_pointers_iff b p).2 (Or.inr (Or.inl g))))
    · exact Nat.lt_succ_of_lt (hb p ((mem_pointers_iff b p).2 (Or.inr (Or.inr (Or.inl g)))))
    · exact Nat.lt_succ_of_lt
        (hb p ((mem_pointers_iff b p).2 (Or.inr (Or.inr (Or.inr (Or.inl g))))))
    · exact Nat.lt_succ_of_lt
        (hb p ((mem_pointers_iff b p).2 (Or.inr (Or.inr (Or.inr (Or.inr (Or.inl g)))))))
    · exact Nat.lt_succ_of_lt
        (hb p ((mem_pointers_iff b p).2 (Or.inr (Or.inr (Or.inr (Or.inr (Or.inr (Or.inl g))))))))
    · exact Nat.lt_succ_of_lt
        (hb p ((mem_pointers_iff b p).2
          (Or.inr (Or.inr (Or.inr (Or.inr (Or.inr (Or.inr (Or.inl g)))))))))
    · exact Nat.lt_succ_of_lt
        (hb p ((mem_pointers_iff b p).2
          (Or.inr (Or.inr (Or.inr (Or.inr (Or.inr (Or.inr (Or.inr g)))))))))
  · exact hb

theorem mem_measure_min_width_pointers (env : Env) (h : Mem.Heap) (b : Mem.status_block) :
    Mem.pointers (Mem.measure_min_width env h b).2 = Mem.pointers b := by
  unfold Mem.measure_min_width
  split
  · split
    · dsimp only
      split <;> rfl
    · rfl
  · rfl

theorem mem_stdin_end_map_buffer (env : Env) (s : Mem.Store) :
    (Mem.stdin_end_map env s).1.statusline_buffer
      = s.statusline_buffer
        ++ [(Mem.measure_min_width env (Mem.ensure_full_text s.heap s.parser_context.block).1
              (Mem.ensure_full_text s.heap s.parser_context.block).2).2] := by
  unfold Mem.stdin_end_map
  dsimp only
  split <;> rfl

theorem mem_stdin_end_map_wf (env : Env) (s : Mem.Store) (hw : Mem.wf s) :
    Mem.wf (Mem.stdin_end_map env s).1 := by
  obtain ⟨w1, w2, w3⟩ := hw
  obtain ⟨e1, -, e3, -, -, k⟩ := mem_stdin_end_map_spec env s
  have ke := (mem_ensure_full_text_spec s.heap.objs.length (fun _ => False) s.heap
    s.parser_context.block (le_refl _)).1
  have km := (mem_measure_min_width_spec env s.heap.objs.length (fun _ => False)
    (Mem.ensure_full_text s.heap s.parser_context.block).1
    (Mem.ensure_full_text s.heap s.parser_context.block).2 ke.1).1
  have hlen : (Mem.ensure_full_text s.heap s.parser_context.block).1.objs.length
      ≤ (Mem.stdin_end_map env s).1.heap.objs.length := by
    have ha := (mem_apply_markup_keeps 0 (fun _ => False)
      (Mem.measure_min_width env (Mem.ensure_full_text s.heap s.parser_context.block).1
        (Mem.ensure_full_text s.heap s.parser_context.block).2).1
      (Mem.measure_min_width env (Mem.ensure_full_text s.heap s.parser_context.block).1
        (Mem.ensure_full_text s.heap s.parser_context.block).2).2
      (fun _ _ hlt => absurd hlt (Nat.not_lt_zero _))
      (fun _ _ hlt => absurd hlt (Nat.not_lt_zero _))).1
    have hh : (Mem.stdin_end_map env s).1.heap
        = Mem.apply_markup
          (Mem.measure_min_width env (Mem.ensure_full_text s.heap s.parser_context.block).1
            (Mem.ensure_full_text s.heap s.parser_context.block).2).1
          (Mem.measure_min_width env (Mem.ensure_full_text s.heap s.parser_context.block).1
            (Mem.ensure_full_text s.heap s.parser_context.block).2).2 := by
      unfold Mem.stdin_end_map
      dsimp only
    rw [hh]
    exact le_trans km.1 ha
  refine ⟨?_, ?_, ?_⟩
  · rw [e1]
    exact mem_allocated_mono _ _ _ k.1 w1
  · rw [mem_stdin_end_map_buffer]
    apply mem_allocated_append
    · exact mem_allocated_mono _ _ _ k.1 w2
    · rw [mem_allocated_one, mem_measure_min_width_pointers]
      intro p hp
      exact lt_of_lt_of_le
        (mem_ensure_full_text_allocated s.heap s.parser_context.block
          ((mem_allocated_one _ _).1 w3) p hp) hlen
  · rw [e3]
    exact mem_allocated_mono _ _ _ k.1 w3

/-- Every callback keeps the pointers of the two statuslines and of the block
under construction at allocated addresses. -/
theorem mem_callback_wf (env : Env) (s : Mem.Store) (e : Event) (hw : Mem.wf s) :
    Mem.wf (Mem.callback env s e).1 := by
  by_cases h2 : e = Event.end_array
  · subst h2
    obtain ⟨w1, w2, w3⟩ := hw
    have hl : s.heap.objs.length ≤ (Mem.stdin_end_array s).1.heap.objs.length :=
      le_of_eq (mem_clear_statusline_length s.statusline_head true s.heap).symm
    refine ⟨?_, mem_allocated_mono _ _ _ hl w2, mem_allocated_mono _ _ _ hl w3⟩
    show Mem.allocated _ (Mem.stdin_end_array s).1.statusline_head
    rw [mem_stdin_end_array_head]
    exact mem_allocated_mono _ _ _ hl w2
  · by_cases h3 : e = Event.end_map
    · subst h3
      exact mem_stdin_end_map_wf env s hw
    · obtain ⟨w1, w2, w3⟩ := hw
      obtain ⟨a, b, k⟩ := mem_callback_inner env s e h2 h3
      refine ⟨?_, ?_, ?_⟩
      · rw [a]
        exact mem_allocated_mono _ _ _ k.1 w1
      · rw [b]
        split
        · intro c hc
          exact absurd hc (List.not_mem_nil _)
        · exact mem_allocated_mono _ _ _ k.1 w2
      · cases e with
        | end_array => exact absurd rfl h2
        | end_map => exact absurd rfl h3
        | start_array =>
          show Mem.allocated (Mem.stdin_start_array s).1.heap.objs
            [(Mem.stdin_start_array s).1.parser_context.block]
          unfold Mem.stdin_start_array
          rw [mem_clear_statusline_keep]
          exact w3
        | start_map =>
          rw [mem_allocated_one]
          show ∀ p ∈ Mem.pointers (Mem.stdin_start_map env s).1.parser_context.block, _
          rw [mem_stdin_start_map_block]
          intro p hp
          exact absurd hp (List.not_mem_nil _)
        | map_key key => exact w3
        | boolean val => exact mem_stdin_boolean_grows s val w3
        | integer val => exact mem_stdin_integer_grows s val w3
        | string val => exact mem_stdin_string_grows s val w3

/-- Whatever events the parser delivers, from the start of the program on, the
pointers of the two statuslines and of the block under construction lead to
allocated addresses. -/
theorem mem_deliver_wf (env : Env) :
    ∀ (events : List Event) (s : Mem.Store), Mem.wf s → Mem.wf (Mem.deliver env s events).1 := by
  intro events
  induction events with
  | nil => intro s hw; exact hw
  | cons e rest ih =>
    intro s hw
    rw [mem_deliver_cons]
    split
    · exact mem_callback_wf env s e hw
    · exact ih _ (mem_callback_wf env s e hw)

theorem mem_initial_store_wf : Mem.wf Mem.initial_store := by
  refine ⟨?_, ?_, ?_⟩
  · intro b hb
    exact absurd hb (List.not_mem_nil _)
  · intro b hb
    exact absurd hb (List.not_mem_nil _)
  · rw [mem_allocated_one]
    intro p hp
    exact absurd hp (List.not_mem_nil _)

/-- C1: `stdin_end_array` at the level of the machine.  For every store the
block records of the active statusline after the call are those of staging, as
many and in the same order, with the same pointers, and staging keeps its
records.  But what the previous active blocks pointed to is freed, and after
one array end the active blocks point to what the staged blocks point to: at
the second array end of `[[{"full_text":"a"}]]` staging shows the block with
the text `a`, and after the call the one active block points to the freed
text, so the active statusline no longer shows that block. -/
theorem C1_closed_stream_frees_active_text (s : Mem.Store) :
    (Mem.stdin_end_array s).1.statusline_head = s.statusline_buffer
    ∧ (Mem.stdin_end_array s).1.statusline_head.length = s.statusline_buffer.length
    ∧ (Mem.stdin_end_array s).1.statusline_buffer = s.statusline_buffer
    ∧ (Mem.stdin_end_array s).2 = 1
    ∧ Mem.deliver example_env Mem.initial_store closed_stream_events
        = ((Mem.stdin_end_array closed_stream_store).1, true)
    ∧ Mem.view closed_stream_store.heap.objs closed_stream_store.statusline_buffer
        = [some (text_block "a" false false)]
    ∧ Mem.view closed_stream_store.heap.objs closed_stream_store.statusline_head
        = [some (text_block "a" false false)]
    ∧ closed_stream_store.statusline_head.map (fun b => b.full_text) = [some 0]
    ∧ closed_stream_store.statusline_buffer.map (fun b => b.full_text) = [some 0]
    ∧ closed_stream_store.heap.objs = [Mem.Obj.i3string "a" false]
    ∧ (Mem.stdin_end_array closed_stream_store).1.heap.objs = [Mem.Obj.freed]
    ∧ (Mem.stdin_end_array closed_stream_store).1.statusline_head.map (fun b => b.full_text)
        = [some 0]
    ∧ Mem.view (Mem.stdin_end_array closed_stream_store).1.heap.objs
        (Mem.stdin_end_array closed_stream_store).1.statusline_head = [none] := by
  have h := mem_stdin_end_array_head s
  exact ⟨h, by rw [h], rfl, rfl, by decide, by decide, by decide, by decide, by decide,
    by decide, by decide, by decide, by decide⟩

end I3bar
